import Mathlib

/-! MckSampler realtime engine.

A shallow embedding of `src/src/Processing.cpp` (the realtime callback
`mck::Processing::ProcessAudioMidi`, the DSP part of `Init`, and the control
plane operation `SetConfiguration`).

Conventions of the embedding

* `std::vector` is a `List`; an index past the end is undefined behaviour in the
  source and is modelled totally: such a read yields a blank element and such a
  write is dropped.
* `float` / `double` values live in an ordered field `K` (exact arithmetic).
  `std::sqrt` and the helper `DbToLin` are parameters, so the definitions stay
  executable (`K := ℚ`) and the theorems can be read over `ℝ`.
* `unsigned` values are natural numbers; where the source subtracts or adds them
  in the mixer, the result is reduced modulo `2 ^ 32`. A conversion of an integer
  to `unsigned` is `toU32`, arithmetic on `int` is reduced to 32 bits by
  `toInt32`, and the casts of a floating-point value are `floorToInt32` and
  `floorToU32`.
* A step read the source leaves undefined (a pattern or step index past the end,
  a remainder by `nSteps = 0`) has no value: `curStep` returns `none`.
* The two-element arrays `m_config[2]`, `info[2]`, `buffer[2]` are `Slot2`.
* Condition variables, the GUI, the configuration file and the JACK port
  connections are outside the model.
-/

namespace mck

/-! ## Data model -/

/-- Modulus of the C++ `unsigned` type. -/
def U32 : Nat := 2 ^ 32

/-- Subtraction `a - b` of two `unsigned` values. -/
def usub (a b : Nat) : Nat := (a + (U32 - b % U32)) % U32

/-- Addition `a + b` of two `unsigned` values. -/
def uadd (a b : Nat) : Nat := (a + b) % U32

/-- Conversion of an integer value to the C++ `unsigned` type (32 bits): the value
reduced modulo `2 ^ 32`. -/
def toU32 (i : Int) : Nat := (i % 2 ^ 32).toNat

/-- An integer value stored in the C++ `int` type (32 bits, two's complement): the
value reduced modulo `2 ^ 32` into `[-2 ^ 31, 2 ^ 31)`. A result of `int`
arithmetic that does not fit is undefined in the source and wraps on the
targets the engine is built for. -/
def toInt32 (i : Int) : Int := (i + 2 ^ 31) % 2 ^ 32 - 2 ^ 31

/-- The cast `(int)x` of a floating-point value with the integer value `i`. A
value outside the range of `int` is undefined in the source; the conversion
instruction of the targets the engine is built for yields the smallest `int`. -/
def floorToInt32 (i : Int) : Int := if -2 ^ 31 ≤ i ∧ i < 2 ^ 31 then i else -2 ^ 31

/-- The cast `(unsigned)x` of a floating-point value with the integer value `i`.
A value outside the range of `unsigned` is undefined in the source; on the
targets the engine is built for the conversion goes through a 64-bit integer,
of which the low 32 bits remain, and yields 0 beyond 64 bits. -/
def floorToU32 (i : Int) : Nat := if -2 ^ 63 ≤ i ∧ i < 2 ^ 63 then toU32 i else 0

/-- A two-element array (`T x[2]`); every index other than 0 reads slot 1. -/
structure Slot2 (α : Type) where
  s0 : α
  s1 : α
deriving DecidableEq

/-- Read `x[i]`. -/
def Slot2.get {α : Type} (p : Slot2 α) (i : Nat) : α := if i = 0 then p.s0 else p.s1

/-- Write `x[i] = a`. -/
def Slot2.set {α : Type} (p : Slot2 α) (i : Nat) (a : α) : Slot2 α :=
  if i = 0 then { p with s0 := a } else { p with s1 := a }

/-- Sequencer step: `mck::sampler::Step`. -/
structure Step where
  active : Bool
  velocity : Nat
deriving DecidableEq

/-- Sequencer pattern: `mck::sampler::Pattern`. -/
structure Pattern where
  nSteps : Nat
  steps : List Step
deriving DecidableEq

/-- Pad of a configuration: `mck::sampler::Pad`, with the members `Processing.cpp` uses. -/
structure Pad (K : Type) where
  available : Bool
  tone : Nat
  ctrl : Nat
  samplePath : String
  sampleName : String
  sampleIdx : Nat
  gain : K
  pan : K
  lengthMs : K
  lengthSamps : Nat
  gainLeftLin : K
  gainRightLin : K
  pitch : K
  nPatterns : Nat
  patterns : List Pattern
deriving DecidableEq

/-- Catalog entry of a sample: `mck::sampler::Sample`, with the members `Config.cpp`
serialises. -/
structure Sample where
  available : Bool
  name : String
  relativePath : String
  fullPath : String
  numChannels : Nat
  numFrames : Nat
  sampleRate : Nat
deriving DecidableEq

/-- Configuration: `mck::sampler::Config`, with the members `Processing.cpp` uses. -/
structure Config (K : Type) where
  tempo : K
  numPads : Nat
  pads : List (Pad K)
  midiChan : Nat
  reconnect : Bool
  midiInConnections : List String
  midiOutConnections : List String
  audioLeftConnections : List String
  audioRightConnections : List String
deriving DecidableEq

/-- Voice of the pool (an element of `m_voices`). -/
structure Voice (K : Type) where
  playSample : Bool
  padIdx : Nat
  startIdx : Nat
  bufferIdx : Nat
  bufferLen : Nat
  gainL : K
  gainR : K
  pitch : K
deriving DecidableEq

/-- Metadata of a decoded wave file: `mck::WaveInfo`, with the fields the engine reads. -/
structure WaveInfo (K : Type) where
  valid : Bool
  numChans : Nat
  lengthMs : K
deriving DecidableEq

/-- Per-pad double-buffered sample (an element of `m_samples`). -/
structure SampleSlot (K : Type) where
  info : Slot2 (WaveInfo K)
  buffer : Slot2 (List (List K))
  curSample : Nat
  update : Bool
deriving DecidableEq

/-- Modelled from the spec: the transport state enumeration (`TS_RUNNING` and the
other states), declared in the transport header; the engine only tests for
`TS_RUNNING` and for a change of state. -/
inductive TState where
  | TS_IDLE
  | TS_RUNNING
deriving DecidableEq

/-- Transport snapshot `TransportState` filled in by `m_transport.Process`. -/
structure TransportState where
  state : TState
  beat : Int
  pulse : Int
  nPulses : Int
  pulseIdx : Nat
deriving DecidableEq

/-- One inbound MIDI event: `time` and the bytes `buffer[0]`, `buffer[1]`, `buffer[2]`. -/
structure MidiEvent where
  time : Nat
  status : Nat
  data1 : Nat
  data2 : Nat
deriving DecidableEq

/-- The members of `mck::Processing` the model follows. `allocLog` is a ghost
field without a counterpart in the source: each voice assignment appends the
slot it wrote and the record it stored; nothing ever reads it. -/
structure Engine (K : Type) where
  isInitialized : Bool
  config : Slot2 (Config K)
  curConfig : Nat
  newConfig : Nat
  updateConfig : Bool
  bufferSize : Nat
  sampleRate : Nat
  transportStep : Int
  transportRate : Nat
  transportState : TransportState
  numVoices : Nat
  voiceIdx : Nat
  voices : List (Voice K)
  samples : List (SampleSlot K)
  samplePackPath : String
  allocLog : List (Nat × Voice K)

/-- What one period receives from outside: the frame count, the transport
snapshot, the MIDI events of `midi_in`, the content of the UI trigger queue and
the host's two output buffers as they are before the call. -/
structure PeriodInput (K : Type) where
  nframes : Nat
  ts : TransportState
  midi : List MidiEvent
  triggers : List (Nat × K)
  out_l : List K
  out_r : List K

section Realtime

variable {K : Type} [LinearOrderedField K]

/-- Element read past the end of `pads`. -/
def Pad.blank : Pad K :=
  { available := false, tone := 0, ctrl := 0, samplePath := "", sampleName := "",
    sampleIdx := 0, gain := 0, pan := 0, lengthMs := 0, lengthSamps := 0,
    gainLeftLin := 0, gainRightLin := 0, pitch := 0, nPatterns := 0, patterns := [] }

/-- A pattern without steps. -/
def Pattern.blank : Pattern := { nSteps := 0, steps := [] }

/-- An inactive step, the target an element of `get<std::vector<Step>>()` is read
into (`from_json` assigns both members). -/
def Step.blank : Step := { active := false, velocity := 0 }

/-- Element read past the end of `m_voices`. -/
def Voice.blank : Voice K :=
  { playSample := false, padIdx := 0, startIdx := 0, bufferIdx := 0, bufferLen := 0,
    gainL := 0, gainR := 0, pitch := 0 }

/-- Metadata read past the end of `m_samples`. -/
def WaveInfo.blank : WaveInfo K := { valid := false, numChans := 0, lengthMs := 0 }

/-- Element read past the end of `m_samples`. -/
def SampleSlot.blank : SampleSlot K :=
  { info := ⟨WaveInfo.blank, WaveInfo.blank⟩, buffer := ⟨[], []⟩, curSample := 0, update := false }

/-- The active configuration `m_config[m_curConfig]`. -/
def Engine.cur (s : Engine K) : Config K := s.config.get s.curConfig

/-- Pad `m_config[m_curConfig].pads[j]`. -/
def Engine.pad (s : Engine K) (j : Nat) : Pad K := s.cur.pads.getD j Pad.blank

/-- Store into `m_config[m_curConfig].pads[j].gain`. -/
def Engine.setPadGain (s : Engine K) (j : Nat) (g : K) : Engine K :=
  let pad : Pad K := { (s.pad j) with gain := g }
  let cfg : Config K := { s.cur with pads := s.cur.pads.set j pad }
  { s with config := s.config.set s.curConfig cfg }

/-- The eight stores into `m_voices[m_voiceIdx]` followed by
`m_voiceIdx = (m_voiceIdx + 1) % m_numVoices`, as repeated at each trigger site. -/
def assign (s : Engine K) (v : Voice K) : Engine K :=
  { s with
    voices := s.voices.set s.voiceIdx v
    voiceIdx := (s.voiceIdx + 1) % s.numVoices
    allocLog := s.allocLog ++ [(s.voiceIdx, v)] }

/-- Record written for a note-on that matches pad `j` (lines 369-376). -/
def noteOnVoice (ev : MidiEvent) (j : Nat) (pad : Pad K) : Voice K :=
  { playSample := true
    padIdx := j
    startIdx := ev.time
    bufferIdx := 0
    bufferLen := pad.lengthSamps
    gainL := (((ev.data2 &&& 0x7f : Nat) : K) / 127) * pad.gainLeftLin
    gainR := (((ev.data2 &&& 0x7f : Nat) : K) / 127) * pad.gainRightLin
    pitch := pad.pitch }

/-- Body of the note-on loop over `j` (lines 367-379). -/
def noteOnStep (ev : MidiEvent) (s : Engine K) (j : Nat) : Engine K :=
  if (ev.data1 &&& 0x7f) = (s.pad j).tone ∧ (s.pad j).available = true then
    assign s (noteOnVoice ev j (s.pad j))
  else s

/-- Note-on branch: `for (j = 0; j < numPads; j++)` (lines 365-380). -/
def noteOn (s : Engine K) (ev : MidiEvent) : Engine K :=
  (List.range s.cur.numPads).foldl (noteOnStep ev) s

/-- Body of the control-change loop over `j` (lines 386-390). -/
def controlChangeStep (ev : MidiEvent) (s : Engine K) (j : Nat) : Engine K :=
  if (ev.data1 &&& 0x7f) = (s.pad j).ctrl then
    s.setPadGain j (((ev.data2 &&& 0x7f : Nat) : K) / 127)
  else s

/-- Control-change branch (lines 384-391). -/
def controlChange (s : Engine K) (ev : MidiEvent) : Engine K :=
  (List.range s.cur.numPads).foldl (controlChangeStep ev) s

/-- Body of the MIDI event loop (lines 315-393). -/
def midiStep (s : Engine K) (ev : MidiEvent) : Engine K :=
  let sysMsg : Bool := (ev.status &&& 0xf0) == 0xf0
  let chan : Nat := ev.status &&& 0x0f
  if sysMsg = false ∧ chan = s.cur.midiChan then
    if (ev.status &&& 0xf0) = 0x90 then noteOn s ev
    else if (ev.status &&& 0xf0) = 0xb0 then controlChange s ev
    else s
  else s

/-- The MIDI event loop (lines 313-394). -/
def midiPhase (s : Engine K) (evs : List MidiEvent) : Engine K :=
  evs.foldl midiStep s

/-- Record written for a UI trigger of pad `idx` (lines 408-415). -/
def triggerVoice (idx : Nat) (strength : K) (pad : Pad K) : Voice K :=
  { playSample := true
    padIdx := idx
    startIdx := 0
    bufferIdx := 0
    bufferLen := pad.lengthSamps
    gainL := pad.gainLeftLin * strength
    gainR := pad.gainRightLin * strength
    pitch := pad.pitch }

/-- Body of the UI trigger loop (lines 401-419). -/
def triggerStep (s : Engine K) (t : Nat × K) : Engine K :=
  if t.1 < s.cur.numPads then
    if (s.pad t.1).available = true then assign s (triggerVoice t.1 t.2 (s.pad t.1))
    else s
  else s

/-- Draining the UI trigger queue (lines 398-420). -/
def triggerPhase (s : Engine K) (q : List (Nat × K)) : Engine K :=
  q.foldl triggerStep s

/-- Step index of the period (lines 297-303), an `int`: `-1` unless the transport
is running. `std::floor(pulse / nPulses * 4.0)` is the floor of the exact
quotient, `Int.fdiv (pulse * 4) nPulses`, and not a finite value when `nPulses`
is 0; the product and the sum are `int` arithmetic; `%=` truncates towards
zero. -/
def stepIndex (ts : TransportState) : Int :=
  if ts.state = TState.TS_RUNNING then
    let stepIdx : Int := toInt32 (ts.beat * 4)
    let floor : Int :=
      if ts.nPulses = 0 then -2 ^ 31 else floorToInt32 (Int.fdiv (ts.pulse * 4) ts.nPulses)
    let stepIdx : Int := toInt32 (stepIdx + floor)
    Int.tmod stepIdx 16
  else -1

/-- Record written for an active sequencer step of pad `padIdx` (lines 445-453). -/
def stepVoice (padIdx startIdx : Nat) (pad : Pad K) (st : Step) : Voice K :=
  { playSample := true
    padIdx := padIdx
    startIdx := startIdx
    bufferIdx := 0
    bufferLen := pad.lengthSamps
    gainL := pad.gainLeftLin * ((st.velocity : K) / 127)
    gainR := pad.gainRightLin * ((st.velocity : K) / 127)
    pitch := pad.pitch }

/-- Step `pad.patterns[curPatIdx].steps[curStepIdx]` the sequencer looks at
(lines 440-443), for the pattern index computed at line 426. The read has no
value when `curPatIdx` is past the end of `patterns`, when `nSteps` is 0 (the
remainder of line 441 divides by zero) or when `curStepIdx` is past the end of
`steps`. -/
def curStep (stepIdx : Int) (pad : Pad K) : Option Step :=
  let patternIdx : Nat := floorToU32 (Int.fdiv stepIdx 16)
  let curPatIdx : Nat := patternIdx % pad.nPatterns
  match pad.patterns[curPatIdx]? with
  | none => none
  | some pat =>
    if pat.nSteps = 0 then none
    else pat.steps[toU32 stepIdx % pat.nSteps]?

/-- Body of the loop over the pads of the active configuration (lines 429-457);
`p` is the running `padIdx` paired with the pad. Where the step read has no
value the source is undefined; the model leaves the engine as it is. -/
def transportStepPad (ts : TransportState) (stepIdx : Int) (s : Engine K)
    (p : Nat × Pad K) : Engine K :=
  if p.2.available = false then s
  else if p.2.nPatterns = 0 then s
  else
    match curStep stepIdx p.2 with
    | some st =>
      if st.active = true then assign s (stepVoice p.1 (ts.pulseIdx % s.bufferSize) p.2 st)
      else s
    | none => s

/-- Sequencer trigger and transport bookkeeping (lines 423-473). -/
def transportPhase (s : Engine K) (ts : TransportState) : Engine K :=
  let stepIdx := stepIndex ts
  if 0 ≤ stepIdx ∧ stepIdx ≠ s.transportStep then
    let s1 := s.cur.pads.enum.foldl (transportStepPad ts stepIdx) s
    { s1 with
      transportStep := stepIdx
      transportState := ts
      transportRate := s1.transportRate + s1.bufferSize }
  else if s.sampleRate ≤ s.transportRate ∨ ts.state ≠ s.transportState.state then
    { s with transportState := ts, transportRate := 0 }
  else
    { s with transportRate := s.transportRate + s.bufferSize }

/-- Commit of staged samples (lines 483-490). -/
def commitSamples (samples : List (SampleSlot K)) : List (SampleSlot K) :=
  samples.map fun smp =>
    if smp.update = true then { smp with update := false, curSample := 1 - smp.curSample }
    else smp

/-- The statement `out[i] += x`. -/
def addAt (out : List K) (i : Nat) (x : K) : List K := List.modify (fun y => y + x) i out

/-- Frame `buffer[c][i]` of a decoded sample. -/
def frame (buffer : List (List K)) (c i : Nat) : K := (buffer.getD c []).getD i 0

/-- Mono mixing loop (lines 535-539). -/
def mixMono (buffer : List (List K)) (v : Voice K) (len : Nat)
    (o : List K × List K) : List K × List K :=
  (List.range len).foldl (fun o i =>
    (addAt o.1 (uadd v.startIdx i) (frame buffer 0 (uadd v.bufferIdx i) * v.gainL),
     addAt o.2 (uadd v.startIdx i) (frame buffer 0 (uadd v.bufferIdx i) * v.gainR))) o

/-- Gain the stereo branch applies for a voice gain `g` (lines 525-526). -/
def stereoGain (sqrt : K → K) (g : K) : K := min 1 (g * sqrt 2)

/-- Stereo mixing loop (lines 525-531). -/
def mixStereo (sqrt : K → K) (buffer : List (List K)) (v : Voice K) (len : Nat)
    (o : List K × List K) : List K × List K :=
  (List.range len).foldl (fun o i =>
    (addAt o.1 (uadd v.startIdx i) (frame buffer 0 (uadd v.bufferIdx i) * stereoGain sqrt v.gainL),
     addAt o.2 (uadd v.startIdx i) (frame buffer 1 (uadd v.bufferIdx i) * stereoGain sqrt v.gainR))) o

/-- The value of `len` at line 520. -/
def mixLen (bufferSize : Nat) (v : Voice K) : Nat :=
  usub (min bufferSize (usub v.bufferLen v.bufferIdx)) v.startIdx

/-- Metadata of the live sample of pad `i`: `m_samples[i].info[m_samples[i].curSample]`
(line 506). -/
def liveInfo (samples : List (SampleSlot K)) (i : Nat) : WaveInfo K :=
  (samples.getD i SampleSlot.blank).info.get (samples.getD i SampleSlot.blank).curSample

/-- PCM of the live sample of pad `i`: `m_samples[i].buffer[m_samples[i].curSample]`
(line 514). -/
def liveBuffer (samples : List (SampleSlot K)) (i : Nat) : List (List K) :=
  (samples.getD i SampleSlot.blank).buffer.get (samples.getD i SampleSlot.blank).curSample

/-- Body of the loop over the voices (lines 501-571): the voice after the step
and the output buffers after it. -/
def mixVoice (sqrt : K → K) (samples : List (SampleSlot K)) (bufferSize : Nat)
    (v : Voice K) (o : List K × List K) : Voice K × (List K × List K) :=
  if v.playSample = false then (v, o)
  else
    let info := liveInfo samples v.padIdx
    if info.valid = false then ({ v with playSample := false }, o)
    else
      let buffer := liveBuffer samples v.padIdx
      let len := mixLen bufferSize v
      let o1 := if 1 < info.numChans then mixStereo sqrt buffer v len o else mixMono buffer v len o
      let bufferIdx := uadd v.bufferIdx len
      ({ v with
          bufferIdx := bufferIdx
          startIdx := 0
          playSample := if v.bufferLen ≤ bufferIdx then false else v.playSample }, o1)

/-- The loop over `m_voices` (lines 499-572), in slot order. -/
def mixVoices (sqrt : K → K) (samples : List (SampleSlot K)) (bufferSize : Nat) :
    List (Voice K) → List K × List K → List (Voice K) × (List K × List K)
  | [], o => ([], o)
  | v :: vs, o =>
    let r := mixVoice sqrt samples bufferSize v o
    let rs := mixVoices sqrt samples bufferSize vs r.2
    (r.1 :: rs.1, rs.2)

/-- The statement `memset(out, 0, nframes * sizeof(float))`. -/
def zeroFrames (nframes : Nat) (out : List K) : List K :=
  List.replicate (min nframes out.length) 0 ++ out.drop nframes

/-- Observation of a pending configuration swap (lines 288-292). -/
def swapConfig (s : Engine K) : Engine K :=
  if s.updateConfig = true then { s with curConfig := s.newConfig, updateConfig := false }
  else s

/-- Everything a period does before the samples are committed: configuration
swap, MIDI events, UI triggers, sequencer (lines 288-473). -/
def collectPhase (s : Engine K) (inp : PeriodInput K) : Engine K :=
  transportPhase (triggerPhase (midiPhase (swapConfig s) inp.midi) inp.triggers) inp.ts

/-- The realtime callback `ProcessAudioMidi(nframes)`: the engine after the
period and the two output buffers as handed to the sample explorer (line 574). -/
def ProcessAudioMidi (sqrt : K → K) (s : Engine K) (inp : PeriodInput K) :
    Engine K × (List K × List K) :=
  if s.isInitialized = false then (s, (inp.out_l, inp.out_r))
  else
    let s1 := collectPhase s inp
    let samples := commitSamples s1.samples
    let r := mixVoices sqrt samples s1.bufferSize s1.voices
      (zeroFrames inp.nframes inp.out_l, zeroFrames inp.nframes inp.out_r)
    ({ s1 with samples := samples, voices := r.1 }, r.2)

end Realtime

/-! ## Control plane -/

section Control

variable {K : Type} [LinearOrderedField K] [FloorRing K]

/-- What `Processing.cpp` takes from outside its own file: the two constants of
the configuration header, the value of a default-constructed pad, `std::sqrt`,
the helper `DbToLin`, the file system (path resolution against the sample pack
directory, `fs::exists`) and the wave importer, which receives the path, the
sample rate and the staging buffer and returns the metadata and the buffer. -/
structure Ext (K : Type) where
  SAMPLER_NUM_PADS : Nat
  SAMPLER_VOICES_PER_PAD : Nat
  padDefault : Pad K
  sqrt : K → K
  DbToLin : K → K
  resolve : String → String → String
  fsExists : String → Bool
  ImportWaveFile : String → Nat → List (List K) → WaveInfo K × List (List K)

/-- The call `v.resize(n)` with new elements equal to `d`. -/
def resize {α : Type} (l : List α) (n : Nat) (d : α) : List α :=
  l.take n ++ List.replicate (n - l.length) d

/-- Preparation of the DSP structures in `Init` (lines 72-76). -/
def initDsp (x : Ext K) (s : Engine K) : Engine K :=
  { s with
    numVoices := x.SAMPLER_VOICES_PER_PAD * x.SAMPLER_NUM_PADS
    voiceIdx := 0
    samples := resize s.samples x.SAMPLER_NUM_PADS SampleSlot.blank
    voices := resize s.voices (x.SAMPLER_VOICES_PER_PAD * x.SAMPLER_NUM_PADS) Voice.blank }

/-- Locals of `SetConfiguration` its loop over the pads changes. -/
structure SetCfg (K : Type) where
  config : Config K
  samples : List (SampleSlot K)
  updateSamples : List Bool

/-- Clamping and derived fields of one pad (lines 726-731); `lengthSamps` is the
floor of the exact product, converted to `unsigned`. -/
def derivePad (x : Ext K) (sampleRate : Nat) (pad : Pad K) : Pad K :=
  let gain := min 6 (max (-200) pad.gain)
  let pan := min 100 (max (-100) pad.pan)
  let gainLin := x.DbToLin gain
  { pad with
    gain := gain
    pan := pan
    gainLeftLin := gainLin * x.sqrt ((100 - pan) / 200)
    gainRightLin := gainLin * x.sqrt ((100 + pan) / 200)
    lengthSamps := floorToU32 ⌊pad.lengthMs * (sampleRate : K) / 1000⌋ }

/-- The decision `updateWave` (lines 693-705); `pad` is `config.pads[i]` at
that point and `curPad` the pad of the active configuration. -/
def updateWave (curNumPads numPads : Nat) (pad curPad : Pad K) : Bool :=
  if curNumPads < numPads then true
  else if pad.samplePath ≠ curPad.samplePath then true
  else if pad.available = false then true
  else false

/-- Body of the loop over the pads in `SetConfiguration` (lines 677-731). -/
def setConfigurationPad (x : Ext K) (s : Engine K) (st : SetCfg K) (i : Nat) : SetCfg K :=
  let pad0 : Pad K := { (st.config.pads.getD i Pad.blank) with available := false }
  let samplePath := x.resolve s.samplePackPath pad0.samplePath
  if x.fsExists samplePath = false then
    { st with config := { st.config with pads := st.config.pads.set i pad0 } }
  else
    let pad1 : Pad K := { pad0 with available := true }
    let smp := st.samples.getD i SampleSlot.blank
    if updateWave s.cur.numPads st.config.numPads pad1 (s.pad i) = true then
      let newSample := 1 - smp.curSample
      let r := x.ImportWaveFile samplePath s.sampleRate (smp.buffer.get newSample)
      let smp1 : SampleSlot K := { smp with buffer := smp.buffer.set newSample r.2 }
      if r.1.valid = true then
        let pad2 : Pad K := { pad1 with available := true, lengthMs := r.1.lengthMs }
        { config := { st.config with pads := st.config.pads.set i (derivePad x s.sampleRate pad2) }
          samples := st.samples.set i { smp1 with info := smp1.info.set newSample r.1 }
          updateSamples := st.updateSamples.set i true }
      else
        let pad2 : Pad K := { pad1 with available := false }
        { st with
          config := { st.config with pads := st.config.pads.set i (derivePad x s.sampleRate pad2) }
          samples := st.samples.set i smp1 }
    else
      let pad2 : Pad K :=
        if pad1.available = true then
          { pad1 with lengthMs := min pad1.lengthMs (smp.info.get smp.curSample).lengthMs }
        else pad1
      { st with
        config := { st.config with pads := st.config.pads.set i (derivePad x s.sampleRate pad2) } }

/-- Body of the loop that raises the `update` flags (lines 742-748). -/
def raiseUpdate (updateSamples : List Bool) (samples : List (SampleSlot K)) (i : Nat) :
    List (SampleSlot K) :=
  if updateSamples.getD i false = true then
    samples.set i { (samples.getD i SampleSlot.blank) with update := true }
  else samples

/-- The pads `SetConfiguration` starts from: the input pads, resized to
`SAMPLER_NUM_PADS` when their number differs (lines 668-671). -/
def inputPads (x : Ext K) (config : Config K) : List (Pad K) :=
  if config.pads.length ≠ x.SAMPLER_NUM_PADS then resize config.pads x.SAMPLER_NUM_PADS x.padDefault
  else config.pads

/-- The configuration `SetConfiguration` publishes together with the sample
store after its loop over the pads (lines 668-732). -/
def repairConfig (x : Ext K) (s : Engine K) (config : Config K) : SetCfg K :=
  let pads := inputPads x config
  let config1 : Config K := { config with pads := pads, numPads := pads.length }
  (List.range config1.numPads).foldl (setConfigurationPad x s)
    { config := config1, samples := s.samples
      updateSamples := List.replicate config1.numPads false }

/-- The control plane operation `SetConfiguration(config, connect)` (lines
666-752); the wait for a period in flight and everything after the publish
(GUI message, configuration file, port connections) are outside the model. -/
def SetConfiguration (x : Ext K) (s : Engine K) (config : Config K) : Engine K :=
  let st := repairConfig x s config
  let samples := (List.range st.config.numPads).foldl (raiseUpdate st.updateSamples) st.samples
  let newConfig := 1 - s.curConfig
  { s with
    samples := samples
    newConfig := newConfig
    config := s.config.set newConfig st.config
    updateConfig := true }

end Control

/-! ## Configuration file (Config.cpp) -/

section ConfigFile

/-- A JSON value as `nlohmann::json` holds it; an object is its list of members. -/
inductive Json (K : Type) where
  | null
  | boolean (b : Bool)
  | number_unsigned (n : Nat)
  | number_integer (i : Int)
  | number_float (x : K)
  | string (s : String)
  | array (l : List (Json K))
  | object (m : List (String × Json K))

/-- The two exceptions of `nlohmann::json` the deserialisers can meet. -/
inductive JsonError where
  | out_of_range
  | type_error
deriving DecidableEq

/-- Pad as `Config.cpp` has it: `mck::sampler::Pad` with the members that file
names. It stores the sample under `sample` and keeps one linear gain `gainLin`
(line 163); neither a pan, a length nor a sample name is named there. -/
structure sampler.Pad (K : Type) where
  available : Bool
  tone : Nat
  ctrl : Nat
  sample : String
  sampleIdx : Nat
  gain : K
  gainLin : K
  pitch : K
  nPatterns : Nat
  patterns : List Pattern
deriving DecidableEq

/-- Configuration as `Config.cpp` has it: `mck::sampler::Config` with the members
that file names. -/
structure sampler.Config (K : Type) where
  tempo : K
  numPads : Nat
  numSamples : Nat
  pads : List (sampler.Pad K)
  samples : List Sample
  midiChan : Nat
  reconnect : Bool
  midiInConnections : List String
  midiOutConnections : List String
  audioLeftConnections : List String
  audioRightConnections : List String
deriving DecidableEq

variable {K : Type} [LinearOrderedField K] [FloorRing K]

/-- Members of an object after `m[key] = v`. -/
def setMember (m : List (String × Json K)) (key : String) (v : Json K) :
    List (String × Json K) :=
  if m.any (fun e => e.1 == key) then m.map (fun e => if e.1 == key then (key, v) else e)
  else m ++ [(key, v)]

/-- The statement `j[key] = v`: a null value becomes an object with the one
member, an object gets or replaces the member (any other kind throws in the
source; the serialisers below only ever start from a fresh null value). -/
def Json.set (j : Json K) (key : String) (v : Json K) : Json K :=
  match j with
  | .null => .object [(key, v)]
  | .object m => .object (setMember m key v)
  | other => other

/-- The call `j.at(key)`. -/
def Json.atKey (j : Json K) (key : String) : Except JsonError (Json K) :=
  match j with
  | .object m =>
    match m.lookup key with
    | some v => .ok v
    | none => .error JsonError.out_of_range
  | _ => .error JsonError.type_error

/-- The call `get<bool>()`. -/
def Json.getBool (j : Json K) : Except JsonError Bool :=
  match j with
  | .boolean b => .ok b
  | _ => .error JsonError.type_error

/-- The call `get<unsigned>()`: a number of any kind (or a boolean) converted by
`static_cast` to 32 bits. -/
def Json.getUnsigned (j : Json K) : Except JsonError Nat :=
  match j with
  | .number_unsigned n => .ok (n % U32)
  | .number_integer i => .ok (i % (U32 : Int)).toNat
  | .number_float x => .ok (⌊x⌋₊ % U32)
  | .boolean b => .ok (if b then 1 else 0)
  | _ => .error JsonError.type_error

/-- The call `get<double>()`. -/
def Json.getDouble (j : Json K) : Except JsonError K :=
  match j with
  | .number_unsigned n => .ok (n : K)
  | .number_integer i => .ok (i : K)
  | .number_float x => .ok x
  | _ => .error JsonError.type_error

/-- The call `get<std::string>()`. -/
def Json.getString (j : Json K) : Except JsonError String :=
  match j with
  | .string s => .ok s
  | _ => .error JsonError.type_error

/-- Element-wise conversion of a list that stops at the first exception. -/
def mapExcept {α β : Type} (f : α → Except JsonError β) : List α → Except JsonError (List β)
  | [] => .ok []
  | a :: as =>
    match f a with
    | .error e => .error e
    | .ok b =>
      match mapExcept f as with
      | .error e => .error e
      | .ok bs => .ok (b :: bs)

/-- The call `get<std::vector<T>>()`, with `elem` the conversion of one element. -/
def Json.getVector {α : Type} (elem : Json K → Except JsonError α) (j : Json K) :
    Except JsonError (List α) :=
  match j with
  | .array l => mapExcept elem l
  | _ => .error JsonError.type_error

/-- What `Config.cpp` takes from the configuration header: the values of a
default-constructed pad and pattern. -/
structure Defaults (K : Type) where
  pad : sampler.Pad K
  pattern : Pattern

/-- The function `to_json(json &j, const Sample &s)` applied to a fresh `j` (lines 4-13). -/
def Sample.to_json (s : Sample) : Json K :=
  ((((((Json.null.set "available" (.boolean s.available)).set "name" (.string s.name)).set
    "relativePath" (.string s.relativePath)).set "fullPath" (.string s.fullPath)).set
    "numChannels" (.number_unsigned s.numChannels)).set
    "numFrames" (.number_unsigned s.numFrames)).set "sampleRate" (.number_unsigned s.sampleRate)

/-- The function `from_json(const json &j, Sample &s)` (lines 15-24). -/
def Sample.from_json (j : Json K) (s : Sample) : Except JsonError Sample := do
  let available ← (← j.atKey "available").getBool
  let name ← (← j.atKey "name").getString
  let relativePath ← (← j.atKey "relativePath").getString
  let fullPath ← (← j.atKey "fullPath").getString
  let numChannels ← (← j.atKey "numChannels").getUnsigned
  let numFrames ← (← j.atKey "numFrames").getUnsigned
  let sampleRate ← (← j.atKey "sampleRate").getUnsigned
  pure { s with
    available := available, name := name, relativePath := relativePath, fullPath := fullPath
    numChannels := numChannels, numFrames := numFrames, sampleRate := sampleRate }

/-- The function `to_json(json &j, const Step &s)` applied to a fresh `j` (lines 26-30). -/
def Step.to_json (s : Step) : Json K :=
  (Json.null.set "active" (.boolean s.active)).set "velocity" (.number_unsigned s.velocity)

/-- The function `from_json(const json &j, Step &s)` (lines 31-35). -/
def Step.from_json (j : Json K) (s : Step) : Except JsonError Step := do
  let active ← (← j.atKey "active").getBool
  let velocity ← (← j.atKey "velocity").getUnsigned
  pure { s with active := active, velocity := min 127 velocity }

/-- The function `to_json(json &j, const Pattern &p)` applied to a fresh `j` (lines 37-41). -/
def Pattern.to_json (p : Pattern) : Json K :=
  (Json.null.set "nSteps" (.number_unsigned p.nSteps)).set "steps"
    (.array (p.steps.map Step.to_json))

/-- The function `from_json(const json &j, Pattern &p)` (lines 42-46). -/
def Pattern.from_json (j : Json K) (p : Pattern) : Except JsonError Pattern := do
  let nSteps ← (← j.atKey "nSteps").getUnsigned
  let steps ← (← j.atKey "steps").getVector (fun e => Step.from_json e Step.blank)
  pure { p with nSteps := nSteps, steps := steps }

/-- The function `to_json(json &j, const Pad &p)` applied to a fresh `j` (lines 48-59). -/
def sampler.Pad.to_json (p : sampler.Pad K) : Json K :=
  ((((((((Json.null.set "available" (.boolean p.available)).set "tone"
    (.number_unsigned p.tone)).set "ctrl" (.number_unsigned p.ctrl)).set "sample"
    (.string p.sample)).set "sampleIdx" (.number_unsigned p.sampleIdx)).set "gain"
    (.number_float p.gain)).set "pitch" (.number_float p.pitch)).set "nPatterns"
    (.number_unsigned p.nPatterns)).set "patterns" (.array (p.patterns.map Pattern.to_json))

/-- The `try` block of `from_json(const json &j, Pad &p)` (lines 72-73). -/
def sampler.Pad.patterns_from_json (d : Defaults K) (j : Json K) :
    Except JsonError (Nat × List Pattern) := do
  let nPatterns ← (← j.atKey "nPatterns").getUnsigned
  let patterns ← (← j.atKey "patterns").getVector (fun e => Pattern.from_json e d.pattern)
  pure (nPatterns, patterns)

/-- The function `from_json(const json &j, Pad &p)` (lines 61-80). -/
def sampler.Pad.from_json (d : Defaults K) (j : Json K) (p : sampler.Pad K) :
    Except JsonError (sampler.Pad K) := do
  let available ← (← j.atKey "available").getBool
  let tone ← (← j.atKey "tone").getUnsigned
  let ctrl ← (← j.atKey "ctrl").getUnsigned
  let sample ← (← j.atKey "sample").getString
  let sampleIdx ← (← j.atKey "sampleIdx").getUnsigned
  let gain ← (← j.atKey "gain").getDouble
  let pitch ← (← j.atKey "pitch").getDouble
  let p1 : sampler.Pad K := { p with
    available := available, tone := tone, ctrl := ctrl, sample := sample
    sampleIdx := sampleIdx, gain := gain, pitch := pitch }
  match sampler.Pad.patterns_from_json d j with
  | .ok r => pure { p1 with nPatterns := r.1, patterns := r.2 }
  | .error _ => pure { p1 with nPatterns := 1, patterns := resize p1.patterns 1 d.pattern }

/-- The function `to_json(json &j, const Config &c)` applied to a fresh `j` (lines 82-95). -/
def sampler.Config.to_json (c : sampler.Config K) : Json K :=
  ((((((((((Json.null.set "tempo" (.number_float c.tempo)).set "numPads"
    (.number_unsigned c.numPads)).set "numSamples" (.number_unsigned c.numSamples)).set "pads"
    (.array (c.pads.map sampler.Pad.to_json))).set "samples" (.array (c.samples.map Sample.to_json))).set
    "midiChan" (.number_unsigned c.midiChan)).set "reconnect" (.boolean c.reconnect)).set
    "midiInConnections" (.array (c.midiInConnections.map Json.string))).set
    "midiOutConnections" (.array (c.midiOutConnections.map Json.string))).set
    "audioLeftConnections" (.array (c.audioLeftConnections.map Json.string))).set
    "audioRightConnections" (.array (c.audioRightConnections.map Json.string))

/-- Value of a default-constructed `Sample`, the target an element of
`get<std::vector<Sample>>()` is read into. -/
def Sample.blank : Sample :=
  { available := false, name := "", relativePath := "", fullPath := "", numChannels := 0
    numFrames := 0, sampleRate := 0 }

/-- The function `from_json(const json &j, Config &c)` (lines 97-110). -/
def sampler.Config.from_json (d : Defaults K) (j : Json K) (c : sampler.Config K) :
    Except JsonError (sampler.Config K) := do
  let tempo ← (← j.atKey "tempo").getDouble
  let numPads ← (← j.atKey "numPads").getUnsigned
  let numSamples ← (← j.atKey "numSamples").getUnsigned
  let pads ← (← j.atKey "pads").getVector (fun e => sampler.Pad.from_json d e d.pad)
  let samples ← (← j.atKey "samples").getVector (fun e => Sample.from_json e Sample.blank)
  let midiChan ← (← j.atKey "midiChan").getUnsigned
  let reconnect ← (← j.atKey "reconnect").getBool
  let midiIn ← (← j.atKey "midiInConnections").getVector Json.getString
  let midiOut ← (← j.atKey "midiOutConnections").getVector Json.getString
  let audioLeft ← (← j.atKey "audioLeftConnections").getVector Json.getString
  let audioRight ← (← j.atKey "audioRightConnections").getVector Json.getString
  pure { c with
    tempo := tempo, numPads := numPads, numSamples := numSamples, pads := pads
    samples := samples, midiChan := midiChan, reconnect := reconnect
    midiInConnections := midiIn, midiOutConnections := midiOut
    audioLeftConnections := audioLeft, audioRightConnections := audioRight }

end ConfigFile

/-! ## Notions used to state the properties -/

section Notions

variable {K : Type}

/-- The state `s'` arises from `s` by the voice assignments `new` (slot written,
record stored), in this order: the ring index advanced by their number, the
`j`-th of them wrote slot `(s.voiceIdx + j) % s.numVoices`, and the pool is the
old pool with these writes applied. -/
def RingAlloc (s s' : Engine K) (new : List (Nat × Voice K)) : Prop :=
  s'.numVoices = s.numVoices ∧
  s'.allocLog = s.allocLog ++ new ∧
  s'.voiceIdx = (s.voiceIdx + new.length) % s.numVoices ∧
  (∀ j (h : j < new.length), (new.get ⟨j, h⟩).1 = (s.voiceIdx + j) % s.numVoices) ∧
  s'.voices = new.foldl (fun vs e => vs.set e.1 e.2) s.voices

/-- The ring index points into the pool (invariant 5 of the data model). -/
def Engine.Good (s : Engine K) : Prop := s.voiceIdx < s.numVoices

/-- The voice assignments that store the records `recs`, in this order, starting
at the ring index of `s`: the `j`-th record goes to slot
`(s.voiceIdx + j) % s.numVoices`. -/
def ringWrites (s : Engine K) (recs : List (Voice K)) : List (Nat × Voice K) :=
  recs.enum.map fun e => ((s.voiceIdx + e.1) % s.numVoices, e.2)

/-- The pool `vs` after the stores `ws` (slot, record), applied in this order. -/
def storeAll (vs : List (Voice K)) (ws : List (Nat × Voice K)) : List (Voice K) :=
  ws.foldl (fun vs e => vs.set e.1 e.2) vs

end Notions

section SequencerNotions

variable {K : Type} [LinearOrderedField K]

/-- The record the sequencer stores for the pad `p` (its position and the pad) at
the step index `stepIdx`, if it stores one: the pad is available, has
`nPatterns > 0`, and the step read is active. -/
def stepRecord (ts : TransportState) (stepIdx : Int) (bufferSize : Nat) (p : Nat × Pad K) :
    Option (Voice K) :=
  match curStep stepIdx p.2 with
  | some st =>
    if p.2.available = true ∧ 0 < p.2.nPatterns ∧ st.active = true then
      some { playSample := true
             padIdx := p.1
             startIdx := ts.pulseIdx % bufferSize
             bufferIdx := 0
             bufferLen := p.2.lengthSamps
             gainL := p.2.gainLeftLin * ((st.velocity : K) / 127)
             gainR := p.2.gainRightLin * ((st.velocity : K) / 127)
             pitch := p.2.pitch }
    else none
  | none => none

end SequencerNotions

section MixNotions

variable {K : Type} [LinearOrderedField K]

/-- The engine at the start of period `p` of a run of consecutive calls of the
realtime callback from the state `s`, period `i` receiving the input `inps i`. -/
def runPeriods (sqrt : K → K) (inps : Nat → PeriodInput K) (s : Engine K) : Nat → Engine K
  | 0 => s
  | p + 1 => (ProcessAudioMidi sqrt (runPeriods sqrt inps s p) (inps p)).1

/-- The output buffers period `p` of the run would hand on if the voice in slot
`k` were idle when the mixer starts: the callback's own steps (lines 288-496),
then the loop over the voices with slot `k` blanked. -/
def mixWithout (sqrt : K → K) (inps : Nat → PeriodInput K) (s : Engine K) (k p : Nat) :
    List K × List K :=
  let s1 := collectPhase (runPeriods sqrt inps s p) (inps p)
  (mixVoices sqrt (commitSamples s1.samples) s1.bufferSize (s1.voices.set k Voice.blank)
    (zeroFrames (inps p).nframes (inps p).out_l, zeroFrames (inps p).nframes (inps p).out_r)).2

/-- The event is a control change (status high nibble 0xB) on the channel
`midiChan` for the controller number `ctrl`. -/
def ccMatches (midiChan ctrl : Nat) (ev : MidiEvent) : Bool :=
  decide (ev.status &&& 0xf0 = 0xb0 ∧ ev.status &&& 0x0f = midiChan ∧ ev.data1 &&& 0x7f = ctrl)

/-- The pad after the control changes among the events `evs`: its gain is
`(data2 & 0x7F) / 127` of the last control change on `midiChan` for the pad's
controller number, and the pad is as it was when there is none. -/
def Pad.afterControl (midiChan : Nat) (evs : List MidiEvent) (p : Pad K) : Pad K :=
  match (evs.filter (ccMatches midiChan p.ctrl)).getLast? with
  | some ev => { p with gain := ((ev.data2 &&& 0x7f : Nat) : K) / 127 }
  | none => p

end MixNotions

section ControlNotions

variable {K : Type} [LinearOrderedField K] [FloorRing K]

/-- The clamps and the derived fields of a pad are in place (invariants 1 and 2
of the data model, with the gain and pan ranges). -/
def Pad.Derived (x : Ext K) (sampleRate : Nat) (p : Pad K) : Prop :=
  -200 ≤ p.gain ∧ p.gain ≤ 6 ∧ -100 ≤ p.pan ∧ p.pan ≤ 100 ∧
  p.gainLeftLin = x.DbToLin p.gain * x.sqrt ((100 - p.pan) / 200) ∧
  p.gainRightLin = x.DbToLin p.gain * x.sqrt ((100 + p.pan) / 200) ∧
  p.lengthSamps = floorToU32 ⌊p.lengthMs * (sampleRate : K) / 1000⌋

/-- The configuration a call of `SetConfiguration` leaves in the staging slot
`m_config[m_newConfig]` (line 751). -/
def published (x : Ext K) (s : Engine K) (config : Config K) : Config K :=
  (SetConfiguration x s config).config.get (SetConfiguration x s config).newConfig

/-- A configuration with the `gain` field of every pad blanked, to compare
configurations up to that field. -/
def Config.eraseGain (c : Config K) : Config K :=
  { c with pads := c.pads.map fun p => { p with gain := 0 } }

/-- The configuration side of the engine: both slots, the two indices and the
pending flag. -/
def Engine.cfgView (s : Engine K) : Slot2 (Config K) × Nat × Nat × Bool :=
  (s.config, s.curConfig, s.newConfig, s.updateConfig)

/-- The configuration side of the engine as the realtime thread reads it, up to
the `gain` field of the pads. -/
def Engine.cfgViewModGain (s : Engine K) : Config K × Nat × Nat × Bool :=
  (s.cur.eraseGain, s.curConfig, s.newConfig, s.updateConfig)

end ControlNotions

section FileNotions

variable {K : Type}

/-- The velocity of a step is a 32-bit value. -/
@[reducible] def Step.Fits (s : Step) : Prop := s.velocity < U32

/-- The unsigned fields of a pattern and of its steps are 32-bit values. -/
@[reducible] def Pattern.Fits (p : Pattern) : Prop := p.nSteps < U32 ∧ ∀ s ∈ p.steps, s.Fits

/-- The unsigned fields of a catalog entry are 32-bit values. -/
@[reducible] def Sample.Fits (s : Sample) : Prop :=
  s.numChannels < U32 ∧ s.numFrames < U32 ∧ s.sampleRate < U32

/-- The unsigned members of a pad and of its patterns are 32-bit values. -/
@[reducible] def sampler.Pad.Fits (p : sampler.Pad K) : Prop :=
  p.tone < U32 ∧ p.ctrl < U32 ∧ p.sampleIdx < U32 ∧ p.nPatterns < U32 ∧ ∀ q ∈ p.patterns, q.Fits

/-- The unsigned members of a configuration, of its pads and of its catalog are
32-bit values. -/
@[reducible] def sampler.Config.Fits (c : sampler.Config K) : Prop :=
  c.numPads < U32 ∧ c.numSamples < U32 ∧ c.midiChan < U32 ∧ (∀ p ∈ c.pads, p.Fits)
    ∧ ∀ s ∈ c.samples, s.Fits

/-- A step with its velocity clamped to 127. -/
def Step.clamp (s : Step) : Step := { s with velocity := min 127 s.velocity }

/-- A pattern with the velocities of its steps clamped to 127. -/
def Pattern.clamp (p : Pattern) : Pattern := { p with steps := p.steps.map Step.clamp }

end FileNotions

/-! ## Concrete engine used to evaluate the model -/

section Examples

variable (K : Type) [LinearOrderedField K]

/-- Sixteen steps, the first one active at full velocity, the others inactive. -/
def exPattern : Pattern :=
  { nSteps := 16, steps := { active := true, velocity := 127 } :: List.replicate 15 Step.blank }

/-- Pad with tone 60, controller 7, a sample of 100 frames and `exPattern`. -/
def exPad : Pad K :=
  { available := true, tone := 60, ctrl := 7, samplePath := "kick.wav", sampleName := "kick",
    sampleIdx := 0, gain := 0, pan := 0, lengthMs := 1000, lengthSamps := 100,
    gainLeftLin := 1, gainRightLin := 1, pitch := 1, nPatterns := 1, patterns := [exPattern] }

/-- Pad with tone 62, controller 8 and a pattern without an active step. -/
def exPad2 : Pad K :=
  { (exPad K) with
    tone := 62, ctrl := 8, patterns := [{ nSteps := 16, steps := List.replicate 16 Step.blank }] }

/-- Configuration with the two pads on MIDI channel 3. -/
def exConfig : Config K :=
  { tempo := 120, numPads := 2, pads := [exPad K, exPad2 K]
    midiChan := 3, reconnect := false
    midiInConnections := [], midiOutConnections := []
    audioLeftConnections := [], audioRightConnections := [] }

/-- Configuration without pads. -/
def exEmptyConfig : Config K :=
  { tempo := 120, numPads := 0, pads := [], midiChan := 0
    reconnect := false
    midiInConnections := [], midiOutConnections := []
    audioLeftConnections := [], audioRightConnections := [] }

/-- Valid mono sample of 100 frames in slot 0. -/
def exSample : SampleSlot K :=
  { info := ⟨{ valid := true, numChans := 1, lengthMs := 1000 }, WaveInfo.blank⟩
    buffer := ⟨[List.replicate 100 1], []⟩
    curSample := 0
    update := false }

/-- Stopped transport. -/
def exStopped : TransportState :=
  { state := TState.TS_IDLE, beat := 0, pulse := 0, nPulses := 24, pulseIdx := 0 }

/-- Initialised engine with two pads, four voices per pad, an idle pool and a
buffer of 16 frames. -/
def exEngine : Engine K :=
  { isInitialized := true
    config := ⟨exConfig K, exConfig K⟩
    curConfig := 0
    newConfig := 1
    updateConfig := false
    bufferSize := 16
    sampleRate := 48000
    transportStep := -1
    transportRate := 0
    transportState := exStopped
    numVoices := 8
    voiceIdx := 0
    voices := List.replicate 8 Voice.blank
    samples := [exSample K, exSample K]
    samplePackPath := ""
    allocLog := [] }

/-- Transport snapshot: running, at the given beat and pulse, 24 pulses per beat. -/
def exTransport (beat pulse : Int) : TransportState :=
  { state := TState.TS_RUNNING, beat := beat, pulse := pulse, nPulses := 24, pulseIdx := 0 }

/-- Period of 16 frames with the given MIDI events and UI triggers and a stopped
transport. -/
def exInput (midi : List MidiEvent) (triggers : List (Nat × K)) : PeriodInput K :=
  { nframes := 16
    ts := exStopped
    midi := midi
    triggers := triggers
    out_l := List.replicate 16 0
    out_r := List.replicate 16 0 }

/-- Environment with two pads and four voices per pad. The square root and the
decibel conversion are arguments; every sample file exists or not according to
`found`, and decodes to `info` with a 100-frame mono buffer. -/
def exExt (sqrt DbToLin : K → K) (found : Bool) (info : WaveInfo K) : Ext K :=
  { SAMPLER_NUM_PADS := 2
    SAMPLER_VOICES_PER_PAD := 4
    padDefault := Pad.blank
    sqrt := sqrt
    DbToLin := DbToLin
    resolve := fun dir path => dir ++ path
    fsExists := fun _ => found
    ImportWaveFile := fun _ _ _ => (info, [List.replicate 100 1]) }

/-- Environment over `ℚ` in which every sample file exists but fails to decode.
The two arithmetic helpers are the identity: they have no rational counterpart,
and no statement evaluated on this environment reads a value they compute. -/
def exBroken : Ext ℚ := exExt ℚ (fun y => y) (fun y => y) true WaveInfo.blank

/-- The engine as `Init` has it when it calls `SetConfiguration`: not yet
initialised, no configuration in either slot, the DSP structures prepared. -/
def exBoot : Engine ℚ :=
  initDsp exBroken
    { isInitialized := false
      config := ⟨exEmptyConfig ℚ, exEmptyConfig ℚ⟩
      curConfig := 0
      newConfig := 1
      updateConfig := false
      bufferSize := 16
      sampleRate := 48000
      transportStep := -1
      transportRate := 48000
      transportState := exStopped
      numVoices := 0
      voiceIdx := 0
      voices := []
      samples := []
      samplePackPath := ""
      allocLog := [] }

/-- The engine after `Init` published `exConfig` (line 133), became initialised
(line 143) and ran one period. -/
def exFirst : Engine ℚ :=
  (ProcessAudioMidi exBroken.sqrt
    { (SetConfiguration exBroken exBoot (exConfig ℚ)) with isInitialized := true }
    (exInput ℚ [] [])).1

/-- The engine after the active configuration was published once more (as a
`data.patch` message does) and one more period ran. -/
def exSecond : Engine ℚ :=
  (ProcessAudioMidi exBroken.sqrt (SetConfiguration exBroken exFirst exFirst.cur)
    (exInput ℚ [] [])).1

/-- The engine `exEngine` with a buffer of 256 frames and pads whose sample is cut
to 1 ms, 48 frames at 48 kHz. -/
def exShort : Engine ℚ :=
  { (exEngine ℚ) with
    bufferSize := 256
    config :=
      ⟨{ (exConfig ℚ) with
          pads := [{ (exPad ℚ) with lengthMs := 1, lengthSamps := 48 },
                   { (exPad2 ℚ) with lengthMs := 1, lengthSamps := 48 }] },
        exConfig ℚ⟩ }

/-- Period of 256 frames with one note-on for tone 60 on channel 3 at frame 200. -/
def exLate : PeriodInput ℚ :=
  { nframes := 256
    ts := exStopped
    midi := [{ time := 200, status := 0x93, data1 := 60, data2 := 127 }]
    triggers := []
    out_l := List.replicate 256 0
    out_r := List.replicate 256 0 }

/-- The engine `exEngine` with every step of the pattern of pad 0 active. -/
def exAllActive : Engine ℚ :=
  { (exEngine ℚ) with
    config :=
      ⟨{ (exConfig ℚ) with
          pads := [{ (exPad ℚ) with
                      patterns := [{ nSteps := 16
                                     steps := List.replicate 16 { active := true, velocity := 127 } }] },
                   exPad2 ℚ] },
        exConfig ℚ⟩ }

/-- Transport snapshot at beat `2 ^ 29 + 1`, pulse 0: four times the beat does not
fit the 32-bit `int`. -/
def exFarBeat : TransportState := exTransport (2 ^ 29 + 1) 0

/-- Inputs of a run: the UI trigger `(0, 1)` in period 0, nothing afterwards. -/
def exRun (p : Nat) : PeriodInput ℚ :=
  if p = 0 then exInput ℚ [] [(0, 1)] else exInput ℚ [] []

/-- Stereo sample of 100 frames in slot 0. -/
def exStereo : SampleSlot K :=
  { info := ⟨{ valid := true, numChans := 2, lengthMs := 1000 }, WaveInfo.blank⟩
    buffer := ⟨[List.replicate 100 1, List.replicate 100 1], []⟩
    curSample := 0
    update := false }

/-- A pad as the configuration file holds it, with the pattern `exPattern`. -/
def exFilePad : sampler.Pad ℚ :=
  { available := true, tone := 60, ctrl := 7, sample := "kick.wav", sampleIdx := 0, gain := 0
    gainLin := 1, pitch := 1, nPatterns := 1, patterns := [exPattern] }

/-- A configuration as the configuration file holds it, with `numPads = 2` and
the pads given. -/
def exFileConfig (pads : List (sampler.Pad ℚ)) : sampler.Config ℚ :=
  { tempo := 120, numPads := 2, numSamples := 0, pads := pads, samples := []
    midiChan := 3, reconnect := false
    midiInConnections := [], midiOutConnections := []
    audioLeftConnections := [], audioRightConnections := [] }

/-- A default-constructed pad and pattern as the header might have them. -/
def exDefaults : Defaults ℚ :=
  { pad := { available := false, tone := 0, ctrl := 0, sample := "", sampleIdx := 0, gain := 0
             gainLin := 0, pitch := 0, nPatterns := 0, patterns := [] }
    pattern := Pattern.blank }

end Examples

/-! ## Properties -/

section RingLemmas
variable {K : Type}

theorem ringAlloc_good {s s' : Engine K} {new} (h : RingAlloc s s' new) (hg : s.Good) : s'.Good := by
  obtain ⟨h1, -, h3, -⟩ := h
  unfold Engine.Good at *
  rw [h1, h3]
  exact Nat.mod_lt _ (by omega)

theorem ringAlloc_of_same {s s' : Engine K} (hg : s.Good) (h1 : s'.numVoices = s.numVoices)
    (h2 : s'.allocLog = s.allocLog) (h3 : s'.voiceIdx = s.voiceIdx) (h4 : s'.voices = s.voices) :
    RingAlloc s s' [] := by
  refine ⟨h1, by simp [h2], ?_, by simp, by simp [h4]⟩
  simp [h3, Nat.mod_eq_of_lt hg]

theorem ringAlloc_trans {s s1 s2 : Engine K} {a b} (h : RingAlloc s s1 a) (h' : RingAlloc s1 s2 b) :
    RingAlloc s s2 (a ++ b) := by
  obtain ⟨a1, a2, a3, a4, a5⟩ := h
  obtain ⟨b1, b2, b3, b4, b5⟩ := h'
  refine ⟨by rw [b1, a1], by rw [b2, a2, List.append_assoc], ?_, ?_, ?_⟩
  · rw [b3, a3, a1, Nat.mod_add_mod, List.length_append, Nat.add_assoc]
  · intro j hj
    by_cases hja : j < a.length
    · rw [List.get_eq_getElem, List.getElem_append_left hja]
      simpa using a4 j hja
    · have hjb : j - a.length < b.length := by
        rw [List.length_append] at hj; omega
      rw [List.get_eq_getElem, List.getElem_append_right (Nat.le_of_not_lt hja)]
      have := b4 (j - a.length) hjb
      rw [List.get_eq_getElem] at this
      rw [this, a3, a1, Nat.mod_add_mod]
      congr 1; omega
  · rw [b5, a5, List.foldl_append]

theorem ringAlloc_assign (s : Engine K) (v : Voice K) (hg : s.Good) :
    RingAlloc s (assign s v) [(s.voiceIdx, v)] := by
  refine ⟨rfl, rfl, rfl, ?_, rfl⟩
  intro j hj
  have : j = 0 := by simpa using hj
  subst this
  simp [Nat.mod_eq_of_lt hg]

theorem ringAlloc_foldl {α : Type} (f : Engine K → α → Engine K)
    (hf : ∀ st x, st.Good → ∃ new, RingAlloc st (f st x) new) (l : List α) :
    ∀ s : Engine K, s.Good → ∃ new, RingAlloc s (l.foldl f s) new := by
  induction l with
  | nil => intro s hg; exact ⟨[], ringAlloc_of_same hg rfl rfl rfl rfl⟩
  | cons x xs ih =>
    intro s hg
    obtain ⟨a, ha⟩ := hf s x hg
    obtain ⟨b, hb⟩ := ih (f s x) (ringAlloc_good ha hg)
    exact ⟨a ++ b, ringAlloc_trans ha hb⟩


theorem ringAlloc_congr {s s1 s2 : Engine K} {new} (h : RingAlloc s s1 new)
    (h1 : s2.numVoices = s1.numVoices) (h2 : s2.allocLog = s1.allocLog)
    (h3 : s2.voiceIdx = s1.voiceIdx) (h4 : s2.voices = s1.voices) : RingAlloc s s2 new := by
  obtain ⟨a1, a2, a3, a4, a5⟩ := h
  exact ⟨by rw [h1, a1], by rw [h2, a2], by rw [h3, a3], a4, by rw [h4, a5]⟩

end RingLemmas

section RingWriteLemmas
variable {K : Type}

theorem ringWrites_length (s : Engine K) (recs : List (Voice K)) :
    (ringWrites s recs).length = recs.length := by
  simp [ringWrites]

theorem ringWrites_getElem (s : Engine K) (recs : List (Voice K)) (j : Nat)
    (h : j < (ringWrites s recs).length) (h2 : j < recs.length) :
    (ringWrites s recs)[j] = ((s.voiceIdx + j) % s.numVoices, recs[j]) := by
  simp [ringWrites, List.getElem_enum]

theorem ringWrites_append (s : Engine K) (recs : List (Voice K)) (v : Voice K) :
    ringWrites s (recs ++ [v])
      = ringWrites s recs ++ [((s.voiceIdx + recs.length) % s.numVoices, v)] := by
  simp [ringWrites, List.enum_append, List.enumFrom_singleton]

theorem storeAll_length (vs : List (Voice K)) (ws : List (Nat × Voice K)) :
    (storeAll vs ws).length = vs.length := by
  unfold storeAll
  induction ws generalizing vs with
  | nil => rfl
  | cons w ws ih => rw [List.foldl_cons, ih, List.length_set]

theorem storeAll_append (vs : List (Voice K)) (ws : List (Nat × Voice K)) (w : Nat × Voice K) :
    storeAll vs (ws ++ [w]) = (storeAll vs ws).set w.1 w.2 := by
  unfold storeAll
  rw [List.foldl_append, List.foldl_cons, List.foldl_nil]

/-- A state that arose by ring assignments whose records are `recs` arose by
exactly the stores `ringWrites s recs`. -/
theorem ringAlloc_writes {s s' : Engine K} {new : List (Nat × Voice K)} (h : RingAlloc s s' new)
    (recs : List (Voice K))
    (hrecs : s'.allocLog.map Prod.snd = s.allocLog.map Prod.snd ++ recs) :
    new = ringWrites s recs := by
  obtain ⟨-, h2, -, h4, -⟩ := h
  have hmap : recs = new.map Prod.snd := by
    rw [h2, List.map_append] at hrecs
    exact (List.append_cancel_left hrecs).symm
  subst hmap
  apply List.ext_getElem
  · rw [ringWrites_length, List.length_map]
  · intro j h1 h2'
    rw [ringWrites_getElem s _ j h2' (by simpa using h1)]
    have ha := h4 j h1
    rw [List.get_eq_getElem] at ha
    rw [List.getElem_map, ← ha]

theorem ringAlloc_spec {s s' : Engine K} {new : List (Nat × Voice K)} (h : RingAlloc s s' new)
    (recs : List (Voice K))
    (hrecs : s'.allocLog.map Prod.snd = s.allocLog.map Prod.snd ++ recs) :
    s'.allocLog = s.allocLog ++ ringWrites s recs
    ∧ s'.voices = storeAll s.voices (ringWrites s recs)
    ∧ s'.voiceIdx = (s.voiceIdx + recs.length) % s.numVoices
    ∧ s'.numVoices = s.numVoices := by
  have hw := ringAlloc_writes h recs hrecs
  obtain ⟨h1, h2, h3, -, h5⟩ := h
  subst hw
  exact ⟨h2, h5, by rw [h3, ringWrites_length], h1⟩

theorem ring_slot_ne {a n j m : Nat} (hjm : j < m) (hm : m < n) :
    (a + j) % n ≠ (a + m) % n := by
  intro h
  have h1 : Nat.ModEq n (a + j) (a + m) := h
  have h2 : Nat.ModEq n j m := Nat.ModEq.add_left_cancel' a h1
  have h3 : j % n = m % n := h2
  rw [Nat.mod_eq_of_lt (by omega), Nat.mod_eq_of_lt hm] at h3
  omega

/-- With no more records than slots, each record is in the pool afterwards, at
the slot the ring index had when it was stored. -/
theorem storeAll_ring_get (s : Engine K) (hlen : s.voices.length = s.numVoices) :
    ∀ recs : List (Voice K), recs.length ≤ s.numVoices → ∀ j (hj : j < recs.length),
      (storeAll s.voices (ringWrites s recs))[(s.voiceIdx + j) % s.numVoices]? = some recs[j] := by
  intro recs
  induction recs using List.reverseRecOn with
  | nil => intro _ j hj; exact absurd hj (Nat.not_lt_zero j)
  | append_singleton init v ih =>
    intro hle j hj
    have hl : (init ++ [v]).length = init.length + 1 := by simp
    have hn : init.length < s.numVoices := by omega
    rw [ringWrites_append, storeAll_append]
    by_cases hlt : j < init.length
    · rw [List.getElem?_set_ne (ring_slot_ne hlt hn).symm, ih (by omega) j hlt,
        List.getElem_append_left hlt]
    · have hje : j = init.length := by omega
      subst hje
      rw [List.getElem?_set_self (by
        rw [storeAll_length, hlen]; exact Nat.mod_lt _ (by omega))]
      simp

end RingWriteLemmas

section PhaseLemmas
variable {K : Type} [LinearOrderedField K]

theorem noteOnStep_ring (ev : MidiEvent) (s : Engine K) (j : Nat) (hg : s.Good) :
    ∃ new, RingAlloc s (noteOnStep ev s j) new := by
  unfold noteOnStep
  split
  · exact ⟨_, ringAlloc_assign s _ hg⟩
  · exact ⟨[], ringAlloc_of_same hg rfl rfl rfl rfl⟩

theorem controlChangeStep_ring (ev : MidiEvent) (s : Engine K) (j : Nat) (hg : s.Good) :
    ∃ new, RingAlloc s (controlChangeStep ev s j) new := by
  unfold controlChangeStep
  split
  · exact ⟨[], ringAlloc_of_same hg rfl rfl rfl rfl⟩
  · exact ⟨[], ringAlloc_of_same hg rfl rfl rfl rfl⟩

theorem midiStep_ring (s : Engine K) (ev : MidiEvent) (hg : s.Good) :
    ∃ new, RingAlloc s (midiStep s ev) new := by
  unfold midiStep
  simp only
  split
  · split
    · exact ringAlloc_foldl _ (fun st x h => noteOnStep_ring ev st x h) _ s hg
    · split
      · exact ringAlloc_foldl _ (fun st x h => controlChangeStep_ring ev st x h) _ s hg
      · exact ⟨[], ringAlloc_of_same hg rfl rfl rfl rfl⟩
  · exact ⟨[], ringAlloc_of_same hg rfl rfl rfl rfl⟩

theorem triggerStep_ring (s : Engine K) (t : Nat × K) (hg : s.Good) :
    ∃ new, RingAlloc s (triggerStep s t) new := by
  unfold triggerStep
  split
  · split
    · exact ⟨_, ringAlloc_assign s _ hg⟩
    · exact ⟨[], ringAlloc_of_same hg rfl rfl rfl rfl⟩
  · exact ⟨[], ringAlloc_of_same hg rfl rfl rfl rfl⟩

theorem transportStepPad_ring (ts : TransportState) (stepIdx : Int) (s : Engine K)
    (p : Nat × Pad K) (hg : s.Good) :
    ∃ new, RingAlloc s (transportStepPad ts stepIdx s p) new := by
  unfold transportStepPad
  split
  · exact ⟨[], ringAlloc_of_same hg rfl rfl rfl rfl⟩
  · split
    · exact ⟨[], ringAlloc_of_same hg rfl rfl rfl rfl⟩
    · split
      · split
        · exact ⟨_, ringAlloc_assign s _ hg⟩
        · exact ⟨[], ringAlloc_of_same hg rfl rfl rfl rfl⟩
      · exact ⟨[], ringAlloc_of_same hg rfl rfl rfl rfl⟩

theorem transportPhase_ring (s : Engine K) (ts : TransportState) (hg : s.Good) :
    ∃ new, RingAlloc s (transportPhase s ts) new := by
  unfold transportPhase
  simp only
  split
  · obtain ⟨new, h⟩ := ringAlloc_foldl _
      (fun st x h => transportStepPad_ring ts (stepIndex ts) st x h) s.cur.pads.enum s hg
    exact ⟨new, ringAlloc_congr h rfl rfl rfl rfl⟩
  · split
    · exact ⟨[], ringAlloc_of_same hg rfl rfl rfl rfl⟩
    · exact ⟨[], ringAlloc_of_same hg rfl rfl rfl rfl⟩

theorem collectPhase_ring (s : Engine K) (inp : PeriodInput K) (hg : s.Good) :
    ∃ new, RingAlloc s (collectPhase s inp) new := by
  have h0 : RingAlloc s (swapConfig s) [] := by
    unfold swapConfig
    split
    · exact ringAlloc_of_same hg rfl rfl rfl rfl
    · exact ringAlloc_of_same hg rfl rfl rfl rfl
  obtain ⟨a, ha⟩ := ringAlloc_foldl _ (fun st x h => midiStep_ring st x h) inp.midi _ (ringAlloc_good h0 hg)
  have h1 := ringAlloc_trans h0 ha
  obtain ⟨b, hb⟩ := ringAlloc_foldl _ (fun st x h => triggerStep_ring st x h) inp.triggers _
    (ringAlloc_good h1 hg)
  have h2 := ringAlloc_trans h1 hb
  obtain ⟨c, hc⟩ := transportPhase_ring _ inp.ts (ringAlloc_good h2 hg)
  exact ⟨_, ringAlloc_trans h2 hc⟩

/-- C1: for an initialised engine whose ring index points into the pool
(`numVoices > 0`) and any period input, the period appends `new.length = k`
assignments to the log; afterwards `voiceIdx = (prev + k) mod numVoices`, the
`j`-th assignment wrote slot `(prev + j) mod numVoices`, the pool before mixing
is the old pool with exactly these writes, and `voiceIdx < numVoices`. -/
theorem ring_index_advance (sqrt : K → K) (s : Engine K) (inp : PeriodInput K)
    (hinit : s.isInitialized = true) (hn : 0 < s.numVoices) (hidx : s.voiceIdx < s.numVoices) :
    ∃ new : List (Nat × Voice K),
      (ProcessAudioMidi sqrt s inp).1.allocLog = s.allocLog ++ new ∧
      (ProcessAudioMidi sqrt s inp).1.voiceIdx = (s.voiceIdx + new.length) % s.numVoices ∧
      (∀ j (h : j < new.length), (new.get ⟨j, h⟩).1 = (s.voiceIdx + j) % s.numVoices) ∧
      (collectPhase s inp).voices = new.foldl (fun vs e => vs.set e.1 e.2) s.voices ∧
      (ProcessAudioMidi sqrt s inp).1.voiceIdx < s.numVoices ∧
      (ProcessAudioMidi sqrt s inp).1.numVoices = s.numVoices := by
  obtain ⟨new, h1, h2, h3, h4, h5⟩ := collectPhase_ring s inp hidx
  refine ⟨new, ?_, ?_, h4, h5, ?_, ?_⟩
  · simp [ProcessAudioMidi, hinit, h2]
  · simp [ProcessAudioMidi, hinit, h3]
  · simp only [ProcessAudioMidi, hinit]
    simp only [Bool.true_eq_false, if_false, h3]
    exact Nat.mod_lt _ hn
  · simp [ProcessAudioMidi, hinit, h1]


theorem pad_congr {s st : Engine K} (h1 : st.config = s.config) (h2 : st.curConfig = s.curConfig)
    (j : Nat) : st.pad j = s.pad j := by
  simp [Engine.pad, Engine.cur, h1, h2]

theorem noteOn_fold (ev : MidiEvent) (s : Engine K) (l : List Nat) :
    ∀ st : Engine K, st.config = s.config → st.curConfig = s.curConfig →
      (l.foldl (noteOnStep ev) st).allocLog.map Prod.snd
        = st.allocLog.map Prod.snd ++
          (l.filter (fun j => decide ((ev.data1 &&& 0x7f) = (s.pad j).tone
              ∧ (s.pad j).available = true))).map (fun j => noteOnVoice ev j (s.pad j))
      ∧ (l.foldl (noteOnStep ev) st).config = s.config
      ∧ (l.foldl (noteOnStep ev) st).curConfig = s.curConfig := by
  induction l with
  | nil => intro st h1 h2; simp [h1, h2]
  | cons j js ih =>
    intro st h1 h2
    rw [List.foldl_cons]
    have hp := pad_congr h1 h2 j
    by_cases hc : (ev.data1 &&& 0x7f) = (s.pad j).tone ∧ (s.pad j).available = true
    · have hstep : noteOnStep ev st j = assign st (noteOnVoice ev j (s.pad j)) := by
        simp only [noteOnStep, hp, hc, and_self, if_true]
      obtain ⟨i1, i2, i3⟩ := ih (assign st (noteOnVoice ev j (s.pad j))) h1 h2
      rw [hstep]
      refine ⟨?_, i2, i3⟩
      rw [i1, List.filter_cons_of_pos (by simpa using hc)]
      simp [assign]
    · have hstep : noteOnStep ev st j = st := by
        simp only [noteOnStep, hp, hc, if_false]
      obtain ⟨i1, i2, i3⟩ := ih st h1 h2
      rw [hstep]
      refine ⟨?_, i2, i3⟩
      rw [i1, List.filter_cons_of_neg (by simpa using hc)]

theorem noteOn_records (s : Engine K) (ev : MidiEvent)
    (hon : ev.status &&& 0xf0 = 0x90) (hchan : ev.status &&& 0x0f = s.cur.midiChan) :
    (midiStep s ev).allocLog.map Prod.snd
      = s.allocLog.map Prod.snd ++
        ((List.range s.cur.numPads).filter (fun j => decide ((s.pad j).tone = ev.data1 &&& 0x7f
            ∧ (s.pad j).available = true))).map (fun j => noteOnVoice ev j (s.pad j)) := by
  have hstep : midiStep s ev = noteOn s ev := by
    simp [midiStep, hon, hchan]
  rw [hstep, noteOn, (noteOn_fold ev s _ s rfl rfl).1]
  congr 2
  apply List.filter_congr
  intro j _
  rw [decide_eq_decide]
  constructor <;> rintro ⟨a, b⟩ <;> exact ⟨a.symm, b⟩

/-- C2: a note-on (status high nibble 0x9) on the configured channel allocates
exactly one voice per pad `j < numPads`, in ascending order, whose tone equals
`data1 & 0x7F` and which is available, each with `playSample`, `padIdx = j`,
`startIdx` the event time, `bufferIdx = 0`, `bufferLen` the pad's `lengthSamps`,
the two gains `((data2 & 0x7F) / 127)` times the pad's linear gains and the pad's
pitch. These records `recs` are stored into `m_voices` one after the other from
the ring index on, nothing else is stored, and `m_voiceIdx` advances by their
number; when they are no more than the slots of the pool, the `j`-th of them is
the voice in slot `(voiceIdx + j) mod numVoices` afterwards. -/
theorem note_on_allocations (s : Engine K) (ev : MidiEvent)
    (hon : ev.status &&& 0xf0 = 0x90) (hchan : ev.status &&& 0x0f = s.cur.midiChan)
    (hidx : s.voiceIdx < s.numVoices) :
    ∃ recs : List (Voice K),
      recs = ((List.range s.cur.numPads).filter (fun j =>
          decide ((s.pad j).tone = ev.data1 &&& 0x7f ∧ (s.pad j).available = true))).map
        (fun j =>
          ({ playSample := true
             padIdx := j
             startIdx := ev.time
             bufferIdx := 0
             bufferLen := (s.pad j).lengthSamps
             gainL := (((ev.data2 &&& 0x7f : Nat) : K) / 127) * (s.pad j).gainLeftLin
             gainR := (((ev.data2 &&& 0x7f : Nat) : K) / 127) * (s.pad j).gainRightLin
             pitch := (s.pad j).pitch } : Voice K))
      ∧ (midiStep s ev).voices = storeAll s.voices (ringWrites s recs)
      ∧ (midiStep s ev).voiceIdx = (s.voiceIdx + recs.length) % s.numVoices
      ∧ (midiStep s ev).allocLog = s.allocLog ++ ringWrites s recs
      ∧ (s.voices.length = s.numVoices → recs.length ≤ s.numVoices →
          ∀ j (hj : j < recs.length),
            (midiStep s ev).voices[(s.voiceIdx + j) % s.numVoices]? = some recs[j]) := by
  refine ⟨_, rfl, ?_⟩
  obtain ⟨new, hring⟩ := midiStep_ring s ev hidx
  obtain ⟨h1, h2, h3, -⟩ := ringAlloc_spec hring _ (noteOn_records s ev hon hchan)
  refine ⟨h2, h3, h1, ?_⟩
  intro hlen hle j hj
  rw [h2]
  exact storeAll_ring_get s hlen _ hle j hj

theorem noteOn_fold_log (ev : MidiEvent) (l : List Nat) :
    ∀ st : Engine K, ∃ rest, (l.foldl (noteOnStep ev) st).allocLog = st.allocLog ++ rest := by
  induction l with
  | nil => intro st; exact ⟨[], by simp⟩
  | cons j js ih =>
    intro st
    obtain ⟨r, hr⟩ := ih (noteOnStep ev st j)
    rw [List.foldl_cons, hr]
    unfold noteOnStep
    split
    · exact ⟨(st.voiceIdx, noteOnVoice ev j (st.pad j)) :: r, by simp [assign]⟩
    · exact ⟨r, rfl⟩

/-- C3: an event whose status high nibble is 0xF or whose low nibble differs
from `midiChan` leaves the whole engine state unchanged (voice pool, ring index,
pad gains, log). With `midiChan = 3` a note-on 0x94 changes nothing, while a
note-on 0x93 whose tone matches the available pad 0 assigns a voice for pad 0
to the slot at the ring index. -/
theorem rejected_event_frame (s : Engine K) (ev : MidiEvent)
    (h : ev.status &&& 0xf0 = 0xf0 ∨ ev.status &&& 0x0f ≠ s.cur.midiChan) :
    midiStep s ev = s
    ∧ (∀ (s3 : Engine K) (e4 : MidiEvent), s3.cur.midiChan = 3 → e4.status = 0x94 →
        midiStep s3 e4 = s3)
    ∧ (∀ (s3 : Engine K) (e3 : MidiEvent), s3.cur.midiChan = 3 → e3.status = 0x93 →
        0 < s3.cur.numPads → (s3.pad 0).tone = e3.data1 &&& 0x7f → (s3.pad 0).available = true →
        ∃ rest, (midiStep s3 e3).allocLog
          = s3.allocLog ++ (s3.voiceIdx, noteOnVoice e3 0 (s3.pad 0)) :: rest) := by
  refine ⟨?_, ?_, ?_⟩
  · rcases h with h | h
    · simp [midiStep, h]
    · simp [midiStep, h]
  · intro s3 e4 hc hs
    have h4 : (0x94 &&& 0x0f : Nat) ≠ 3 := by decide
    simp [midiStep, hc, hs, h4]
  · intro s3 e3 hc hs hn ht ha
    have h1 : (0x93 &&& 0xf0 : Nat) = 0x90 := by decide
    have h2 : (0x93 &&& 0x0f : Nat) = 3 := by decide
    have hstep : midiStep s3 e3 = noteOn s3 e3 := by
      simp [midiStep, hc, hs, h1, h2]
    obtain ⟨n, hn'⟩ : ∃ n, s3.cur.numPads = n + 1 := ⟨s3.cur.numPads - 1, by omega⟩
    rw [hstep, noteOn, hn', List.range_succ_eq_map, List.foldl_cons]
    have h0 : noteOnStep e3 s3 0 = assign s3 (noteOnVoice e3 0 (s3.pad 0)) := by
      simp [noteOnStep, ht, ha]
    rw [h0]
    obtain ⟨r, hr⟩ := noteOn_fold_log e3 (List.map Nat.succ (List.range n))
      (assign s3 (noteOnVoice e3 0 (s3.pad 0)))
    exact ⟨r, by rw [hr]; simp [assign]⟩

end PhaseLemmas
section MixLemmas
variable {K : Type} [LinearOrderedField K]

theorem usub_of_le {a b : Nat} (h : b ≤ a) (ha : a < U32) : usub a b = a - b := by
  unfold usub U32 at *
  have hb : b % 2 ^ 32 = b := Nat.mod_eq_of_lt (by omega)
  rw [hb]
  omega

theorem uadd_of_lt {a b : Nat} (h : a + b < U32) : uadd a b = a + b := by
  unfold uadd
  exact Nat.mod_eq_of_lt h

theorem foldl_pair_fst {α β γ : Type} (g1 : α → γ → α) (g2 : β → γ → β) (l : List γ) :
    ∀ o : α × β, (l.foldl (fun o i => (g1 o.1 i, g2 o.2 i)) o) = (l.foldl g1 o.1, l.foldl g2 o.2) := by
  induction l with
  | nil => intro o; rfl
  | cons x xs ih => intro o; simp [List.foldl_cons, ih]

theorem addLoop_get (f : Nat → K) (s : Nat) (len : Nat) (hlen : s + len ≤ U32) (out : List K) (q : Nat) :
    ((List.range len).foldl (fun o i => addAt o (uadd s i) (f i)) out)[q]?
      = out[q]?.map (fun y => if s ≤ q ∧ q < s + len then y + f (q - s) else y) := by
  induction len with
  | zero =>
    have hno : ¬ (s ≤ q ∧ q < s + 0) := by omega
    simp only [List.range_zero, List.foldl_nil, hno, if_false]
    cases out[q]? <;> simp
  | succ n ih =>
    rw [List.range_succ, List.foldl_append, List.foldl_cons, List.foldl_nil]
    have hu : uadd s n = s + n := uadd_of_lt (by omega)
    rw [hu, addAt, List.getElem?_modify, ih (by omega)]
    cases out[q]? with
    | none => simp
    | some y =>
      simp only [Option.map_some', Option.map_eq_map]
      by_cases h1 : s + n = q
      · subst h1
        simp
      · simp only [h1, if_false]
        congr 1
        have : (s ≤ q ∧ q < s + n) ↔ (s ≤ q ∧ q < s + (n + 1)) := by
          constructor <;> rintro ⟨a, b⟩ <;> exact ⟨a, by omega⟩
        simp only [this]


theorem usub_zero {a : Nat} (ha : a < U32) : usub a 0 = a := by
  have := usub_of_le (Nat.zero_le a) ha
  simpa using this

theorem mixMono_eq (buffer : List (List K)) (v : Voice K) (len : Nat) (o : List K × List K) :
    mixMono buffer v len o
      = ((List.range len).foldl (fun o i =>
            addAt o (uadd v.startIdx i) (frame buffer 0 (uadd v.bufferIdx i) * v.gainL)) o.1,
         (List.range len).foldl (fun o i =>
            addAt o (uadd v.startIdx i) (frame buffer 0 (uadd v.bufferIdx i) * v.gainR)) o.2) := by
  unfold mixMono
  exact foldl_pair_fst
    (fun o i => addAt o (uadd v.startIdx i) (frame buffer 0 (uadd v.bufferIdx i) * v.gainL))
    (fun o i => addAt o (uadd v.startIdx i) (frame buffer 0 (uadd v.bufferIdx i) * v.gainR))
    (List.range len) o

/-- What one mixer step does to a playing voice of a valid mono sample that starts
at output position 0. -/
theorem mixVoice_mono (sqrt : K → K) (samples : List (SampleSlot K)) (B : Nat) (v : Voice K)
    (o : List K × List K)
    (hplay : v.playSample = true) (hstart : v.startIdx = 0)
    (hb : v.bufferIdx < v.bufferLen) (hL : v.bufferLen < U32) (hB : B < U32)
    (hvalid : (liveInfo samples v.padIdx).valid = true)
    (hmono : ¬ 1 < (liveInfo samples v.padIdx).numChans) :
    (mixVoice sqrt samples B v o).1
        = { v with
            bufferIdx := v.bufferIdx + min B (v.bufferLen - v.bufferIdx)
            startIdx := 0
            playSample := decide (v.bufferIdx + min B (v.bufferLen - v.bufferIdx) < v.bufferLen) }
    ∧ (∀ q, (mixVoice sqrt samples B v o).2.1[q]?
        = o.1[q]?.map (fun y => if q < min B (v.bufferLen - v.bufferIdx) then
            y + frame (liveBuffer samples v.padIdx) 0 (v.bufferIdx + q) * v.gainL
          else y))
    ∧ (∀ q, (mixVoice sqrt samples B v o).2.2[q]?
        = o.2[q]?.map (fun y => if q < min B (v.bufferLen - v.bufferIdx) then
            y + frame (liveBuffer samples v.padIdx) 0 (v.bufferIdx + q) * v.gainR
          else y)) := by
  have hlen : mixLen B v = min B (v.bufferLen - v.bufferIdx) := by
    unfold mixLen
    rw [hstart, usub_of_le (Nat.le_of_lt hb) hL, usub_zero]
    exact lt_of_le_of_lt (Nat.min_le_left _ _) hB
  have hle : min B (v.bufferLen - v.bufferIdx) ≤ v.bufferLen - v.bufferIdx := Nat.min_le_right _ _
  have hadd : uadd v.bufferIdx (min B (v.bufferLen - v.bufferIdx))
      = v.bufferIdx + min B (v.bufferLen - v.bufferIdx) := uadd_of_lt (by omega)
  have hmix : (mixVoice sqrt samples B v o)
      = ({ v with
            bufferIdx := v.bufferIdx + min B (v.bufferLen - v.bufferIdx)
            startIdx := 0
            playSample := decide (v.bufferIdx + min B (v.bufferLen - v.bufferIdx) < v.bufferLen) },
          mixMono (liveBuffer samples v.padIdx) v
            (min B (v.bufferLen - v.bufferIdx)) o) := by
    unfold mixVoice
    simp only [hplay, hvalid, hmono, hlen, hadd, Bool.true_eq_false, if_false]
    congr 2
    by_cases h : v.bufferLen ≤ v.bufferIdx + min B (v.bufferLen - v.bufferIdx)
    · simp [h]
    · simp [h, Nat.lt_of_not_le h]
  rw [hmix]
  refine ⟨rfl, ?_, ?_⟩
  · intro q
    rw [mixMono_eq]
    simp only [hstart]
    rw [addLoop_get _ 0 _ (by omega)]
    congr 1
    funext y
    by_cases hq : q < min B (v.bufferLen - v.bufferIdx)
    · have : uadd v.bufferIdx q = v.bufferIdx + q := uadd_of_lt (by omega)
      simp [hq, this]
    · simp [hq]
  · intro q
    rw [mixMono_eq]
    simp only [hstart]
    rw [addLoop_get _ 0 _ (by omega)]
    congr 1
    funext y
    by_cases hq : q < min B (v.bufferLen - v.bufferIdx)
    · have : uadd v.bufferIdx q = v.bufferIdx + q := uadd_of_lt (by omega)
      simp [hq, this]
    · simp [hq]


end MixLemmas
section SequencerLemmas
variable {K : Type} [LinearOrderedField K]

/-- The integer expression of `stepIndex` is the floor the source computes in
floating point, read exactly. -/
theorem fdiv_eq_floor (pulse nPulses : Int) (hn : 0 < nPulses) :
    Int.fdiv (pulse * 4) nPulses = ⌊(pulse : ℚ) / (nPulses : ℚ) * 4⌋ := by
  symm
  rw [Int.fdiv_eq_ediv _ hn.le, Int.floor_eq_iff]
  have hn' : (0 : ℚ) < nPulses := by exact_mod_cast hn
  constructor
  · rw [div_mul_eq_mul_div, le_div_iff₀ hn']
    have := Int.ediv_mul_le (pulse * 4) (ne_of_gt hn)
    exact_mod_cast this
  · rw [div_mul_eq_mul_div, div_lt_iff₀ hn']
    have := Int.lt_ediv_add_one_mul_self (pulse * 4) hn
    exact_mod_cast this

theorem toInt32_of_fits {i : Int} (h1 : -2 ^ 31 ≤ i) (h2 : i < 2 ^ 31) : toInt32 i = i := by
  unfold toInt32
  omega

theorem toU32_of_fits {i : Int} (h1 : 0 ≤ i) (h2 : i < 2 ^ 32) : toU32 i = i.toNat := by
  unfold toU32
  rw [Int.emod_eq_of_lt h1 h2]

theorem floorToInt32_of_fits {i : Int} (h1 : -2 ^ 31 ≤ i) (h2 : i < 2 ^ 31) :
    floorToInt32 i = i := by
  unfold floorToInt32
  rw [if_pos ⟨h1, h2⟩]

theorem floorToU32_of_fits {i : Int} (h1 : 0 ≤ i) (h2 : i < 2 ^ 32) :
    floorToU32 i = i.toNat := by
  unfold floorToU32
  rw [if_pos ⟨by omega, by omega⟩, toU32_of_fits h1 h2]

/-- The step index of a running transport whose beat and pulse are not negative
and whose step count fits the `int` type. -/
theorem stepIndex_running (ts : TransportState) (hrun : ts.state = TState.TS_RUNNING)
    (hb : 0 ≤ ts.beat) (hp : 0 ≤ ts.pulse) (hn : 0 < ts.nPulses)
    (hfit : ts.beat * 4 + Int.fdiv (ts.pulse * 4) ts.nPulses < 2 ^ 31) :
    stepIndex ts = (ts.beat * 4 + Int.fdiv (ts.pulse * 4) ts.nPulses) % 16
    ∧ 0 ≤ stepIndex ts ∧ stepIndex ts < 16 := by
  have h1 : 0 ≤ Int.fdiv (ts.pulse * 4) ts.nPulses := Int.fdiv_nonneg (by omega) hn.le
  have hval : stepIndex ts = (ts.beat * 4 + Int.fdiv (ts.pulse * 4) ts.nPulses) % 16 := by
    unfold stepIndex
    rw [if_pos hrun]
    simp only
    rw [if_neg (by omega), toInt32_of_fits (i := ts.beat * 4) (by omega) (by omega),
      floorToInt32_of_fits (i := Int.fdiv (ts.pulse * 4) ts.nPulses) (by omega) (by omega),
      toInt32_of_fits (by omega) (by omega), Int.tmod_eq_emod (by omega) (by decide)]
  rw [hval]
  omega

/-- Whatever the transport, the step index is below 16. -/
theorem stepIndex_lt (ts : TransportState) : stepIndex ts < 16 := by
  unfold stepIndex
  split
  · exact Int.tmod_lt_of_pos _ (by decide)
  · decide

/-- The step read at a step index in `[0, 15]`: step `stepIdx mod nSteps` of
`patterns[0]`, when there is such a pattern, `nSteps` is not 0 and the pattern
holds that step. -/
theorem curStep_first {F : Type} (i : Int) (h0 : 0 ≤ i) (h16 : i < 16) (pad : Pad F) :
    curStep i pad
      = match pad.patterns[0]? with
        | none => none
        | some pat => if pat.nSteps = 0 then none else pat.steps[i.toNat % pat.nSteps]? := by
  have hfd : Int.fdiv i 16 = 0 := by
    rw [Int.fdiv_eq_ediv _ (by decide)]; omega
  have h1 : floorToU32 (Int.fdiv i 16) = 0 := by rw [hfd]; rfl
  have h2 : toU32 i = i.toNat := toU32_of_fits h0 (by omega)
  simp only [curStep, h1, h2, Nat.zero_mod]

theorem curStep_defined {F : Type} (i : Int) (h0 : 0 ≤ i) (h16 : i < 16) (pad : Pad F)
    (h : (curStep i pad).isSome = true) :
    ∃ pat st, pad.patterns[0]? = some pat ∧ 0 < pat.nSteps
      ∧ pat.steps[i.toNat % pat.nSteps]? = some st ∧ curStep i pad = some st := by
  rw [curStep_first i h0 h16] at h ⊢
  cases hp : pad.patterns[0]? with
  | none => simp [hp] at h
  | some pat =>
    simp only [hp] at h ⊢
    by_cases hz : pat.nSteps = 0
    · simp [hz] at h
    · rw [if_neg hz] at h ⊢
      obtain ⟨st, hst⟩ := Option.isSome_iff_exists.1 h
      exact ⟨pat, st, rfl, Nat.pos_of_ne_zero hz, hst, hst⟩

theorem transportStepPad_record (ts : TransportState) (stepIdx : Int) (st : Engine K)
    (p : Nat × Pad K) :
    transportStepPad ts stepIdx st p
      = match stepRecord ts stepIdx st.bufferSize p with
        | some v => assign st v
        | none => st := by
  unfold transportStepPad stepRecord
  by_cases ha : p.2.available = true
  · by_cases hn : p.2.nPatterns = 0
    · have hn' : ¬ 0 < p.2.nPatterns := by omega
      simp only [ha, hn, hn', Bool.true_eq_false, if_false, if_true, false_and, and_false]
      cases curStep stepIdx p.2 <;> rfl
    · have hn' : 0 < p.2.nPatterns := Nat.pos_of_ne_zero hn
      simp only [ha, hn, hn', Bool.true_eq_false, if_false, true_and]
      cases curStep stepIdx p.2 with
      | none => rfl
      | some stp =>
        simp only
        by_cases hact : stp.active = true
        · simp only [hact, if_true]
          rfl
        · have hf : stp.active = false := by simpa using hact
          simp only [hf, Bool.false_eq_true, if_false]
  · have ha' : p.2.available = false := by simpa using ha
    simp only [ha', if_true, Bool.false_eq_true, false_and, if_false]
    cases curStep stepIdx p.2 <;> rfl

theorem transport_fold (ts : TransportState) (stepIdx : Int) (B : Nat)
    (l : List (Nat × Pad K)) :
    ∀ st : Engine K, st.bufferSize = B →
      (l.foldl (transportStepPad ts stepIdx) st).allocLog.map Prod.snd
        = st.allocLog.map Prod.snd ++ l.filterMap (stepRecord ts stepIdx B)
      ∧ (l.foldl (transportStepPad ts stepIdx) st).bufferSize = B
      ∧ (l.foldl (transportStepPad ts stepIdx) st).transportRate = st.transportRate := by
  induction l with
  | nil => intro st h; simp [h]
  | cons p ps ih =>
    intro st hB
    rw [List.foldl_cons, transportStepPad_record, hB]
    cases hr : stepRecord ts stepIdx B p with
    | none =>
      obtain ⟨i1, i2, i3⟩ := ih st hB
      simp only
      refine ⟨?_, i2, i3⟩
      rw [i1, List.filterMap_cons_none hr]
    | some v =>
      obtain ⟨i1, i2, i3⟩ := ih (assign st v) hB
      simp only
      refine ⟨?_, i2, i3⟩
      rw [i1, List.filterMap_cons_some hr]
      simp [assign]

/-- A period whose step index is negative or equals the recorded one changes
neither the pool, nor the ring index, nor the recorded step. -/
theorem transportPhase_skip (s : Engine K) (ts : TransportState)
    (h : ¬ (0 ≤ stepIndex ts ∧ stepIndex ts ≠ s.transportStep)) :
    (transportPhase s ts).voices = s.voices ∧ (transportPhase s ts).voiceIdx = s.voiceIdx
    ∧ (transportPhase s ts).allocLog = s.allocLog
    ∧ (transportPhase s ts).transportStep = s.transportStep := by
  unfold transportPhase
  simp only
  rw [if_neg h]
  split <;> exact ⟨rfl, rfl, rfl, rfl⟩

theorem transportPhase_log (s : Engine K) (ts : TransportState) :
    (transportPhase s ts).allocLog.map Prod.snd
      = s.allocLog.map Prod.snd ++
        (if 0 ≤ stepIndex ts ∧ stepIndex ts ≠ s.transportStep then
          s.cur.pads.enum.filterMap (stepRecord ts (stepIndex ts) s.bufferSize)
        else []) := by
  by_cases hg : 0 ≤ stepIndex ts ∧ stepIndex ts ≠ s.transportStep
  · rw [if_pos hg]
    have hph : (transportPhase s ts).allocLog
        = (s.cur.pads.enum.foldl (transportStepPad ts (stepIndex ts)) s).allocLog := by
      unfold transportPhase
      simp only
      rw [if_pos hg]
    rw [hph, (transport_fold ts (stepIndex ts) s.bufferSize _ s rfl).1]
  · rw [if_neg hg, (transportPhase_skip s ts hg).2.2.1]
    simp

theorem transportPhase_step (s : Engine K) (ts : TransportState) :
    (transportPhase s ts).transportStep
      = if 0 ≤ stepIndex ts then stepIndex ts else s.transportStep := by
  by_cases hg : 0 ≤ stepIndex ts ∧ stepIndex ts ≠ s.transportStep
  · rw [if_pos hg.1]
    unfold transportPhase
    simp only
    rw [if_pos hg]
  · rw [(transportPhase_skip s ts hg).2.2.2]
    by_cases h0 : 0 ≤ stepIndex ts
    · rw [if_pos h0]
      by_contra hne
      exact hg ⟨h0, fun h => hne h.symm⟩
    · rw [if_neg h0]

/-- What the sequencer does to the pool in one period, for the records `recs` it
stores. -/
theorem transportPhase_spec (s : Engine K) (ts : TransportState)
    (hidx : s.voiceIdx < s.numVoices) (recs : List (Voice K))
    (hrecs : recs = if 0 ≤ stepIndex ts ∧ stepIndex ts ≠ s.transportStep then
        s.cur.pads.enum.filterMap (stepRecord ts (stepIndex ts) s.bufferSize)
      else []) :
    (transportPhase s ts).voices = storeAll s.voices (ringWrites s recs)
    ∧ (transportPhase s ts).voiceIdx = (s.voiceIdx + recs.length) % s.numVoices
    ∧ (transportPhase s ts).allocLog = s.allocLog ++ ringWrites s recs
    ∧ (s.voices.length = s.numVoices → recs.length ≤ s.numVoices →
        ∀ j (hj : j < recs.length),
          (transportPhase s ts).voices[(s.voiceIdx + j) % s.numVoices]? = some recs[j]) := by
  obtain ⟨new, hring⟩ := transportPhase_ring s ts hidx
  have hlog := transportPhase_log s ts
  rw [← hrecs] at hlog
  obtain ⟨h1, h2, h3, -⟩ := ringAlloc_spec hring recs hlog
  refine ⟨h2, h3, h1, ?_⟩
  intro hlen hle j hj
  rw [h2]
  exact storeAll_ring_get s hlen _ hle j hj

theorem stepRecord_startIdx (ts : TransportState) (stepIdx : Int) (B : Nat) (hB : 0 < B)
    (l : List (Nat × Pad K)) :
    ∀ v ∈ l.filterMap (stepRecord ts stepIdx B), v.startIdx < B := by
  intro v hv
  obtain ⟨p, -, hp⟩ := List.mem_filterMap.1 hv
  unfold stepRecord at hp
  cases hc : curStep stepIdx p.2 with
  | none => simp [hc] at hp
  | some st =>
    simp only [hc] at hp
    split at hp
    · have := Option.some.inj hp
      rw [← this]
      exact Nat.mod_lt _ hB
    · exact absurd hp (by simp)

end SequencerLemmas

section Sequencer
variable {K : Type} [LinearOrderedField K]

/-- C9, as the code has it: in a period with a running transport, `beat ≥ 0`,
`pulse ≥ 0`, `nPulses > 0` and a step count `4 * beat + ⌊4 * pulse / nPulses⌋`
that fits the 32-bit `int` (so that `0 ≤ stepIdx ≤ 15`), the sequencer stores a
voice for a pad, in pad order, exactly when `stepIdx` differs from the recorded
`transportStep`, the pad is available, has `nPatterns > 0` and the step read,
step `stepIdx mod nSteps` of `patterns[0]`, is active; the record has
`playSample`, `padIdx` the pad's position, `startIdx = pulseIdx mod bufferSize`
(below `bufferSize`), `bufferIdx = 0`, `bufferLen = lengthSamps` and the pad's
linear gains times `velocity / 127`. These records go to `m_voices` from the ring
index on, `m_voiceIdx` advances by their number, and nothing else is stored.
Afterwards `transportStep = stepIdx`, and a following period with the same step
index stores nothing. The configuration is one whose step reads are defined
(the selected pattern is there, has `nSteps ≥ 1` and holds the step). -/
theorem sequencer_allocations (s : Engine K) (ts : TransportState)
    (hrun : ts.state = TState.TS_RUNNING) (hb : 0 ≤ ts.beat) (hp : 0 ≤ ts.pulse)
    (hn : 0 < ts.nPulses)
    (hfit : 4 * ts.beat + ⌊(4 * ts.pulse : ℚ) / (ts.nPulses : ℚ)⌋ < 2 ^ 31)
    (hidx : s.voiceIdx < s.numVoices) (hB : 0 < s.bufferSize)
    (hdef : ∀ p ∈ s.cur.pads, p.available = true → p.nPatterns ≠ 0 →
      (curStep (stepIndex ts) p).isSome = true) :
    0 ≤ stepIndex ts ∧ stepIndex ts ≤ 15
    ∧ ∃ recs : List (Voice K),
      recs = (if stepIndex ts ≠ s.transportStep then
          s.cur.pads.enum.filterMap (fun p =>
            match curStep (stepIndex ts) p.2 with
            | some st =>
              if p.2.available = true ∧ 0 < p.2.nPatterns ∧ st.active = true then
                some ({ playSample := true
                        padIdx := p.1
                        startIdx := ts.pulseIdx % s.bufferSize
                        bufferIdx := 0
                        bufferLen := p.2.lengthSamps
                        gainL := p.2.gainLeftLin * ((st.velocity : K) / 127)
                        gainR := p.2.gainRightLin * ((st.velocity : K) / 127)
                        pitch := p.2.pitch } : Voice K)
              else none
            | none => none)
        else [])
      ∧ (transportPhase s ts).voices = storeAll s.voices (ringWrites s recs)
      ∧ (transportPhase s ts).voiceIdx = (s.voiceIdx + recs.length) % s.numVoices
      ∧ (transportPhase s ts).allocLog = s.allocLog ++ ringWrites s recs
      ∧ (s.voices.length = s.numVoices → recs.length ≤ s.numVoices →
          ∀ j (hj : j < recs.length),
            (transportPhase s ts).voices[(s.voiceIdx + j) % s.numVoices]? = some recs[j])
      ∧ (∀ v ∈ recs, v.startIdx < s.bufferSize)
      ∧ (transportPhase s ts).transportStep = stepIndex ts
      ∧ (∀ ts2 : TransportState, stepIndex ts2 = stepIndex ts →
          (transportPhase (transportPhase s ts) ts2).voices = (transportPhase s ts).voices
          ∧ (transportPhase (transportPhase s ts) ts2).voiceIdx = (transportPhase s ts).voiceIdx
          ∧ (transportPhase (transportPhase s ts) ts2).allocLog = (transportPhase s ts).allocLog)
      ∧ (∀ p ∈ s.cur.pads, p.available = true → p.nPatterns ≠ 0 →
          ∃ pat st, p.patterns[0]? = some pat ∧ 0 < pat.nSteps
            ∧ pat.steps[(stepIndex ts).toNat % pat.nSteps]? = some st
            ∧ curStep (stepIndex ts) p = some st) := by
  have hfl : ⌊(4 * ts.pulse : ℚ) / (ts.nPulses : ℚ)⌋ = Int.fdiv (ts.pulse * 4) ts.nPulses := by
    rw [fdiv_eq_floor ts.pulse ts.nPulses hn]
    congr 1
    ring
  rw [hfl] at hfit
  obtain ⟨-, h0, h16⟩ := stepIndex_running ts hrun hb hp hn (by omega)
  have hguard : (0 ≤ stepIndex ts ∧ stepIndex ts ≠ s.transportStep)
      ↔ stepIndex ts ≠ s.transportStep := ⟨fun h => h.2, fun h => ⟨h0, h⟩⟩
  have hrecs : (if stepIndex ts ≠ s.transportStep then
        s.cur.pads.enum.filterMap (stepRecord ts (stepIndex ts) s.bufferSize)
      else [])
      = (if 0 ≤ stepIndex ts ∧ stepIndex ts ≠ s.transportStep then
        s.cur.pads.enum.filterMap (stepRecord ts (stepIndex ts) s.bufferSize)
      else []) := by
    simp only [hguard]
  obtain ⟨h1, h2, h3, h4⟩ := transportPhase_spec s ts hidx _ hrecs
  have hstep : (transportPhase s ts).transportStep = stepIndex ts := by
    rw [transportPhase_step, if_pos h0]
  refine ⟨h0, by omega, _, rfl, h1, h2, h3, h4, ?_, hstep, ?_, ?_⟩
  · intro v hv
    split at hv
    · exact stepRecord_startIdx ts (stepIndex ts) s.bufferSize hB _ v hv
    · exact absurd hv (List.not_mem_nil v)
  · intro ts2 h2'
    have hskip : ¬ (0 ≤ stepIndex ts2 ∧ stepIndex ts2 ≠ (transportPhase s ts).transportStep) := by
      rw [hstep, h2']
      exact fun h => h.2 rfl
    obtain ⟨a, b, c, -⟩ := transportPhase_skip _ ts2 hskip
    exact ⟨a, b, c⟩
  · intro p hp ha hn
    exact curStep_defined _ h0 h16 p (hdef p hp ha hn)

/-- C10, as the code has it: with 24 pulses per beat, a running transport
(`0 ≤ beat < 2 ^ 29`, `0 ≤ pulse < 24`) and an available pad 0 whose single
pattern has sixteen steps of which only the first is active, a period stores a
voice for pad 0 in `m_voices` exactly when its step index is 0 and differs from
the recorded one (then exactly one voice, with the velocity of step 0), and none
in any other period; `recs` are the records of all pads, stored from the ring
index on. The step index is `(beat mod 4) * 4 + pulse / 6`, so it is 0
only in the first quarter of every fourth beat: steps 4, 8 and 12 store nothing.
The step reads of the other pads are defined. -/
theorem first_step_pattern_triggers (s : Engine K) (ts : TransportState) (pad0 : Pad K)
    (rest : List (Pad K)) (st0 : Step) (steps : List Step)
    (hidx : s.voiceIdx < s.numVoices)
    (hpads : s.cur.pads = pad0 :: rest) (havail : pad0.available = true)
    (hnp : pad0.nPatterns = 1)
    (hpat : pad0.patterns = [{ nSteps := 16, steps := st0 :: steps }])
    (hact : st0.active = true) (hlen : steps.length = 15)
    (hinact : ∀ st ∈ steps, st.active = false)
    (hrest : ∀ p ∈ rest, p.available = true → p.nPatterns ≠ 0 →
      (curStep (stepIndex ts) p).isSome = true)
    (hrun : ts.state = TState.TS_RUNNING) (hn : ts.nPulses = 24)
    (hb : 0 ≤ ts.beat) (hb29 : ts.beat < 2 ^ 29) (hp : 0 ≤ ts.pulse) (hp24 : ts.pulse < 24) :
    (∃ recs : List (Voice K),
      recs = (if stepIndex ts ≠ s.transportStep then
          s.cur.pads.enum.filterMap (fun p =>
            match curStep (stepIndex ts) p.2 with
            | some st =>
              if p.2.available = true ∧ 0 < p.2.nPatterns ∧ st.active = true then
                some ({ playSample := true
                        padIdx := p.1
                        startIdx := ts.pulseIdx % s.bufferSize
                        bufferIdx := 0
                        bufferLen := p.2.lengthSamps
                        gainL := p.2.gainLeftLin * ((st.velocity : K) / 127)
                        gainR := p.2.gainRightLin * ((st.velocity : K) / 127)
                        pitch := p.2.pitch } : Voice K)
              else none
            | none => none)
        else [])
      ∧ (transportPhase s ts).voices = storeAll s.voices (ringWrites s recs)
      ∧ (transportPhase s ts).voiceIdx = (s.voiceIdx + recs.length) % s.numVoices
      ∧ (transportPhase s ts).allocLog = s.allocLog ++ ringWrites s recs
      ∧ recs.filter (fun v => decide (v.padIdx = 0))
        = if stepIndex ts = 0 ∧ s.transportStep ≠ 0 then
            [({ playSample := true
                padIdx := 0
                startIdx := ts.pulseIdx % s.bufferSize
                bufferIdx := 0
                bufferLen := pad0.lengthSamps
                gainL := pad0.gainLeftLin * ((st0.velocity : K) / 127)
                gainR := pad0.gainRightLin * ((st0.velocity : K) / 127)
                pitch := pad0.pitch } : Voice K)]
          else [])
    ∧ (stepIndex ts = 0 ↔ ts.beat % 4 = 0 ∧ ts.pulse < 6)
    ∧ (stepIndex ts = ts.beat % 4 * 4 + ts.pulse / 6)
    ∧ (∀ p ∈ s.cur.pads, p.available = true → p.nPatterns ≠ 0 →
        (curStep (stepIndex ts) p).isSome = true) := by
  have hfd : Int.fdiv (ts.pulse * 4) ts.nPulses = ts.pulse * 4 / 24 := by
    rw [hn, Int.fdiv_eq_ediv _ (by decide)]
  have hidx16 := stepIndex_running ts hrun hb hp (by omega) (by rw [hfd]; omega)
  have hval : stepIndex ts = (ts.beat * 4 + ts.pulse * 4 / 24) % 16 := by
    rw [hidx16.1, hfd]
  have hcur : ∀ i : Int, 0 ≤ i → i < 16 →
      (i = 0 → curStep i pad0 = some st0)
      ∧ (i ≠ 0 → ∃ st, curStep i pad0 = some st ∧ st.active = false) := by
    intro i hi0 hi16
    obtain ⟨n, rfl⟩ := Int.eq_ofNat_of_zero_le hi0
    have hn16 : n < 16 := by omega
    rw [curStep_first _ hi0 hi16, hpat]
    simp only [List.getElem?_cons_zero, Int.toNat_ofNat, Nat.mod_eq_of_lt hn16]
    rw [if_neg (by decide)]
    cases n with
    | zero => exact ⟨fun _ => by simp, fun h => absurd rfl h⟩
    | succ m =>
      have hm : m < steps.length := by omega
      refine ⟨fun h => absurd h (by omega), fun _ => ⟨steps[m], ?_, hinact _ (List.getElem_mem hm)⟩⟩
      rw [List.getElem?_cons_succ, List.getElem?_eq_getElem hm]
  have hrec0 : stepRecord ts (stepIndex ts) s.bufferSize (0, pad0)
      = if stepIndex ts = 0 then
          some ({ playSample := true
                  padIdx := 0
                  startIdx := ts.pulseIdx % s.bufferSize
                  bufferIdx := 0
                  bufferLen := pad0.lengthSamps
                  gainL := pad0.gainLeftLin * ((st0.velocity : K) / 127)
                  gainR := pad0.gainRightLin * ((st0.velocity : K) / 127)
                  pitch := pad0.pitch } : Voice K)
        else none := by
    unfold stepRecord
    by_cases hs0 : stepIndex ts = 0
    · rw [if_pos hs0, (hcur _ hidx16.2.1 hidx16.2.2).1 hs0]
      simp only [havail, hnp, hact, Nat.lt_one_iff, and_self, if_true]
    · rw [if_neg hs0]
      obtain ⟨st, h1, h2⟩ := (hcur _ hidx16.2.1 hidx16.2.2).2 hs0
      rw [h1]
      simp only [h2, Bool.false_eq_true, and_false, if_false]
  have htail : ∀ (l : List (Voice K)),
      (∀ v ∈ l, v.padIdx ≠ 0) → l.filter (fun v => decide (v.padIdx = 0)) = [] := by
    intro l hl
    rw [List.filter_eq_nil_iff]
    intro v hv
    simpa using hl v hv
  have hrestrec : ∀ v ∈ (List.enumFrom 1 rest).filterMap
      (stepRecord ts (stepIndex ts) s.bufferSize), v.padIdx ≠ 0 := by
    intro v hv
    obtain ⟨p, hp1, hp2⟩ := List.mem_filterMap.1 hv
    have hpos := (List.mem_enumFrom hp1).1
    unfold stepRecord at hp2
    cases hc : curStep (stepIndex ts) p.2 with
    | none => simp [hc] at hp2
    | some st =>
      simp only [hc] at hp2
      split at hp2
      · have := Option.some.inj hp2
        rw [← this]
        show p.1 ≠ 0
        omega
      · exact absurd hp2 (by simp)
  refine ⟨?_, by omega, by omega, ?_⟩
  · have hguard : (0 ≤ stepIndex ts ∧ stepIndex ts ≠ s.transportStep)
        ↔ stepIndex ts ≠ s.transportStep := ⟨fun h => h.2, fun h => ⟨hidx16.2.1, h⟩⟩
    obtain ⟨h1, h2, h3, -⟩ := transportPhase_spec s ts hidx _ rfl
    refine ⟨_, ?_, h1, h2, h3, ?_⟩
    · simp only [hguard]
      rfl
    rw [hpads, List.enum_cons]
    by_cases hg : 0 ≤ stepIndex ts ∧ stepIndex ts ≠ s.transportStep
    · rw [if_pos hg]
      by_cases hs0 : stepIndex ts = 0
      · have hl : s.transportStep ≠ 0 := fun h => hg.2 (by rw [hs0, h])
        rw [if_pos ⟨hs0, hl⟩, List.filterMap_cons_some (by rw [hrec0, if_pos hs0]),
          List.filter_cons_of_pos (by simp), htail _ hrestrec]
      · have hfalse : ¬ (stepIndex ts = 0 ∧ s.transportStep ≠ 0) := fun h => hs0 h.1
        rw [if_neg hfalse, List.filterMap_cons_none (by rw [hrec0, if_neg hs0])]
        exact htail _ hrestrec
    · rw [if_neg hg]
      have heq : stepIndex ts = s.transportStep := by
        by_contra h; exact hg ⟨hidx16.2.1, h⟩
      have hfalse : ¬ (stepIndex ts = 0 ∧ s.transportStep ≠ 0) :=
        fun h => h.2 (by rw [← heq, h.1])
      rw [if_neg hfalse]
      rfl
  · intro p hp ha hnz
    rw [hpads] at hp
    rcases List.mem_cons.1 hp with h | h
    · subst h
      by_cases hs0 : stepIndex ts = 0
      · rw [(hcur _ hidx16.2.1 hidx16.2.2).1 hs0]; rfl
      · obtain ⟨st, h1, -⟩ := (hcur _ hidx16.2.1 hidx16.2.2).2 hs0
        rw [h1]; rfl
    · exact hrest p h ha hnz

end Sequencer

section ControlLemmas
variable {K : Type} [LinearOrderedField K] [FloorRing K]

/-- The conversion to `unsigned` of the floor of a value in `[0, 2 ^ 32)` is the
floor. -/
theorem floorToU32_floor (y : K) (h0 : 0 ≤ y) (h32 : y < 2 ^ 32) : floorToU32 ⌊y⌋ = ⌊y⌋₊ := by
  have h1 : 0 ≤ ⌊y⌋ := Int.floor_nonneg.2 h0
  have h2 : ⌊y⌋ < 2 ^ 32 := by
    rw [Int.floor_lt]
    exact_mod_cast h32
  rw [floorToU32_of_fits h1 h2, Int.floor_toNat]

theorem derivePad_derived (x : Ext K) (sampleRate : Nat) (p : Pad K) :
    (derivePad x sampleRate p).Derived x sampleRate := by
  unfold Pad.Derived derivePad
  refine ⟨?_, ?_, ?_, ?_, rfl, rfl, rfl⟩
  · exact le_min (by norm_num) (le_max_left _ _)
  · exact min_le_left _ _
  · exact le_min (by norm_num) (le_max_left _ _)
  · exact min_le_left _ _

theorem setConfigurationPad_length (x : Ext K) (s : Engine K) (st : SetCfg K) (i : Nat) :
    (setConfigurationPad x s st i).config.pads.length = st.config.pads.length := by
  unfold setConfigurationPad
  simp only
  split
  · simp
  · split
    · split <;> simp
    · simp

theorem setConfigurationPad_other (x : Ext K) (s : Engine K) (st : SetCfg K) (i j : Nat)
    (h : i ≠ j) :
    (setConfigurationPad x s st i).config.pads[j]? = st.config.pads[j]? := by
  unfold setConfigurationPad
  simp only
  split
  · simp [List.getElem?_set_ne h]
  · split
    · split <;> simp [List.getElem?_set_ne h]
    · simp [List.getElem?_set_ne h]

/-- What the loop body leaves in `config.pads[i]`. -/
theorem setConfigurationPad_at (x : Ext K) (s : Engine K) (st : SetCfg K) (i : Nat)
    (hi : i < st.config.pads.length) :
    (x.fsExists (x.resolve s.samplePackPath (st.config.pads.getD i Pad.blank).samplePath) = true →
      ((setConfigurationPad x s st i).config.pads.getD i Pad.blank).Derived x s.sampleRate)
    ∧ (x.fsExists (x.resolve s.samplePackPath (st.config.pads.getD i Pad.blank).samplePath) = false →
      (setConfigurationPad x s st i).config.pads.getD i Pad.blank
        = { (st.config.pads.getD i Pad.blank) with available := false }) := by
  have hget : ∀ p : Pad K, (st.config.pads.set i p).getD i Pad.blank = p := by
    intro p
    rw [List.getD_eq_getElem?_getD, List.getElem?_set_self hi]
    rfl
  constructor
  · intro hex
    unfold setConfigurationPad
    simp only [hex, Bool.true_eq_false, if_false]
    split
    · split
      · simp only [hget]; exact derivePad_derived _ _ _
      · simp only [hget]; exact derivePad_derived _ _ _
    · simp only [hget]; exact derivePad_derived _ _ _
  · intro hex
    unfold setConfigurationPad
    simp only [hex, if_true, hget]


theorem setConfiguration_loop (x : Ext K) (s : Engine K) (st0 : SetCfg K) :
    ∀ n : Nat,
      ((List.range n).foldl (setConfigurationPad x s) st0).config.pads.length
          = st0.config.pads.length
      ∧ (∀ j, n ≤ j →
          ((List.range n).foldl (setConfigurationPad x s) st0).config.pads[j]?
            = st0.config.pads[j]?)
      ∧ (∀ i, i < n → i < st0.config.pads.length →
          (x.fsExists (x.resolve s.samplePackPath (st0.config.pads.getD i Pad.blank).samplePath)
              = true →
            (((List.range n).foldl (setConfigurationPad x s) st0).config.pads.getD i
              Pad.blank).Derived x s.sampleRate)
          ∧ (x.fsExists (x.resolve s.samplePackPath (st0.config.pads.getD i Pad.blank).samplePath)
              = false →
            ((List.range n).foldl (setConfigurationPad x s) st0).config.pads.getD i Pad.blank
              = { (st0.config.pads.getD i Pad.blank) with available := false })) := by
  intro n
  induction n with
  | zero =>
    refine ⟨rfl, fun j _ => rfl, ?_⟩
    intro i hi
    omega
  | succ n ih =>
    obtain ⟨ih1, ih2, ih3⟩ := ih
    rw [List.range_succ, List.foldl_append, List.foldl_cons, List.foldl_nil]
    refine ⟨?_, ?_, ?_⟩
    · rw [setConfigurationPad_length, ih1]
    · intro j hj
      rw [setConfigurationPad_other x s _ n j (by omega), ih2 j (by omega)]
    · intro i hi hlen
      by_cases hin : i = n
      · subst hin
        have hprev : ((List.range i).foldl (setConfigurationPad x s) st0).config.pads.getD i
            Pad.blank = st0.config.pads.getD i Pad.blank := by
          rw [List.getD_eq_getElem?_getD, List.getD_eq_getElem?_getD, ih2 i (Nat.le_refl i)]
        have h := setConfigurationPad_at x s ((List.range i).foldl (setConfigurationPad x s) st0)
          i (by rw [ih1]; exact hlen)
        rw [hprev] at h
        exact h
      · have hsame : (setConfigurationPad x s ((List.range n).foldl (setConfigurationPad x s) st0)
            n).config.pads.getD i Pad.blank
            = ((List.range n).foldl (setConfigurationPad x s) st0).config.pads.getD i
              Pad.blank := by
          rw [List.getD_eq_getElem?_getD, List.getD_eq_getElem?_getD,
            setConfigurationPad_other x s _ n i (fun h => hin h.symm)]
        rw [hsame]
        exact ih3 i (by omega) hlen

theorem inputPads_length {F : Type} (x : Ext F) (config : Config F) :
    (inputPads x config).length = x.SAMPLER_NUM_PADS := by
  unfold inputPads
  split
  · unfold resize
    rw [List.length_append, List.length_take, List.length_replicate]
    omega
  · rename_i h
    simpa using h

theorem repairConfig_eq (x : Ext K) (s : Engine K) (config : Config K) :
    repairConfig x s config
      = (List.range x.SAMPLER_NUM_PADS).foldl (setConfigurationPad x s)
          { config := { config with
              pads := inputPads x config, numPads := (inputPads x config).length }
            samples := s.samples
            updateSamples := List.replicate (inputPads x config).length false } := by
  unfold repairConfig
  simp only [inputPads_length]

theorem published_config (x : Ext K) (s : Engine K) (config : Config K) :
    published x s config = (repairConfig x s config).config := by
  unfold published SetConfiguration Slot2.get Slot2.set
  simp only
  split <;> simp_all


theorem foldl_proj {α β γ : Type} (g : β → γ) (f : β → α → β) (l : List α)
    (hf : ∀ b, ∀ a ∈ l, g (f b a) = g b) : ∀ b, g (l.foldl f b) = g b := by
  induction l with
  | nil => intro b; rfl
  | cons a as ih =>
    intro b
    rw [List.foldl_cons, ih (fun b a ha => hf b a (List.mem_cons_of_mem _ ha)),
      hf b a (List.mem_cons_self _ _)]

theorem setConfigurationPad_numPads (x : Ext K) (s : Engine K) (st : SetCfg K) (i : Nat) :
    (setConfigurationPad x s st i).config.numPads = st.config.numPads := by
  unfold setConfigurationPad
  simp only
  split
  · rfl
  · split
    · split <;> rfl
    · rfl

theorem published_shape (x : Ext K) (s : Engine K) (cfg : Config K) :
    (published x s cfg).pads.length = x.SAMPLER_NUM_PADS
    ∧ (published x s cfg).numPads = x.SAMPLER_NUM_PADS := by
  rw [published_config, repairConfig_eq]
  obtain ⟨h1, -, -⟩ := setConfiguration_loop x s
    { config := { cfg with pads := inputPads x cfg, numPads := (inputPads x cfg).length }
      samples := s.samples
      updateSamples := List.replicate (inputPads x cfg).length false } x.SAMPLER_NUM_PADS
  have hlen := inputPads_length x cfg
  refine ⟨by rw [h1]; exact hlen, ?_⟩
  rw [foldl_proj (fun st : SetCfg K => st.config.numPads) _ _
    (fun b a _ => setConfigurationPad_numPads x s b a)]
  exact hlen

/-- C7, as the code has it: `SetConfiguration` publishes `SAMPLER_NUM_PADS` pads.
Every published pad whose sample file exists has `gain ∈ [-200, 6]`,
`pan ∈ [-100, 100]`, `gainLeftLin = 10^(gain/20) * √((100 - pan)/200)`,
`gainRightLin = 10^(gain/20) * √((100 + pan)/200)` and
`lengthSamps = ⌊lengthMs * sampleRate / 1000⌋` when that value fits the 32-bit
`unsigned` it is converted to (line 731), that is when
`0 ≤ lengthMs * sampleRate / 1000 < 2 ^ 32`. A pad whose sample file is missing
is published as it came in (gain, pan and derived fields untouched), marked
unavailable. -/
theorem published_pads_derived (x : Ext ℝ) (s : Engine ℝ) (cfg : Config ℝ)
    (hs : x.sqrt = Real.sqrt) (hd : x.DbToLin = fun d => (10 : ℝ) ^ (d / 20))
    (i : Nat) (hi : i < x.SAMPLER_NUM_PADS) :
    (published x s cfg).pads.length
        = x.SAMPLER_NUM_PADS
    ∧ (published x s cfg).numPads
        = x.SAMPLER_NUM_PADS
    ∧ (x.fsExists (x.resolve s.samplePackPath ((inputPads x cfg).getD i Pad.blank).samplePath)
          = true →
        -200 ≤ ((published x s cfg).pads.getD i Pad.blank).gain
        ∧ ((published x s cfg).pads.getD i Pad.blank).gain ≤ 6
        ∧ -100 ≤ ((published x s cfg).pads.getD i Pad.blank).pan
        ∧ ((published x s cfg).pads.getD i Pad.blank).pan ≤ 100
        ∧ ((published x s cfg).pads.getD i Pad.blank).gainLeftLin
          = (10 : ℝ) ^ (((published x s cfg).pads.getD i Pad.blank).gain / 20)
            * Real.sqrt ((100 - ((published x s cfg).pads.getD i Pad.blank).pan) / 200)
        ∧ ((published x s cfg).pads.getD i Pad.blank).gainRightLin
          = (10 : ℝ) ^ (((published x s cfg).pads.getD i Pad.blank).gain / 20)
            * Real.sqrt ((100 + ((published x s cfg).pads.getD i Pad.blank).pan) / 200)
        ∧ (0 ≤ ((published x s cfg).pads.getD i Pad.blank).lengthMs * (s.sampleRate : ℝ) / 1000 →
            ((published x s cfg).pads.getD i Pad.blank).lengthMs * (s.sampleRate : ℝ) / 1000
              < 2 ^ 32 →
            ((published x s cfg).pads.getD i Pad.blank).lengthSamps
              = ⌊((published x s cfg).pads.getD i Pad.blank).lengthMs
                  * (s.sampleRate : ℝ) / 1000⌋₊))
    ∧ (x.fsExists (x.resolve s.samplePackPath ((inputPads x cfg).getD i Pad.blank).samplePath)
          = false →
        (published x s cfg).pads.getD i
            Pad.blank
          = { ((inputPads x cfg).getD i Pad.blank) with available := false }) := by
  rw [published_config, repairConfig_eq]
  obtain ⟨h1, -, h3⟩ := setConfiguration_loop x s
    { config := { cfg with pads := inputPads x cfg, numPads := (inputPads x cfg).length }
      samples := s.samples
      updateSamples := List.replicate (inputPads x cfg).length false } x.SAMPLER_NUM_PADS
  have hlen := inputPads_length x cfg
  obtain ⟨h3a, h3b⟩ := h3 i hi (by simpa [hlen] using hi)
  refine ⟨by rw [h1]; exact hlen, ?_, ?_, h3b⟩
  · rw [foldl_proj (fun st : SetCfg ℝ => st.config.numPads) _ _
      (fun b a _ => setConfigurationPad_numPads x s b a)]
    exact hlen
  · intro hex
    have h := h3a hex
    unfold Pad.Derived at h
    rw [hs, hd] at h
    obtain ⟨g1, g2, g3, g4, g5, g6, g7⟩ := h
    refine ⟨g1, g2, g3, g4, g5, g6, ?_⟩
    intro h0 h32
    rw [g7]
    exact floorToU32_floor _ h0 h32

end ControlLemmas

section ConfigLemmas
variable {K : Type} [LinearOrderedField K]

theorem cfgView_modGain {s t : Engine K} (h : s.cfgView = t.cfgView) :
    s.cfgViewModGain = t.cfgViewModGain := by
  simp only [Engine.cfgView, Prod.mk.injEq] at h
  obtain ⟨h1, h2, h3, h4⟩ := h
  simp only [Engine.cfgViewModGain, Engine.cur, h1, h2, h3, h4]

theorem slot2_get_set {α : Type} (p : Slot2 α) (i : Nat) (a : α) : (p.set i a).get i = a := by
  unfold Slot2.get Slot2.set
  split <;> simp_all

theorem eraseGain_set (c : Config K) (j : Nat) (g : K) :
    ({ c with pads := c.pads.set j { (c.pads.getD j Pad.blank) with gain := g } } :
      Config K).eraseGain = c.eraseGain := by
  unfold Config.eraseGain
  simp only [List.map_set]
  congr 1
  by_cases hj : j < c.pads.length
  · rw [List.getD_eq_getElem _ _ hj]
    apply List.ext_getElem
    · simp
    · intro n h1 h2
      rw [List.getElem_set]
      split
      · rename_i h; subst h; simp
      · rfl
  · rw [List.set_eq_of_length_le (by simpa using hj)]

theorem setPadGain_view (s : Engine K) (j : Nat) (g : K) :
    (s.setPadGain j g).cfgViewModGain = s.cfgViewModGain := by
  unfold Engine.cfgViewModGain Engine.setPadGain
  simp only [Engine.cur, slot2_get_set]
  have := eraseGain_set (s.config.get s.curConfig) j g
  simp only [Engine.pad, Engine.cur]
  rw [this]

theorem noteOnStep_view (ev : MidiEvent) (s : Engine K) (j : Nat) :
    (noteOnStep ev s j).cfgView = s.cfgView := by
  unfold noteOnStep
  split <;> rfl

theorem controlChangeStep_view (ev : MidiEvent) (s : Engine K) (j : Nat) :
    (controlChangeStep ev s j).cfgViewModGain = s.cfgViewModGain := by
  unfold controlChangeStep
  split
  · exact setPadGain_view s j _
  · rfl

theorem midiStep_view (s : Engine K) (ev : MidiEvent) :
    (midiStep s ev).cfgViewModGain = s.cfgViewModGain
    ∧ (ev.status &&& 0xf0 ≠ 0xb0 → (midiStep s ev).cfgView = s.cfgView) := by
  unfold midiStep
  simp only
  split
  · split
    · have h := foldl_proj Engine.cfgView (noteOnStep ev) (List.range s.cur.numPads)
        (fun b a _ => noteOnStep_view ev b a) s
      exact ⟨cfgView_modGain h, fun _ => h⟩
    · split
      · rename_i hcc
        refine ⟨?_, fun h => absurd hcc h⟩
        exact foldl_proj Engine.cfgViewModGain (controlChangeStep ev) (List.range s.cur.numPads)
          (fun b a _ => controlChangeStep_view ev b a) s
      · exact ⟨rfl, fun _ => rfl⟩
  · exact ⟨rfl, fun _ => rfl⟩

theorem triggerStep_view (s : Engine K) (t : Nat × K) : (triggerStep s t).cfgView = s.cfgView := by
  unfold triggerStep
  split
  · split <;> rfl
  · rfl

theorem transportStepPad_view (ts : TransportState) (stepIdx : Int) (s : Engine K)
    (p : Nat × Pad K) : (transportStepPad ts stepIdx s p).cfgView = s.cfgView := by
  rw [transportStepPad_record]
  cases stepRecord ts stepIdx s.bufferSize p <;> rfl

theorem transportPhase_view (s : Engine K) (ts : TransportState) :
    (transportPhase s ts).cfgView = s.cfgView := by
  unfold transportPhase
  simp only
  split
  · exact foldl_proj Engine.cfgView (transportStepPad ts (stepIndex ts)) s.cur.pads.enum
      (fun b a _ => transportStepPad_view ts (stepIndex ts) b a) s
  · split <;> rfl

theorem collectPhase_view (s : Engine K) (inp : PeriodInput K) :
    (collectPhase s inp).cfgViewModGain = (swapConfig s).cfgViewModGain
    ∧ ((∀ ev ∈ inp.midi, ev.status &&& 0xf0 ≠ 0xb0) →
        (collectPhase s inp).cfgView = (swapConfig s).cfgView) := by
  unfold collectPhase
  have h3 := transportPhase_view (triggerPhase (midiPhase (swapConfig s) inp.midi) inp.triggers)
    inp.ts
  have h2 := foldl_proj Engine.cfgView triggerStep inp.triggers
    (fun b a _ => triggerStep_view b a) (midiPhase (swapConfig s) inp.midi)
  have h23 : (transportPhase (triggerPhase (midiPhase (swapConfig s) inp.midi) inp.triggers)
      inp.ts).cfgView = (midiPhase (swapConfig s) inp.midi).cfgView := by
    rw [h3]; exact h2
  constructor
  · rw [cfgView_modGain h23]
    exact foldl_proj Engine.cfgViewModGain midiStep inp.midi
      (fun b a _ => (midiStep_view b a).1) (swapConfig s)
  · intro hno
    rw [h23]
    exact foldl_proj Engine.cfgView midiStep inp.midi
      (fun b a ha => (midiStep_view b a).2 (hno a ha)) (swapConfig s)


theorem processAudioMidi_view (sqrt : K → K) (s : Engine K) (inp : PeriodInput K)
    (hinit : s.isInitialized = true) :
    (ProcessAudioMidi sqrt s inp).1.cfgView = (collectPhase s inp).cfgView := by
  unfold ProcessAudioMidi
  simp only [hinit, Bool.true_eq_false, if_false]
  rfl

end ConfigLemmas

section ConfigSwap
variable {K : Type} [LinearOrderedField K] [FloorRing K]

theorem swap_after_setConfiguration (x : Ext K) (s : Engine K) (cfg : Config K) :
    (swapConfig (SetConfiguration x s cfg)).curConfig = 1 - s.curConfig
    ∧ (swapConfig (SetConfiguration x s cfg)).updateConfig = false
    ∧ (swapConfig (SetConfiguration x s cfg)).cur = published x s cfg := by
  have hu : (SetConfiguration x s cfg).updateConfig = true := rfl
  have hsw : swapConfig (SetConfiguration x s cfg)
      = { (SetConfiguration x s cfg) with
          curConfig := (SetConfiguration x s cfg).newConfig, updateConfig := false } := by
    unfold swapConfig
    rw [if_pos hu]
  rw [hsw]
  refine ⟨rfl, rfl, ?_⟩
  rfl

end ConfigSwap

section ControlChangeLemmas
variable {K : Type} [LinearOrderedField K]

theorem afterControl_ctrl (chan : Nat) (evs : List MidiEvent) (p : Pad K) :
    (Pad.afterControl chan evs p).ctrl = p.ctrl := by
  unfold Pad.afterControl
  split <;> rfl

theorem afterControl_single (chan : Nat) (ev : MidiEvent) (p : Pad K) :
    Pad.afterControl chan [ev] p
      = if ccMatches chan p.ctrl ev = true then
          { p with gain := ((ev.data2 &&& 0x7f : Nat) : K) / 127 }
        else p := by
  unfold Pad.afterControl
  by_cases h : ccMatches chan p.ctrl ev = true
  · simp [h]
  · simp [h]

theorem afterControl_append (chan : Nat) (l1 l2 : List MidiEvent) (p : Pad K) :
    Pad.afterControl chan (l1 ++ l2) p = Pad.afterControl chan l2 (Pad.afterControl chan l1 p) := by
  have hc := afterControl_ctrl chan l1 p
  unfold Pad.afterControl at hc ⊢
  rw [List.filter_append, List.getLast?_append]
  cases h1 : (l1.filter (ccMatches chan p.ctrl)).getLast? with
  | none =>
    simp only [h1] at hc ⊢
    cases h2 : (l2.filter (ccMatches chan p.ctrl)).getLast? <;> simp
  | some e1 =>
    simp only [h1] at hc ⊢
    cases h2 : (l2.filter (ccMatches chan p.ctrl)).getLast? <;> simp

/-- The active configuration after `setPadGain`. -/
theorem setPadGain_cur (s : Engine K) (j : Nat) (g : K) :
    (s.setPadGain j g).cur = { s.cur with pads := s.cur.pads.set j { (s.pad j) with gain := g } }
    ∧ (s.setPadGain j g).curConfig = s.curConfig := by
  refine ⟨?_, rfl⟩
  unfold Engine.setPadGain
  simp only [Engine.cur, slot2_get_set]

/-- The control-change loop over the first `m` pads. -/
theorem controlChange_loop (ev : MidiEvent) (s : Engine K) :
    ∀ m : Nat,
      ((List.range m).foldl (controlChangeStep ev) s).curConfig = s.curConfig
      ∧ ((List.range m).foldl (controlChangeStep ev) s).cur
          = { s.cur with pads := ((List.range m).foldl (controlChangeStep ev) s).cur.pads }
      ∧ ∀ i, ((List.range m).foldl (controlChangeStep ev) s).cur.pads[i]?
          = (s.cur.pads[i]?).map (fun p =>
              if i < m ∧ (ev.data1 &&& 0x7f) = p.ctrl then
                { p with gain := ((ev.data2 &&& 0x7f : Nat) : K) / 127 }
              else p) := by
  intro m
  induction m with
  | zero =>
    refine ⟨rfl, rfl, ?_⟩
    intro i
    simp only [List.range_zero, List.foldl_nil, Nat.not_lt_zero, false_and, if_false]
    cases s.cur.pads[i]? <;> rfl
  | succ m ih =>
    obtain ⟨ih1, ih2, ih3⟩ := ih
    rw [List.range_succ, List.foldl_append, List.foldl_cons, List.foldl_nil]
    generalize hT : (List.range m).foldl (controlChangeStep ev) s = t at ih1 ih2 ih3
    have hpad : t.cur.pads[m]? = s.cur.pads[m]? := by
      rw [ih3 m]
      cases s.cur.pads[m]? with
      | none => rfl
      | some p => simp
    have hpadm : t.pad m = s.pad m := by
      simp only [Engine.pad, List.getD_eq_getElem?_getD, hpad]
    unfold controlChangeStep
    by_cases hmatch : (ev.data1 &&& 0x7f) = (t.pad m).ctrl
    · rw [if_pos hmatch]
      obtain ⟨c1, c2⟩ := setPadGain_cur t m (((ev.data2 &&& 0x7f : Nat) : K) / 127)
      refine ⟨by rw [c2, ih1], ?_, ?_⟩
      · rw [c1, ih2]
      · intro i
        rw [c1]
        simp only
        by_cases him : i = m
        · subst him
          cases hs : s.cur.pads[i]? with
          | none =>
            have : t.cur.pads[i]? = none := by rw [hpad, hs]
            have hlen : t.cur.pads.length ≤ i := List.getElem?_eq_none_iff.1 this
            rw [List.set_eq_of_length_le hlen, this]
            rfl
          | some p =>
            have ht : t.cur.pads[i]? = some p := by rw [hpad, hs]
            have hlt : i < t.cur.pads.length := (List.getElem?_eq_some_iff.1 ht).1
            have hsp : s.pad i = p := by
              simp only [Engine.pad, List.getD_eq_getElem?_getD, hs, Option.getD_some]
            rw [List.getElem?_set_self hlt, hpadm, hsp]
            rw [hpadm, hsp] at hmatch
            simp [hmatch]
        · rw [List.getElem?_set_ne (fun h => him h.symm), ih3 i]
          cases s.cur.pads[i]? with
          | none => rfl
          | some p =>
            simp only [Option.map_some']
            have : (i < m + 1 ∧ (ev.data1 &&& 0x7f) = p.ctrl) ↔ (i < m ∧ (ev.data1 &&& 0x7f) = p.ctrl) := by
              constructor <;> rintro ⟨a, b⟩ <;> exact ⟨by omega, b⟩
            simp only [this]
    · rw [if_neg hmatch]
      refine ⟨ih1, ih2, ?_⟩
      intro i
      rw [ih3 i]
      cases hs : s.cur.pads[i]? with
      | none => rfl
      | some p =>
        simp only [Option.map_some']
        by_cases him : i = m
        · subst him
          have hsp : s.pad i = p := by
            simp only [Engine.pad, List.getD_eq_getElem?_getD, hs, Option.getD_some]
          rw [hpadm, hsp] at hmatch
          simp [hmatch]
        · have : (i < m + 1 ∧ (ev.data1 &&& 0x7f) = p.ctrl) ↔ (i < m ∧ (ev.data1 &&& 0x7f) = p.ctrl) := by
            constructor <;> rintro ⟨a, b⟩ <;> exact ⟨by omega, b⟩
          simp only [this]

end ControlChangeLemmas

section ControlChangePhase
variable {K : Type} [LinearOrderedField K]

theorem afterControl_other (chan : Nat) (ev : MidiEvent) (p : Pad K)
    (h : ¬ (ev.status &&& 0xf0 = 0xb0 ∧ ev.status &&& 0x0f = chan)) :
    Pad.afterControl chan [ev] p = p := by
  rw [afterControl_single]
  have : ccMatches chan p.ctrl ev = false := by
    unfold ccMatches
    rw [decide_eq_false_iff_not]
    exact fun hc => h ⟨hc.1, hc.2.1⟩
  rw [this]
  rfl

theorem cur_of_cfgView {F : Type} {s t : Engine F} (h : t.cfgView = s.cfgView) :
    t.cur = s.cur ∧ t.curConfig = s.curConfig := by
  simp only [Engine.cfgView, Prod.mk.injEq] at h
  obtain ⟨h1, h2, -, -⟩ := h
  exact ⟨by simp only [Engine.cur, h1, h2], h2⟩

/-- The active configuration after one MIDI event. -/
theorem midiStep_cur (s : Engine K) (ev : MidiEvent) (hnum : s.cur.numPads = s.cur.pads.length) :
    (midiStep s ev).curConfig = s.curConfig
    ∧ (midiStep s ev).cur
        = { s.cur with pads := s.cur.pads.map (Pad.afterControl s.cur.midiChan [ev]) } := by
  by_cases hcc : ev.status &&& 0xf0 = 0xb0 ∧ ev.status &&& 0x0f = s.cur.midiChan
  · have hstep : midiStep s ev = controlChange s ev := by
      have h1 : (0xb0 : Nat) ≠ 0xf0 := by decide
      have h2 : (0xb0 : Nat) ≠ 0x90 := by decide
      simp [midiStep, hcc.1, hcc.2, h1, h2]
    obtain ⟨c1, c2, c3⟩ := controlChange_loop ev s s.cur.numPads
    rw [hstep, controlChange]
    refine ⟨c1, ?_⟩
    have hp : ((List.range s.cur.numPads).foldl (controlChangeStep ev) s).cur.pads
        = s.cur.pads.map (Pad.afterControl s.cur.midiChan [ev]) := by
      apply List.ext_getElem?
      intro i
      rw [c3 i, List.getElem?_map]
      cases hs : s.cur.pads[i]? with
      | none => rfl
      | some p =>
        have hlt : i < s.cur.numPads := by
          rw [hnum]; exact (List.getElem?_eq_some_iff.1 hs).1
        simp only [Option.map_some', afterControl_single, ccMatches, hcc.1, hcc.2, hlt, true_and,
          decide_eq_true_eq]
    rw [c2, hp]
  · have hview : (midiStep s ev).cfgView = s.cfgView := by
      by_cases hb : ev.status &&& 0xf0 = 0xb0
      · have hch : ¬ ev.status &&& 0x0f = s.cur.midiChan := fun h => hcc ⟨hb, h⟩
        have : midiStep s ev = s := by simp [midiStep, hch]
        rw [this]
      · exact (midiStep_view s ev).2 hb
    obtain ⟨h1, h2⟩ := cur_of_cfgView hview
    refine ⟨h2, ?_⟩
    rw [h1]
    have hid : s.cur.pads.map (Pad.afterControl s.cur.midiChan [ev]) = s.cur.pads := by
      conv_rhs => rw [← List.map_id s.cur.pads]
      apply List.map_congr_left
      intro p _
      exact afterControl_other _ ev p hcc
    rw [hid]

/-- The active configuration after the MIDI events of a period. -/
theorem midiPhase_cur (evs : List MidiEvent) :
    ∀ s : Engine K, s.cur.numPads = s.cur.pads.length →
      (midiPhase s evs).curConfig = s.curConfig
      ∧ (midiPhase s evs).cur
          = { s.cur with pads := s.cur.pads.map (Pad.afterControl s.cur.midiChan evs) } := by
  induction evs with
  | nil =>
    intro s _
    refine ⟨rfl, ?_⟩
    have hid : s.cur.pads.map (Pad.afterControl s.cur.midiChan []) = s.cur.pads := by
      conv_rhs => rw [← List.map_id s.cur.pads]
      apply List.map_congr_left
      intro p _
      rfl
    rw [hid]
    rfl
  | cons e evs ih =>
    intro s hnum
    obtain ⟨m1, m2⟩ := midiStep_cur s e hnum
    have hnum1 : (midiStep s e).cur.numPads = (midiStep s e).cur.pads.length := by
      rw [m2]
      simpa using hnum
    obtain ⟨i1, i2⟩ := ih (midiStep s e) hnum1
    have hstep : midiPhase s (e :: evs) = midiPhase (midiStep s e) evs := rfl
    rw [hstep]
    refine ⟨by rw [i1, m1], ?_⟩
    rw [i2, m2]
    simp only [List.map_map]
    congr 1
    apply List.map_congr_left
    intro p _
    show Pad.afterControl s.cur.midiChan evs (Pad.afterControl s.cur.midiChan [e] p)
      = Pad.afterControl s.cur.midiChan (e :: evs) p
    rw [← afterControl_append]
    rfl

theorem collectPhase_cur (s : Engine K) (inp : PeriodInput K) :
    (collectPhase s inp).cur = (midiPhase (swapConfig s) inp.midi).cur := by
  unfold collectPhase
  have h3 := transportPhase_view (triggerPhase (midiPhase (swapConfig s) inp.midi) inp.triggers)
    inp.ts
  have h2 := foldl_proj Engine.cfgView triggerStep inp.triggers
    (fun b a _ => triggerStep_view b a) (midiPhase (swapConfig s) inp.midi)
  exact (cur_of_cfgView (h3.trans h2)).1

end ControlChangePhase

section ConfigSwapObserved
variable {K : Type} [LinearOrderedField K] [FloorRing K]

/-- C6, as the code has it: after `SetConfiguration(cfg)` and one period of an
initialised engine, `curConfig` is the slot that was inactive before the call,
`updateConfig` is false again, and the active configuration is the published
one except for the `gain` of the pads: the gain of a pad is
`(data2 & 0x7F) / 127` of the last control change of that period (status high
nibble 0xB, on the configured channel) whose controller number `data1 & 0x7F`
is the pad's `ctrl`, and the published gain when the period has no such event.
A period without control change leaves the published configuration as it is. -/
theorem config_swap_observed (x : Ext K) (s : Engine K) (cfg : Config K) (inp : PeriodInput K)
    (hinit : s.isInitialized = true) (hcur : s.curConfig ≤ 1) :
    (ProcessAudioMidi x.sqrt (SetConfiguration x s cfg) inp).1.curConfig = 1 - s.curConfig
    ∧ (ProcessAudioMidi x.sqrt (SetConfiguration x s cfg) inp).1.curConfig ≠ s.curConfig
    ∧ (ProcessAudioMidi x.sqrt (SetConfiguration x s cfg) inp).1.updateConfig = false
    ∧ (ProcessAudioMidi x.sqrt (SetConfiguration x s cfg) inp).1.cur
        = { (published x s cfg) with
            pads := (published x s cfg).pads.map (fun p =>
              match (inp.midi.filter (fun ev =>
                  decide (ev.status &&& 0xf0 = 0xb0
                    ∧ ev.status &&& 0x0f = (published x s cfg).midiChan
                    ∧ ev.data1 &&& 0x7f = p.ctrl))).getLast? with
              | some ev => { p with gain := ((ev.data2 &&& 0x7f : Nat) : K) / 127 }
              | none => p) }
    ∧ ((∀ ev ∈ inp.midi, ev.status &&& 0xf0 ≠ 0xb0) →
        (ProcessAudioMidi x.sqrt (SetConfiguration x s cfg) inp).1.cur
          = published x s cfg) := by
  have hinit' : (SetConfiguration x s cfg).isInitialized = true := hinit
  have hP := processAudioMidi_view x.sqrt (SetConfiguration x s cfg) inp hinit'
  obtain ⟨hc1, hc2⟩ := collectPhase_view (SetConfiguration x s cfg) inp
  obtain ⟨w1, w2, w3⟩ := swap_after_setConfiguration x s cfg
  have hm := (cfgView_modGain hP).trans hc1
  simp only [Engine.cfgViewModGain, Prod.mk.injEq] at hm
  obtain ⟨-, m2, -, m4⟩ := hm
  refine ⟨by rw [m2, w1], by rw [m2, w1]; omega, by rw [m4, w2], ?_, ?_⟩
  · obtain ⟨hlen, hnum⟩ := published_shape x s cfg
    have hnum' : (swapConfig (SetConfiguration x s cfg)).cur.numPads
        = (swapConfig (SetConfiguration x s cfg)).cur.pads.length := by
      rw [w3, hlen, hnum]
    rw [(cur_of_cfgView hP).1, collectPhase_cur,
      (midiPhase_cur inp.midi _ hnum').2, w3]
    rfl
  · intro hno
    have hv := hP.trans (hc2 hno)
    rw [(cur_of_cfgView hv).1, w3]

end ConfigSwapObserved

section StealLemmas
variable {K : Type} [LinearOrderedField K]

theorem ring_slots_distinct (i0 m j n : Nat) (h : (i0 + m) % n = (i0 + j) % n) (hm : m < n)
    (hj : j < n) : m = j :=
  Nat.ModEq.eq_of_lt_of_lt (Nat.ModEq.add_left_cancel' i0 h) hm hj

/-- One assignment of a playing voice into a pool that so far took `j`
assignments from an idle state. -/
theorem assign_count (Q : Voice K → Prop) (n i0 j : Nat) (s : Engine K) (v : Voice K)
    (hv : v.playSample = true) (hQ : Q v)
    (hlen : s.voices.length = n) (hnum : s.numVoices = n) (hidx : s.voiceIdx = (i0 + j) % n)
    (hn : 0 < n)
    (hcount : s.voices.countP (fun v => v.playSample) = min j n)
    (hall : ∀ w ∈ s.voices, w.playSample = true → Q w)
    (hidle : ∀ m, j ≤ m → m < n → (s.voices.getD ((i0 + m) % n) Voice.blank).playSample = false) :
    (assign s v).voices.length = n ∧ (assign s v).numVoices = n
    ∧ (assign s v).voiceIdx = (i0 + (j + 1)) % n
    ∧ (assign s v).voices.countP (fun v => v.playSample) = min (j + 1) n
    ∧ (∀ w ∈ (assign s v).voices, w.playSample = true → Q w)
    ∧ (∀ m, j + 1 ≤ m → m < n →
        ((assign s v).voices.getD ((i0 + m) % n) Voice.blank).playSample = false) := by
  have hslot : s.voiceIdx < s.voices.length := by
    rw [hidx, hlen]; exact Nat.mod_lt _ hn
  refine ⟨by simp [assign, hlen], hnum, ?_, ?_, ?_, ?_⟩
  · show (s.voiceIdx + 1) % s.numVoices = _
    rw [hidx, hnum, Nat.mod_add_mod, Nat.add_assoc]
  · show (s.voices.set s.voiceIdx v).countP _ = _
    rw [List.countP_set _ _ _ _ hslot, hcount]
    simp only [hv, if_true]
    by_cases hj : j < n
    · have h0 := hidle j (Nat.le_refl j) hj
      rw [← hidx, List.getD_eq_getElem _ _ hslot] at h0
      simp only [h0, Bool.false_eq_true, if_false]
      omega
    · have hfull : s.voices.countP (fun v => v.playSample) = s.voices.length := by
        rw [hcount, hlen]; omega
      have := (List.countP_eq_length.1 hfull) _ (List.getElem_mem hslot)
      simp only [this, if_true]
      omega
  · intro w hw hp
    rcases List.mem_or_eq_of_mem_set hw with h | h
    · exact hall w h hp
    · rw [h]; exact hQ
  · intro m hm hmn
    show ((s.voices.set s.voiceIdx v).getD ((i0 + m) % n) Voice.blank).playSample = false
    have hne : s.voiceIdx ≠ (i0 + m) % n := by
      rw [hidx]
      intro h
      have := ring_slots_distinct i0 j m n h (by omega) hmn
      omega
    rw [List.getD_eq_getElem?_getD, List.getElem?_set_ne hne, ← List.getD_eq_getElem?_getD]
    exact hidle m (by omega) hmn

theorem assignAll_count (Q : Voice K → Prop) (n i0 : Nat) (hn : 0 < n) (vs : List (Voice K))
    (hvs : ∀ v ∈ vs, v.playSample = true ∧ Q v) :
    ∀ (j : Nat) (s : Engine K),
      s.voices.length = n → s.numVoices = n → s.voiceIdx = (i0 + j) % n →
      s.voices.countP (fun v => v.playSample) = min j n →
      (∀ w ∈ s.voices, w.playSample = true → Q w) →
      (∀ m, j ≤ m → m < n → (s.voices.getD ((i0 + m) % n) Voice.blank).playSample = false) →
      (vs.foldl assign s).voices.countP (fun v => v.playSample) = min (j + vs.length) n
      ∧ (∀ w ∈ (vs.foldl assign s).voices, w.playSample = true → Q w) := by
  induction vs with
  | nil => intro j s _ _ _ hc ha _; exact ⟨by simpa using hc, ha⟩
  | cons v vs ih =>
    intro j s h1 h2 h3 h4 h5 h6
    obtain ⟨hv, hQ⟩ := hvs v (List.mem_cons_self _ _)
    obtain ⟨a1, a2, a3, a4, a5, a6⟩ := assign_count Q n i0 j s v hv hQ h1 h2 h3 hn h4 h5 h6
    have := ih (fun w hw => hvs w (List.mem_cons_of_mem _ hw)) (j + 1) (assign s v) a1 a2 a3 a4 a5 a6
    rw [List.foldl_cons, List.length_cons]
    rw [show j + (vs.length + 1) = j + 1 + vs.length by omega]
    exact this


theorem triggerPhase_same_pad (p : Nat) (q : List (Nat × K)) (hq : ∀ t ∈ q, t.1 = p) :
    ∀ s : Engine K, p < s.cur.numPads → (s.pad p).available = true →
      triggerPhase s q = (q.map (fun t => triggerVoice p t.2 (s.pad p))).foldl assign s := by
  induction q with
  | nil => intro s _ _; rfl
  | cons t ts ih =>
    intro s hp hav
    have ht : t.1 = p := hq t (List.mem_cons_self _ _)
    have hstep : triggerStep s t = assign s (triggerVoice p t.2 (s.pad p)) := by
      unfold triggerStep
      rw [ht, if_pos hp, if_pos hav]
    unfold triggerPhase
    rw [List.foldl_cons, hstep, List.map_cons, List.foldl_cons]
    exact ih (fun u hu => hq u (List.mem_cons_of_mem _ hu)) (assign s _) hp hav

theorem mixVoice_keeps (sqrt : K → K) (samples : List (SampleSlot K)) (B : Nat) (v : Voice K)
    (o : List K × List K)
    (hvalid : v.playSample = true →
      (liveInfo samples v.padIdx).valid = true)
    (hlong : v.playSample = true →
      v.startIdx = 0 ∧ v.bufferIdx = 0 ∧ B < v.bufferLen ∧ v.bufferLen < U32) :
    (mixVoice sqrt samples B v o).1.playSample = v.playSample := by
  by_cases hp : v.playSample = true
  · obtain ⟨h1, h2, h3, h4⟩ := hlong hp
    have hlen : mixLen B v = B := by
      unfold mixLen
      rw [h1, h2, usub_zero h4, Nat.min_eq_left (by omega), usub_zero (by omega)]
    have hadd : uadd 0 B = B := by
      rw [uadd_of_lt (by omega)]; omega
    unfold mixVoice
    simp only [hp, hvalid hp, hlen, h2, hadd, Bool.true_eq_false, if_false]
    rw [if_neg (by omega)]
  · have hf : v.playSample = false := by simpa using hp
    unfold mixVoice
    rw [if_pos hf]

theorem mixVoices_count (sqrt : K → K) (samples : List (SampleSlot K)) (B : Nat) :
    ∀ (vs : List (Voice K)) (o : List K × List K),
      (∀ v ∈ vs, v.playSample = true →
        (liveInfo samples v.padIdx).valid = true
        ∧ v.startIdx = 0 ∧ v.bufferIdx = 0 ∧ B < v.bufferLen ∧ v.bufferLen < U32) →
      (mixVoices sqrt samples B vs o).1.countP (fun v => v.playSample)
        = vs.countP (fun v => v.playSample) := by
  intro vs
  induction vs with
  | nil => intro o _; rfl
  | cons v vs ih =>
    intro o h
    have hv := h v (List.mem_cons_self _ _)
    have hk := mixVoice_keeps sqrt samples B v o (fun hp => (hv hp).1) (fun hp => (hv hp).2)
    simp only [mixVoices, List.countP_cons, hk]
    rw [ih _ (fun w hw => h w (List.mem_cons_of_mem _ hw))]

theorem transportPhase_idle (s : Engine K) (ts : TransportState)
    (hts : ts.state ≠ TState.TS_RUNNING) :
    (transportPhase s ts).voices = s.voices ∧ (transportPhase s ts).samples = s.samples
    ∧ (transportPhase s ts).bufferSize = s.bufferSize
    ∧ (transportPhase s ts).allocLog = s.allocLog := by
  have h : stepIndex ts = -1 := by
    unfold stepIndex
    rw [if_neg hts]
  unfold transportPhase
  simp only [h]
  rw [if_neg (by omega)]
  split <;> exact ⟨rfl, rfl, rfl, rfl⟩

theorem assignAll_frame {F : Type} (vs : List (Voice F)) :
    ∀ s : Engine F, (vs.foldl assign s).samples = s.samples
      ∧ (vs.foldl assign s).bufferSize = s.bufferSize := by
  induction vs with
  | nil => intro s; exact ⟨rfl, rfl⟩
  | cons v vs ih => intro s; rw [List.foldl_cons]; exact ih (assign s v)


theorem assignAll_ring {F : Type} (vs : List (Voice F)) :
    ∀ s : Engine F, s.Good →
      ∃ new, RingAlloc s (vs.foldl assign s) new ∧ new.length = vs.length := by
  induction vs with
  | nil => intro s hg; exact ⟨[], ringAlloc_of_same hg rfl rfl rfl rfl, rfl⟩
  | cons v vs ih =>
    intro s hg
    have h1 := ringAlloc_assign s v hg
    obtain ⟨new, h2, h3⟩ := ih (assign s v) (ringAlloc_good h1 hg)
    exact ⟨_, ringAlloc_trans h1 h2, by simp [h3]⟩

end StealLemmas

section Stealing
variable {K : Type} [LinearOrderedField K]

/-- C8, as the code has it: the pool is one ring over all `numVoices =
SAMPLER_VOICES_PER_PAD * SAMPLER_NUM_PADS` voices. Starting from an idle pool,
`k` UI triggers of one available pad whose sample is longer than one buffer
leave exactly `min k numVoices` voices playing at the end of the period; the
`j`-th trigger wrote slot `(voiceIdx + j) mod numVoices`, so no voice is
overwritten while `k ≤ numVoices`. -/
theorem playing_after_triggers (x : Ext K) (s : Engine K) (inp : PeriodInput K) (p : Nat)
    (hinit : s.isInitialized = true) (hupd : s.updateConfig = false)
    (hnum : s.numVoices = s.voices.length) (hidx : s.voiceIdx < s.numVoices)
    (hidle : ∀ v ∈ s.voices, v.playSample = false)
    (hp : p < s.cur.numPads) (hav : (s.pad p).available = true)
    (hlong : s.bufferSize < (s.pad p).lengthSamps) (hL32 : (s.pad p).lengthSamps < U32)
    (hvalid : (liveInfo (commitSamples s.samples) p).valid = true)
    (hmidi : inp.midi = []) (hts : inp.ts.state ≠ TState.TS_RUNNING)
    (htrig : ∀ t ∈ inp.triggers, t.1 = p) :
    (ProcessAudioMidi x.sqrt s inp).1.voices.countP (fun v => v.playSample)
        = min inp.triggers.length s.numVoices
    ∧ (∃ new : List (Nat × Voice K),
        (ProcessAudioMidi x.sqrt s inp).1.allocLog = s.allocLog ++ new
        ∧ new.length = inp.triggers.length
        ∧ (∀ j (h : j < new.length), (new.get ⟨j, h⟩).1 = (s.voiceIdx + j) % s.numVoices)
        ∧ (inp.triggers.length ≤ s.numVoices →
            ∀ i j (hi : i < new.length) (hj : j < new.length),
              (new.get ⟨i, hi⟩).1 = (new.get ⟨j, hj⟩).1 → i = j))
    ∧ (∀ s0 : Engine K,
        (initDsp x s0).numVoices = x.SAMPLER_VOICES_PER_PAD * x.SAMPLER_NUM_PADS) := by
  have hswap : swapConfig s = s := by
    unfold swapConfig
    rw [if_neg (by simp [hupd])]
  have hcollect : collectPhase s inp
      = transportPhase ((inp.triggers.map (fun t => triggerVoice p t.2 (s.pad p))).foldl assign s)
          inp.ts := by
    unfold collectPhase
    rw [hswap, hmidi]
    show transportPhase (triggerPhase s inp.triggers) inp.ts = _
    rw [triggerPhase_same_pad p inp.triggers htrig s hp hav]
  obtain ⟨t1, t2, t3, t4⟩ := transportPhase_idle
    ((inp.triggers.map (fun t => triggerVoice p t.2 (s.pad p))).foldl assign s) inp.ts hts
  obtain ⟨f1, f2⟩ := assignAll_frame (inp.triggers.map (fun t => triggerVoice p t.2 (s.pad p))) s
  have hn : 0 < s.voices.length := by omega
  obtain ⟨c1, c2⟩ := assignAll_count
    (fun v : Voice K => v.padIdx = p ∧ v.startIdx = 0 ∧ v.bufferIdx = 0
      ∧ v.bufferLen = (s.pad p).lengthSamps)
    s.voices.length s.voiceIdx hn
    (inp.triggers.map (fun t => triggerVoice p t.2 (s.pad p)))
    (by
      intro v hv
      obtain ⟨t, -, rfl⟩ := List.mem_map.1 hv
      exact ⟨rfl, rfl, rfl, rfl, rfl⟩)
    0 s rfl hnum (by rw [Nat.add_zero, Nat.mod_eq_of_lt (by omega)])
    (by
      rw [Nat.zero_min, List.countP_eq_zero]
      intro a ha
      simp [hidle a ha])
    (fun w hw hpw => by rw [hidle w hw] at hpw; exact absurd hpw (by simp))
    (fun m _ hm => by
      have hlt : (s.voiceIdx + m) % s.voices.length < s.voices.length := Nat.mod_lt _ hn
      rw [List.getD_eq_getElem _ _ hlt]
      exact hidle _ (List.getElem_mem hlt))
  refine ⟨?_, ?_, fun _ => rfl⟩
  · have hP : (ProcessAudioMidi x.sqrt s inp).1.voices
        = (mixVoices x.sqrt (commitSamples (collectPhase s inp).samples)
            (collectPhase s inp).bufferSize (collectPhase s inp).voices
            (zeroFrames inp.nframes inp.out_l, zeroFrames inp.nframes inp.out_r)).1 := by
      unfold ProcessAudioMidi
      simp only [hinit, Bool.true_eq_false, if_false]
    rw [hP, hcollect, t1, t2, t3, f1, f2, mixVoices_count, c1, List.length_map, Nat.zero_add, hnum]
    intro v hv hpv
    obtain ⟨q1, q2, q3, q4⟩ := c2 v hv hpv
    rw [q1]
    exact ⟨hvalid, q2, q3, by rw [q4]; exact hlong, by rw [q4]; exact hL32⟩
  · obtain ⟨new, r, rlen⟩ := assignAll_ring
      (inp.triggers.map (fun t => triggerVoice p t.2 (s.pad p))) s hidx
    obtain ⟨-, r2, -, r4, -⟩ := r
    have hlenq : new.length = inp.triggers.length := by rw [rlen, List.length_map]
    refine ⟨new, ?_, hlenq, r4, ?_⟩
    · have hP : (ProcessAudioMidi x.sqrt s inp).1.allocLog = (collectPhase s inp).allocLog := by
        unfold ProcessAudioMidi
        simp only [hinit, Bool.true_eq_false, if_false]
      rw [hP, hcollect, t4, r2]
    · intro hk i j hi hj hij
      rw [r4 i hi, r4 j hj] at hij
      exact ring_slots_distinct s.voiceIdx i j s.numVoices hij (by omega) (by omega)

end Stealing

section StepIndex
variable {K : Type}

/-- C11, as the code has it: for a running transport with `beat ≥ 0`, `pulse ≥ 0`,
`nPulses > 0` and a step count `4 * beat + ⌊4 * pulse / nPulses⌋` that fits the
32-bit `int` of the source, the step index is that count `mod 16` and lies in
`[0, 15]`; so the pattern index `⌊stepIdx / 16⌋ mod nPatterns` is 0 for every
pad, whatever its `nPatterns`, and the step the sequencer reads is step
`stepIdx mod nSteps` of `patterns[0]` (no step when there is no such pattern,
`nSteps` is 0 or the pattern does not hold that step). -/
theorem step_index_selects_first_pattern (ts : TransportState)
    (hrun : ts.state = TState.TS_RUNNING) (hb : 0 ≤ ts.beat) (hp : 0 ≤ ts.pulse)
    (hn : 0 < ts.nPulses)
    (hfit : 4 * ts.beat + ⌊(4 * ts.pulse : ℚ) / (ts.nPulses : ℚ)⌋ < 2 ^ 31) :
    stepIndex ts = (4 * ts.beat + ⌊(4 * ts.pulse : ℚ) / (ts.nPulses : ℚ)⌋) % 16
    ∧ 0 ≤ stepIndex ts ∧ stepIndex ts ≤ 15
    ∧ (∀ nPatterns : Nat, floorToU32 (Int.fdiv (stepIndex ts) 16) % nPatterns = 0)
    ∧ (∀ pad : Pad K, curStep (stepIndex ts) pad
        = match pad.patterns[0]? with
          | none => none
          | some pat =>
            if pat.nSteps = 0 then none
            else pat.steps[(stepIndex ts).toNat % pat.nSteps]?) := by
  have hfl : ⌊(4 * ts.pulse : ℚ) / (ts.nPulses : ℚ)⌋ = Int.fdiv (ts.pulse * 4) ts.nPulses := by
    rw [fdiv_eq_floor ts.pulse ts.nPulses hn]
    congr 1
    ring
  rw [hfl] at hfit ⊢
  obtain ⟨hval, h0, h16⟩ := stepIndex_running ts hrun hb hp hn (by omega)
  have hfd : Int.fdiv (stepIndex ts) 16 = 0 := by
    rw [Int.fdiv_eq_ediv _ (by decide)]; omega
  refine ⟨?_, h0, by omega, ?_, ?_⟩
  · rw [hval]
    congr 1
    ring
  · intro nPatterns
    rw [hfd]
    exact Nat.zero_mod _
  · intro pad
    exact curStep_first _ h0 h16 pad

end StepIndex

section UiTrigger
variable {K : Type} [LinearOrderedField K]

/-- C12: a queued UI trigger `(idx, strength)` with `idx < numPads` and
`pads[idx].available` allocates exactly one voice, written to the slot at the
ring index: `playSample`, `padIdx = idx`, `startIdx = 0`, `bufferIdx = 0`,
`bufferLen = lengthSamps` and the pad's linear gains times `strength`; any other
trigger (index out of range or pad unavailable) leaves the engine, with its
pool and ring index, unchanged. -/
theorem ui_trigger_allocation (s : Engine K) (idx : Nat) (strength : K) :
    (idx < s.cur.numPads ∧ (s.pad idx).available = true →
      (triggerStep s (idx, strength)).allocLog
          = s.allocLog ++ [(s.voiceIdx,
              ({ playSample := true
                 padIdx := idx
                 startIdx := 0
                 bufferIdx := 0
                 bufferLen := (s.pad idx).lengthSamps
                 gainL := (s.pad idx).gainLeftLin * strength
                 gainR := (s.pad idx).gainRightLin * strength
                 pitch := (s.pad idx).pitch } : Voice K))]
      ∧ (triggerStep s (idx, strength)).voices
          = s.voices.set s.voiceIdx
              ({ playSample := true
                 padIdx := idx
                 startIdx := 0
                 bufferIdx := 0
                 bufferLen := (s.pad idx).lengthSamps
                 gainL := (s.pad idx).gainLeftLin * strength
                 gainR := (s.pad idx).gainRightLin * strength
                 pitch := (s.pad idx).pitch } : Voice K)
      ∧ (triggerStep s (idx, strength)).voiceIdx = (s.voiceIdx + 1) % s.numVoices)
    ∧ (¬ (idx < s.cur.numPads ∧ (s.pad idx).available = true) →
      triggerStep s (idx, strength) = s) := by
  constructor
  · rintro ⟨h1, h2⟩
    have hstep : triggerStep s (idx, strength)
        = assign s (triggerVoice idx strength (s.pad idx)) := by
      unfold triggerStep
      rw [if_pos h1, if_pos h2]
    rw [hstep]
    exact ⟨rfl, rfl, rfl⟩
  · intro h
    unfold triggerStep
    by_cases h1 : idx < s.cur.numPads
    · have h2 : ¬ (s.pad idx).available = true := fun h2 => h ⟨h1, h2⟩
      rw [if_pos h1, if_neg h2]
    · rw [if_neg h1]

end UiTrigger

section SampleCommit
variable {K : Type} [LinearOrderedField K]

theorem collectPhase_samples (s : Engine K) (inp : PeriodInput K) :
    (collectPhase s inp).samples = s.samples := by
  have hn : ∀ ev (st : Engine K) (j : Nat), (noteOnStep ev st j).samples = st.samples := by
    intro ev st j; unfold noteOnStep; split <;> rfl
  have hc : ∀ ev (st : Engine K) (j : Nat), (controlChangeStep ev st j).samples = st.samples := by
    intro ev st j; unfold controlChangeStep; split <;> rfl
  have hm : ∀ (st : Engine K) ev, (midiStep st ev).samples = st.samples := by
    intro st ev
    unfold midiStep
    simp only
    split
    · split
      · exact foldl_proj (fun e : Engine K => e.samples) _ _ (fun b a _ => hn ev b a) st
      · split
        · exact foldl_proj (fun e : Engine K => e.samples) _ _ (fun b a _ => hc ev b a) st
        · rfl
    · rfl
  have ht : ∀ (st : Engine K) t, (triggerStep st t).samples = st.samples := by
    intro st t
    unfold triggerStep
    split
    · split <;> rfl
    · rfl
  have hp : ∀ ts stepIdx (st : Engine K) p, (transportStepPad ts stepIdx st p).samples
      = st.samples := by
    intro ts stepIdx st p
    rw [transportStepPad_record]
    cases stepRecord ts stepIdx st.bufferSize p <;> rfl
  have hs : ∀ (st : Engine K) ts, (transportPhase st ts).samples = st.samples := by
    intro st ts
    unfold transportPhase
    simp only
    split
    · exact foldl_proj (fun e : Engine K => e.samples) _ _
        (fun b a _ => hp ts (stepIndex ts) b a) st
    · split <;> rfl
  have h0 : (swapConfig s).samples = s.samples := by
    unfold swapConfig; split <;> rfl
  unfold collectPhase
  rw [hs]
  unfold triggerPhase
  rw [foldl_proj (fun e : Engine K => e.samples) _ _ (fun b a _ => ht b a)]
  unfold midiPhase
  rw [foldl_proj (fun e : Engine K => e.samples) _ _ (fun b a _ => hm b a), h0]

/-- C13: the commit step keeps the number of sample slots; for every slot it
flips `curSample` (`1 - curSample`, so 0 and 1 change places) exactly when the
slot's `update` flag is set and keeps it otherwise, clears the flag, and leaves
the `info` and PCM slots as they are; `curSample ≤ 1` is preserved. In a period
of an initialised engine it is applied once, to the sample store the period
started with, and the mixer works on its result. -/
theorem sample_commit (sqrt : K → K) (s : Engine K) (inp : PeriodInput K) :
    (commitSamples s.samples).length = s.samples.length
    ∧ (∀ i (h : i < s.samples.length),
        (commitSamples s.samples)[i]?
          = some { (s.samples.get ⟨i, h⟩) with
              update := false
              curSample := if (s.samples.get ⟨i, h⟩).update = true
                then 1 - (s.samples.get ⟨i, h⟩).curSample
                else (s.samples.get ⟨i, h⟩).curSample })
    ∧ ((∀ smp ∈ s.samples, smp.curSample ≤ 1) →
        ∀ smp ∈ commitSamples s.samples, smp.curSample ≤ 1)
    ∧ (s.isInitialized = true →
        (ProcessAudioMidi sqrt s inp).1.samples = commitSamples s.samples
        ∧ (ProcessAudioMidi sqrt s inp).1.voices
            = (mixVoices sqrt (commitSamples s.samples) (collectPhase s inp).bufferSize
                (collectPhase s inp).voices
                (zeroFrames inp.nframes inp.out_l, zeroFrames inp.nframes inp.out_r)).1
        ∧ (ProcessAudioMidi sqrt s inp).2
            = (mixVoices sqrt (commitSamples s.samples) (collectPhase s inp).bufferSize
                (collectPhase s inp).voices
                (zeroFrames inp.nframes inp.out_l, zeroFrames inp.nframes inp.out_r)).2) := by
  refine ⟨by simp [commitSamples], ?_, ?_, ?_⟩
  · intro i h
    simp only [commitSamples, List.getElem?_map, List.getElem?_eq_getElem h, Option.map_some',
      List.get_eq_getElem]
    by_cases hu : s.samples[i].update = true
    · simp [hu]
    · have hf : s.samples[i].update = false := by simpa using hu
      simp only [hu, if_false]
      congr 1
      cases hsm : s.samples[i]
      rw [hsm] at hf
      simp only at hf
      simp [hf]
  · intro hall smp hsmp
    simp only [commitSamples, List.mem_map] at hsmp
    obtain ⟨a, ha, rfl⟩ := hsmp
    have := hall a ha
    split
    · show 1 - a.curSample ≤ 1
      omega
    · exact this
  · intro hinit
    unfold ProcessAudioMidi
    simp only [hinit, Bool.true_eq_false, if_false, collectPhase_samples]
    exact ⟨trivial, trivial, trivial⟩

end SampleCommit

section RoundTrip
variable {K : Type} [LinearOrderedField K] [FloorRing K]

theorem mapExcept_map {α β γ : Type} (f : α → β) (g : β → Except JsonError γ) (h : α → γ)
    (l : List α) (hl : ∀ a ∈ l, g (f a) = .ok (h a)) :
    mapExcept g (l.map f) = .ok (l.map h) := by
  induction l with
  | nil => rfl
  | cons a as ih =>
    rw [List.map_cons, mapExcept, hl a (List.mem_cons_self _ _),
      ih (fun b hb => hl b (List.mem_cons_of_mem _ hb))]
    rfl

theorem step_from_to_json (s s0 : Step) (h : s.Fits) :
    Step.from_json (Step.to_json s : Json K) s0 = .ok s.clamp := by
  have h1 : s.velocity % U32 = s.velocity := Nat.mod_eq_of_lt h
  simp [Step.from_json, Step.to_json, Json.set, setMember, Json.atKey, List.lookup,
    Json.getBool, Json.getUnsigned, bind, Except.bind, pure, Except.pure, h1, Step.clamp]


theorem step_velocity_bound (j : Json K) (t0 t : Step) (h : Step.from_json j t0 = .ok t) :
    t.velocity ≤ 127 := by
  unfold Step.from_json at h
  simp only [bind, Except.bind, pure, Except.pure] at h
  split at h
  · exact absurd h (by simp)
  · split at h
    · exact absurd h (by simp)
    · split at h
      · exact absurd h (by simp)
      · split at h
        · exact absurd h (by simp)
        · have := Except.ok.inj h
          rw [← this]
          exact Nat.min_le_left _ _

/-- C14: reading back the JSON of a step `s` (a 32-bit velocity) yields the step
with the same `active` flag and `velocity = min(127, s.velocity)`; every step
`from_json` returns, from whatever JSON, has `velocity ≤ 127`; the round trip
is the identity on steps with `velocity ≤ 127`, and a step with velocity 200
comes back with velocity 127. -/
theorem step_round_trip (s s0 : Step) (h : s.velocity < U32) :
    Step.from_json (Step.to_json s : Json K) s0
        = .ok { active := s.active, velocity := min 127 s.velocity }
    ∧ (∀ (j : Json K) (t0 t : Step), Step.from_json j t0 = .ok t → t.velocity ≤ 127)
    ∧ (s.velocity ≤ 127 → Step.from_json (Step.to_json s : Json K) s0 = .ok s)
    ∧ (∀ b : Bool, Step.from_json (Step.to_json { active := b, velocity := 200 } : Json K) s0
        = .ok { active := b, velocity := 127 }) := by
  refine ⟨step_from_to_json s s0 h, step_velocity_bound, ?_, ?_⟩
  · intro h127
    rw [step_from_to_json s s0 h]
    cases s
    simp only [Step.clamp] at *
    simp [Nat.min_eq_right h127]
  · intro b
    rw [step_from_to_json _ s0 (show (200 : Nat) < U32 by decide)]
    rfl

theorem pattern_from_to_json (p p0 : Pattern) (h : p.Fits) :
    Pattern.from_json (Pattern.to_json p : Json K) p0 = .ok p.clamp := by
  have h1 : p.nSteps % U32 = p.nSteps := Nat.mod_eq_of_lt h.1
  have h2 : mapExcept (fun e : Json K => Step.from_json e Step.blank)
      (p.steps.map Step.to_json) = .ok (p.steps.map Step.clamp) :=
    mapExcept_map _ _ _ _ (fun a ha => step_from_to_json a Step.blank (h.2 a ha))
  simp [Pattern.from_json, Pattern.to_json, Json.set, setMember, Json.atKey, List.lookup,
    Json.getUnsigned, Json.getVector, bind, Except.bind, pure, Except.pure, h1, h2,
    Pattern.clamp]

theorem sample_from_to_json (s s0 : Sample) (h : s.Fits) :
    Sample.from_json (Sample.to_json s : Json K) s0 = .ok s := by
  have h1 : s.numChannels % U32 = s.numChannels := Nat.mod_eq_of_lt h.1
  have h2 : s.numFrames % U32 = s.numFrames := Nat.mod_eq_of_lt h.2.1
  have h3 : s.sampleRate % U32 = s.sampleRate := Nat.mod_eq_of_lt h.2.2
  simp [Sample.from_json, Sample.to_json, Json.set, setMember, Json.atKey, List.lookup,
    Json.getBool, Json.getString, Json.getUnsigned, bind, Except.bind, pure, Except.pure,
    h1, h2, h3]

theorem pad_from_to_json (d : Defaults K) (p p0 : sampler.Pad K) (h : p.Fits) :
    sampler.Pad.from_json d (sampler.Pad.to_json p) p0
      = .ok { p0 with
          available := p.available, tone := p.tone, ctrl := p.ctrl, sample := p.sample
          sampleIdx := p.sampleIdx, gain := p.gain, pitch := p.pitch, nPatterns := p.nPatterns
          patterns := p.patterns.map Pattern.clamp } := by
  obtain ⟨f1, f2, f3, f4, f5⟩ := h
  have h1 : p.tone % U32 = p.tone := Nat.mod_eq_of_lt f1
  have h2 : p.ctrl % U32 = p.ctrl := Nat.mod_eq_of_lt f2
  have h3 : p.sampleIdx % U32 = p.sampleIdx := Nat.mod_eq_of_lt f3
  have h4 : p.nPatterns % U32 = p.nPatterns := Nat.mod_eq_of_lt f4
  have h5 : mapExcept (fun e : Json K => Pattern.from_json e d.pattern)
      (p.patterns.map Pattern.to_json) = .ok (p.patterns.map Pattern.clamp) :=
    mapExcept_map _ _ _ _ (fun a ha => pattern_from_to_json a d.pattern (f5 a ha))
  simp [sampler.Pad.from_json, sampler.Pad.patterns_from_json, sampler.Pad.to_json, Json.set,
    setMember, Json.atKey, List.lookup, Json.getBool, Json.getString, Json.getUnsigned,
    Json.getDouble, Json.getVector, bind, Except.bind, pure, Except.pure, h1, h2, h3, h4, h5]

theorem strings_from_to_json {F : Type} (l : List String) :
    mapExcept (Json.getString : Json F → Except JsonError String) (l.map Json.string)
      = .ok l := by
  have := mapExcept_map (Json.string : String → Json F) Json.getString id l (fun a _ => rfl)
  simpa using this

theorem config_from_to_json (d : Defaults K) (c c0 : sampler.Config K) (h : c.Fits) :
    sampler.Config.from_json d (sampler.Config.to_json c) c0
      = .ok { c with
          pads := c.pads.map (fun p => { d.pad with
            available := p.available, tone := p.tone, ctrl := p.ctrl
            sample := p.sample, sampleIdx := p.sampleIdx, gain := p.gain
            pitch := p.pitch, nPatterns := p.nPatterns
            patterns := p.patterns.map Pattern.clamp }) } := by
  obtain ⟨f1, f2, f3, f4, f5⟩ := h
  have h1 : c.numPads % U32 = c.numPads := Nat.mod_eq_of_lt f1
  have h2 : c.numSamples % U32 = c.numSamples := Nat.mod_eq_of_lt f2
  have h3 : c.midiChan % U32 = c.midiChan := Nat.mod_eq_of_lt f3
  have h4 := mapExcept_map (sampler.Pad.to_json : sampler.Pad K → Json K)
    (fun e => sampler.Pad.from_json d e d.pad)
    (fun p => { d.pad with
      available := p.available, tone := p.tone, ctrl := p.ctrl
      sample := p.sample, sampleIdx := p.sampleIdx, gain := p.gain
      pitch := p.pitch, nPatterns := p.nPatterns
      patterns := p.patterns.map Pattern.clamp }) c.pads
    (fun a ha => pad_from_to_json d a d.pad (f4 a ha))
  have h5 := mapExcept_map (Sample.to_json : Sample → Json K)
    (fun e => Sample.from_json e Sample.blank) id c.samples
    (fun a ha => sample_from_to_json a Sample.blank (f5 a ha))
  rw [List.map_id] at h5
  simp [sampler.Config.from_json, sampler.Config.to_json, Json.set, setMember, Json.atKey,
    List.lookup, Json.getBool, Json.getUnsigned, Json.getDouble, Json.getVector, bind,
    Except.bind, pure, Except.pure, h1, h2, h3, h4, h5, strings_from_to_json]

/-- C15, as the code has it: reading back the JSON of a configuration `c` (the
`mck::sampler::Config` of `Config.cpp`, with 32-bit unsigned members) yields `c`
in `tempo`, `numPads`, `numSamples`, `samples`, `midiChan`, `reconnect` and the
four connection lists; the pads come back in the same number, whatever
`numPads` is (nothing is resized), each with the `available`, `tone`, `ctrl`,
`sample`, `sampleIdx`, `gain`, `pitch`, `nPatterns` and patterns of the
original, the step velocities clamped to 127, and with every member the
serialisers do not name (`gainLin`) as in a default-constructed pad. -/
theorem config_round_trip (d : Defaults K) (c c0 : sampler.Config K) (h : c.Fits) :
    sampler.Config.from_json d (sampler.Config.to_json c) c0
      = .ok { c with
          pads := c.pads.map (fun p => { d.pad with
            available := p.available, tone := p.tone, ctrl := p.ctrl
            sample := p.sample, sampleIdx := p.sampleIdx, gain := p.gain
            pitch := p.pitch, nPatterns := p.nPatterns
            patterns := p.patterns.map (fun q => { q with
              steps := q.steps.map (fun s => { s with velocity := min 127 s.velocity }) }) }) }
    ∧ (∀ r, sampler.Config.from_json d (sampler.Config.to_json c) c0 = .ok r →
        r.numPads = c.numPads ∧ r.pads.length = c.pads.length) := by
  have h1 := config_from_to_json d c c0 h
  refine ⟨h1, ?_⟩
  intro r hr
  rw [h1] at hr
  have := Except.ok.inj hr
  rw [← this]
  exact ⟨rfl, by simp⟩

end RoundTrip

section StereoMix
variable {K : Type} [LinearOrderedField K]

theorem mixStereo_eq (sqrt : K → K) (buffer : List (List K)) (v : Voice K) (len : Nat)
    (o : List K × List K) :
    mixStereo sqrt buffer v len o
      = ((List.range len).foldl (fun o i =>
            addAt o (uadd v.startIdx i)
              (frame buffer 0 (uadd v.bufferIdx i) * stereoGain sqrt v.gainL)) o.1,
         (List.range len).foldl (fun o i =>
            addAt o (uadd v.startIdx i)
              (frame buffer 1 (uadd v.bufferIdx i) * stereoGain sqrt v.gainR)) o.2) := by
  unfold mixStereo
  exact foldl_pair_fst
    (fun o i => addAt o (uadd v.startIdx i)
      (frame buffer 0 (uadd v.bufferIdx i) * stereoGain sqrt v.gainL))
    (fun o i => addAt o (uadd v.startIdx i)
      (frame buffer 1 (uadd v.bufferIdx i) * stereoGain sqrt v.gainR))
    (List.range len) o

/-- The value of `len` when the subtraction of `startIdx` does not wrap. -/
theorem mixLen_of_le {F : Type} (B : Nat) (v : Voice F) (hb : v.bufferIdx ≤ v.bufferLen)
    (hL : v.bufferLen < U32) (hB : B < U32)
    (hs : v.startIdx ≤ min B (v.bufferLen - v.bufferIdx)) :
    mixLen B v = min B (v.bufferLen - v.bufferIdx) - v.startIdx := by
  unfold mixLen
  rw [usub_of_le hb hL, usub_of_le hs (lt_of_le_of_lt (Nat.min_le_left _ _) hB)]

/-- When the subtraction does not wrap, the loop stays inside the output buffer
and inside the sample, and the voice does not run past its length. -/
theorem mix_indices_safe (sqrt : K → K) (samples : List (SampleSlot K)) (B : Nat) (v : Voice K)
    (o : List K × List K) (hplay : v.playSample = true)
    (hvalid : (liveInfo samples v.padIdx).valid = true)
    (hb : v.bufferIdx ≤ v.bufferLen) (hL : v.bufferLen < U32) (hB : B < U32)
    (hs : v.startIdx ≤ min B (v.bufferLen - v.bufferIdx)) :
    (∀ i, i < mixLen B v → uadd v.startIdx i < B ∧ uadd v.bufferIdx i < v.bufferLen)
    ∧ (mixVoice sqrt samples B v o).1.bufferIdx ≤ v.bufferLen := by
  have hlen := mixLen_of_le B v hb hL hB hs
  have hm1 : min B (v.bufferLen - v.bufferIdx) ≤ B := Nat.min_le_left _ _
  have hm2 : min B (v.bufferLen - v.bufferIdx) ≤ v.bufferLen - v.bufferIdx := Nat.min_le_right _ _
  constructor
  · intro i hi
    rw [hlen] at hi
    rw [uadd_of_lt (by omega), uadd_of_lt (by omega)]
    omega
  · have hadd : uadd v.bufferIdx (mixLen B v) = v.bufferIdx + mixLen B v :=
      uadd_of_lt (by rw [hlen]; omega)
    unfold mixVoice
    simp only [hplay, hvalid, Bool.true_eq_false, if_false, hadd]
    rw [hlen]
    omega

/-- What one mixer step adds for a playing voice of a valid stereo sample. -/
theorem mixVoice_stereo (sqrt : K → K) (samples : List (SampleSlot K)) (B : Nat) (v : Voice K)
    (o : List K × List K) (hplay : v.playSample = true)
    (hvalid : (liveInfo samples v.padIdx).valid = true)
    (hstereo : 1 < (liveInfo samples v.padIdx).numChans)
    (hb : v.bufferIdx ≤ v.bufferLen) (hL : v.bufferLen < U32) (hB : B < U32)
    (hs : v.startIdx ≤ min B (v.bufferLen - v.bufferIdx)) :
    (∀ q, (mixVoice sqrt samples B v o).2.1[q]?
        = o.1[q]?.map (fun y =>
            if v.startIdx ≤ q ∧ q < min B (v.bufferLen - v.bufferIdx) then
              y + frame (liveBuffer samples v.padIdx) 0 (v.bufferIdx + (q - v.startIdx))
                * min 1 (v.gainL * sqrt 2)
            else y))
    ∧ (∀ q, (mixVoice sqrt samples B v o).2.2[q]?
        = o.2[q]?.map (fun y =>
            if v.startIdx ≤ q ∧ q < min B (v.bufferLen - v.bufferIdx) then
              y + frame (liveBuffer samples v.padIdx) 1 (v.bufferIdx + (q - v.startIdx))
                * min 1 (v.gainR * sqrt 2)
            else y)) := by
  have hlen := mixLen_of_le B v hb hL hB hs
  have hm1 : min B (v.bufferLen - v.bufferIdx) ≤ B := Nat.min_le_left _ _
  have hm2 : min B (v.bufferLen - v.bufferIdx) ≤ v.bufferLen - v.bufferIdx := Nat.min_le_right _ _
  have hout : (mixVoice sqrt samples B v o).2
      = mixStereo sqrt (liveBuffer samples v.padIdx) v
          (min B (v.bufferLen - v.bufferIdx) - v.startIdx) o := by
    unfold mixVoice
    simp only [hplay, hvalid, hstereo, hlen, Bool.true_eq_false, if_false, if_true]
  have hcond : ∀ q, (v.startIdx ≤ q ∧
      q < v.startIdx + (min B (v.bufferLen - v.bufferIdx) - v.startIdx))
      ↔ (v.startIdx ≤ q ∧ q < min B (v.bufferLen - v.bufferIdx)) := by
    intro q
    constructor <;> rintro ⟨a, b⟩ <;> exact ⟨a, by omega⟩
  rw [hout, mixStereo_eq]
  constructor
  · intro q
    rw [addLoop_get _ v.startIdx _ (by omega)]
    congr 1
    funext y
    by_cases hq : v.startIdx ≤ q ∧ q < min B (v.bufferLen - v.bufferIdx)
    · have : uadd v.bufferIdx (q - v.startIdx) = v.bufferIdx + (q - v.startIdx) :=
        uadd_of_lt (by omega)
      rw [if_pos ((hcond q).2 hq), if_pos hq, this]
      rfl
    · rw [if_neg (fun h => hq ((hcond q).1 h)), if_neg hq]
  · intro q
    rw [addLoop_get _ v.startIdx _ (by omega)]
    congr 1
    funext y
    by_cases hq : v.startIdx ≤ q ∧ q < min B (v.bufferLen - v.bufferIdx)
    · have : uadd v.bufferIdx (q - v.startIdx) = v.bufferIdx + (q - v.startIdx) :=
        uadd_of_lt (by omega)
      rw [if_pos ((hcond q).2 hq), if_pos hq, this]
      rfl
    · rw [if_neg (fun h => hq ((hcond q).1 h)), if_neg hq]

/-- C16: for a playing voice of a valid stereo source (`numChans > 1`) the mixer
adds `pcm[0]` times `min(1, gainL * √2)` into `out_l` and `pcm[1]` times
`min(1, gainR * √2)` into `out_r`; this factor never exceeds 1; for pan 0,
gain 0 dB and a note-on with `data2 = 127` it is
`min(1, 1 * √2 * (1 / √2)) = 1` on both channels (exact real arithmetic). -/
theorem stereo_gain_clamped (sqrt : K → K) (samples : List (SampleSlot K)) (B : Nat)
    (v : Voice K) (o : List K × List K) (hplay : v.playSample = true)
    (hvalid : (liveInfo samples v.padIdx).valid = true)
    (hstereo : 1 < (liveInfo samples v.padIdx).numChans)
    (hb : v.bufferIdx ≤ v.bufferLen) (hL : v.bufferLen < U32) (hB : B < U32)
    (hs : v.startIdx ≤ min B (v.bufferLen - v.bufferIdx)) :
    (∀ q, (mixVoice sqrt samples B v o).2.1[q]?
        = o.1[q]?.map (fun y =>
            if v.startIdx ≤ q ∧ q < min B (v.bufferLen - v.bufferIdx) then
              y + frame (liveBuffer samples v.padIdx) 0 (v.bufferIdx + (q - v.startIdx))
                * min 1 (v.gainL * sqrt 2)
            else y))
    ∧ (∀ q, (mixVoice sqrt samples B v o).2.2[q]?
        = o.2[q]?.map (fun y =>
            if v.startIdx ≤ q ∧ q < min B (v.bufferLen - v.bufferIdx) then
              y + frame (liveBuffer samples v.padIdx) 1 (v.bufferIdx + (q - v.startIdx))
                * min 1 (v.gainR * sqrt 2)
            else y))
    ∧ min 1 (v.gainL * sqrt 2) ≤ 1 ∧ min 1 (v.gainR * sqrt 2) ≤ 1
    ∧ (∀ (x : Ext ℝ) (sampleRate j : Nat) (pad : Pad ℝ) (ev : MidiEvent),
        x.sqrt = Real.sqrt → x.DbToLin = (fun d => (10 : ℝ) ^ (d / 20)) →
        pad.gain = 0 → pad.pan = 0 → ev.data2 = 127 →
        (noteOnVoice ev j (derivePad x sampleRate pad)).gainL = 1 / Real.sqrt 2
        ∧ (noteOnVoice ev j (derivePad x sampleRate pad)).gainR = 1 / Real.sqrt 2
        ∧ min 1 ((noteOnVoice ev j (derivePad x sampleRate pad)).gainL * Real.sqrt 2) = 1
        ∧ min 1 ((noteOnVoice ev j (derivePad x sampleRate pad)).gainR * Real.sqrt 2) = 1) := by
  obtain ⟨h1, h2⟩ := mixVoice_stereo sqrt samples B v o hplay hvalid hstereo hb hL hB hs
  refine ⟨h1, h2, min_le_left _ _, min_le_left _ _, ?_⟩
  intro x sampleRate j pad ev hsq hd hg hp hv
  have h2 : Real.sqrt ((100 - 0) / 200) = 1 / Real.sqrt 2 := by
    rw [show ((100 : ℝ) - 0) / 200 = 2⁻¹ by norm_num, Real.sqrt_inv, one_div]
  have h3 : Real.sqrt ((100 + 0) / 200) = 1 / Real.sqrt 2 := by
    rw [show ((100 : ℝ) + 0) / 200 = 2⁻¹ by norm_num, Real.sqrt_inv, one_div]
  have hgain : min (6 : ℝ) (max (-200) 0) = 0 := by norm_num
  have hpan : min (100 : ℝ) (max (-100) 0) = 0 := by norm_num
  have h127 : (127 &&& 0x7f : ℕ) = 127 := by decide
  have hpos : (0 : ℝ) < Real.sqrt 2 := Real.sqrt_pos.2 (by norm_num)
  have hL : (noteOnVoice ev j (derivePad x sampleRate pad)).gainL = 1 / Real.sqrt 2 := by
    simp only [noteOnVoice, derivePad, hsq, hd, hg, hp, hgain, hpan, h2, hv, h127]
    norm_num
  have hR : (noteOnVoice ev j (derivePad x sampleRate pad)).gainR = 1 / Real.sqrt 2 := by
    simp only [noteOnVoice, derivePad, hsq, hd, hg, hp, hgain, hpan, h3, hv, h127]
    norm_num
  refine ⟨hL, hR, ?_, ?_⟩
  · rw [hL, one_div, inv_mul_cancel₀ (ne_of_gt hpos), min_self]
  · rw [hR, one_div, inv_mul_cancel₀ (ne_of_gt hpos), min_self]

end StereoMix
section MixAdditive
variable {K : Type} [LinearOrderedField K]

theorem addAt_get (out : List K) (i : Nat) (x : K) (q : Nat) :
    (addAt out i x)[q]? = out[q]?.map (fun y => if i = q then y + x else y) := by
  rw [addAt, List.getElem?_modify]
  cases out[q]? <;> rfl

/-- A loop of `out[idx i] += f i` adds to each position an amount that does not
depend on the buffer it finds. -/
theorem addLoop_delta (idx : Nat → Nat) (f : Nat → K) (l : List Nat) :
    ∃ d : Nat → K, ∀ (out : List K) (q : Nat),
      (l.foldl (fun o i => addAt o (idx i) (f i)) out)[q]? = out[q]?.map (fun y => y + d q) := by
  induction l with
  | nil =>
    refine ⟨fun _ => 0, fun out q => ?_⟩
    simp only [List.foldl_nil, add_zero]
    cases out[q]? <;> rfl
  | cons i l ih =>
    obtain ⟨d, hd⟩ := ih
    refine ⟨fun q => (if idx i = q then f i else 0) + d q, fun out q => ?_⟩
    rw [List.foldl_cons, hd, addAt_get]
    cases out[q]? with
    | none => rfl
    | some y =>
      simp only [Option.map_some']
      by_cases h : idx i = q
      · simp only [h, if_true, add_assoc]
      · simp only [h, if_false, zero_add]

/-- One mixer step leaves a voice that does not depend on the output buffers, and
adds to each output position an amount that does not depend on them either. -/
theorem mixVoice_delta (sqrt : K → K) (samples : List (SampleSlot K)) (B : Nat) (v : Voice K) :
    ∃ dl dr : Nat → K, ∀ o : List K × List K,
      (mixVoice sqrt samples B v o).1 = (mixVoice sqrt samples B v ([], [])).1
      ∧ ∀ q, (mixVoice sqrt samples B v o).2.1[q]? = o.1[q]?.map (fun y => y + dl q)
        ∧ (mixVoice sqrt samples B v o).2.2[q]? = o.2[q]?.map (fun y => y + dr q) := by
  have hzero : ∀ (l : List K) (q : Nat), l[q]? = l[q]?.map (fun y => y + (0 : K)) := by
    intro l q
    simp only [add_zero]
    cases l[q]? <;> rfl
  by_cases hp : v.playSample = false
  · refine ⟨fun _ => 0, fun _ => 0, fun o => ?_⟩
    simp only [mixVoice, hp, if_true]
    exact ⟨trivial, fun q => ⟨hzero _ q, hzero _ q⟩⟩
  · have hp' : v.playSample = true := by simpa using hp
    by_cases hv : (liveInfo samples v.padIdx).valid = false
    · refine ⟨fun _ => 0, fun _ => 0, fun o => ?_⟩
      simp only [mixVoice, hp', hv, if_true, Bool.true_eq_false, if_false]
      exact ⟨trivial, fun q => ⟨hzero _ q, hzero _ q⟩⟩
    · have hv' : (liveInfo samples v.padIdx).valid = true := by simpa using hv
      by_cases hs : 1 < (liveInfo samples v.padIdx).numChans
      · obtain ⟨dl, hdl⟩ := addLoop_delta (fun i => uadd v.startIdx i)
          (fun i => frame (liveBuffer samples v.padIdx) 0 (uadd v.bufferIdx i)
            * stereoGain sqrt v.gainL) (List.range (mixLen B v))
        obtain ⟨dr, hdr⟩ := addLoop_delta (fun i => uadd v.startIdx i)
          (fun i => frame (liveBuffer samples v.padIdx) 1 (uadd v.bufferIdx i)
            * stereoGain sqrt v.gainR) (List.range (mixLen B v))
        refine ⟨dl, dr, fun o => ?_⟩
        simp only [mixVoice, hp', hv', hs, if_true, Bool.true_eq_false, if_false, mixStereo_eq]
        exact ⟨trivial, fun q => ⟨hdl _ q, hdr _ q⟩⟩
      · obtain ⟨dl, hdl⟩ := addLoop_delta (fun i => uadd v.startIdx i)
          (fun i => frame (liveBuffer samples v.padIdx) 0 (uadd v.bufferIdx i) * v.gainL)
          (List.range (mixLen B v))
        obtain ⟨dr, hdr⟩ := addLoop_delta (fun i => uadd v.startIdx i)
          (fun i => frame (liveBuffer samples v.padIdx) 0 (uadd v.bufferIdx i) * v.gainR)
          (List.range (mixLen B v))
        refine ⟨dl, dr, fun o => ?_⟩
        simp only [mixVoice, hp', hv', hs, if_true, Bool.true_eq_false, if_false, mixMono_eq]
        exact ⟨trivial, fun q => ⟨hdl _ q, hdr _ q⟩⟩

theorem mixVoices_delta (sqrt : K → K) (samples : List (SampleSlot K)) (B : Nat) :
    ∀ vs : List (Voice K), ∃ dl dr : Nat → K, ∀ o : List K × List K,
      (mixVoices sqrt samples B vs o).1 = (mixVoices sqrt samples B vs ([], [])).1
      ∧ ∀ q, (mixVoices sqrt samples B vs o).2.1[q]? = o.1[q]?.map (fun y => y + dl q)
        ∧ (mixVoices sqrt samples B vs o).2.2[q]? = o.2[q]?.map (fun y => y + dr q) := by
  intro vs
  induction vs with
  | nil =>
    refine ⟨fun _ => 0, fun _ => 0, fun o => ⟨rfl, fun q => ?_⟩⟩
    simp only [mixVoices, add_zero]
    constructor
    · cases o.1[q]? <;> rfl
    · cases o.2[q]? <;> rfl
  | cons v vs ih =>
    obtain ⟨dl, dr, h⟩ := ih
    obtain ⟨el, er, g⟩ := mixVoice_delta sqrt samples B v
    refine ⟨fun q => el q + dl q, fun q => er q + dr q, fun o => ?_⟩
    simp only [mixVoices]
    refine ⟨?_, fun q => ?_⟩
    · rw [(g o).1, (h (mixVoice sqrt samples B v o).2).1,
        ← (h (mixVoice sqrt samples B v ([], [])).2).1]
    · obtain ⟨a1, a2⟩ := (h (mixVoice sqrt samples B v o).2).2 q
      obtain ⟨b1, b2⟩ := (g o).2 q
      rw [a1, a2, b1, b2]
      constructor
      · cases o.1[q]? with
        | none => rfl
        | some y => simp only [Option.map_some', add_assoc]
      · cases o.2[q]? with
        | none => rfl
        | some y => simp only [Option.map_some', add_assoc]

theorem mixVoices_append (sqrt : K → K) (samples : List (SampleSlot K)) (B : Nat) :
    ∀ (vs ws : List (Voice K)) (o : List K × List K),
      mixVoices sqrt samples B (vs ++ ws) o
        = ((mixVoices sqrt samples B vs o).1
            ++ (mixVoices sqrt samples B ws (mixVoices sqrt samples B vs o).2).1,
           (mixVoices sqrt samples B ws (mixVoices sqrt samples B vs o).2).2) := by
  intro vs
  induction vs with
  | nil => intro ws o; rfl
  | cons v vs ih =>
    intro ws o
    show mixVoices sqrt samples B (v :: (vs ++ ws)) o = _
    simp only [mixVoices]
    rw [ih]
    rfl

theorem mixVoices_length (sqrt : K → K) (samples : List (SampleSlot K)) (B : Nat) :
    ∀ (vs : List (Voice K)) (o : List K × List K),
      (mixVoices sqrt samples B vs o).1.length = vs.length := by
  intro vs
  induction vs with
  | nil => intro o; rfl
  | cons v vs ih => intro o; simp only [mixVoices, List.length_cons, ih]

theorem mixVoices_mid (sqrt : K → K) (samples : List (SampleSlot K)) (B : Nat)
    (pre post : List (Voice K)) (v : Voice K) (o : List K × List K) :
    (mixVoices sqrt samples B (pre ++ v :: post) o).1[pre.length]?
      = some (mixVoice sqrt samples B v ([], [])).1
    ∧ ∀ q : Nat,
      (mixVoices sqrt samples B (pre ++ v :: post) o).2.1[q]?
        = (mixVoice sqrt samples B v
            (mixVoices sqrt samples B (pre ++ Voice.blank :: post) o).2).2.1[q]?
      ∧ (mixVoices sqrt samples B (pre ++ v :: post) o).2.2[q]?
        = (mixVoice sqrt samples B v
            (mixVoices sqrt samples B (pre ++ Voice.blank :: post) o).2).2.2[q]? := by
  obtain ⟨dl, dr, hpost⟩ := mixVoices_delta sqrt samples B post
  obtain ⟨el, er, hv⟩ := mixVoice_delta sqrt samples B v
  have hblank : ∀ o', mixVoice sqrt samples B (Voice.blank : Voice K) o' = (Voice.blank, o') := by
    intro o'
    simp [mixVoice, Voice.blank]
  rw [mixVoices_append, mixVoices_append]
  simp only [mixVoices, hblank]
  constructor
  · rw [List.getElem?_append_right (by rw [mixVoices_length]),
      mixVoices_length, Nat.sub_self, List.getElem?_cons_zero, (hv _).1]
  · intro q
    obtain ⟨a1, a2⟩ := (hpost (mixVoice sqrt samples B v (mixVoices sqrt samples B pre o).2).2).2 q
    obtain ⟨b1, b2⟩ := (hv (mixVoices sqrt samples B pre o).2).2 q
    obtain ⟨c1, c2⟩ := (hpost (mixVoices sqrt samples B pre o).2).2 q
    obtain ⟨d1, d2⟩ := (hv (mixVoices sqrt samples B post (mixVoices sqrt samples B pre o).2).2).2 q
    rw [a1, a2, b1, b2, d1, d2, c1, c2]
    constructor
    · cases (mixVoices sqrt samples B pre o).2.1[q]? with
      | none => rfl
      | some y => simp only [Option.map_some', add_right_comm]
    · cases (mixVoices sqrt samples B pre o).2.2[q]? with
      | none => rfl
      | some y => simp only [Option.map_some', add_right_comm]

/-- The output of the loop over the voices is what one mixer step of the voice in
slot `k` adds to the output of the loop with that slot idle; the voice the loop
leaves in slot `k` is the one that step leaves. -/
theorem mixVoices_reorder (sqrt : K → K) (samples : List (SampleSlot K)) (B : Nat)
    (vs : List (Voice K)) (k : Nat) (v : Voice K) (hk : vs[k]? = some v)
    (o : List K × List K) :
    (mixVoices sqrt samples B vs o).1[k]? = some (mixVoice sqrt samples B v ([], [])).1
    ∧ ∀ q : Nat,
      (mixVoices sqrt samples B vs o).2.1[q]?
        = (mixVoice sqrt samples B v
            (mixVoices sqrt samples B (vs.set k Voice.blank) o).2).2.1[q]?
      ∧ (mixVoices sqrt samples B vs o).2.2[q]?
        = (mixVoice sqrt samples B v
            (mixVoices sqrt samples B (vs.set k Voice.blank) o).2).2.2[q]? := by
  obtain ⟨hlt, hget⟩ := List.getElem?_eq_some_iff.1 hk
  have hsplit : vs = vs.take k ++ v :: vs.drop (k + 1) := by
    rw [← hget, List.getElem_cons_drop vs k hlt, List.take_append_drop]
  have hset : vs.set k Voice.blank = vs.take k ++ Voice.blank :: vs.drop (k + 1) := by
    rw [List.set_eq_take_append_cons_drop, if_pos hlt]
  have hlen : (vs.take k).length = k := by
    rw [List.length_take]; omega
  have key := mixVoices_mid sqrt samples B (vs.take k) (vs.drop (k + 1)) v o
  rw [← hsplit, ← hset, hlen] at key
  exact key

end MixAdditive

section RunLemmas
variable {K : Type} [LinearOrderedField K]

/-- The collecting part of a period changes neither the initialisation flag nor
the buffer size. -/
theorem collectPhase_static (s : Engine K) (inp : PeriodInput K) :
    (collectPhase s inp).isInitialized = s.isInitialized
    ∧ (collectPhase s inp).bufferSize = s.bufferSize := by
  have key : (fun e : Engine K => (e.isInitialized, e.bufferSize)) (collectPhase s inp)
      = (fun e : Engine K => (e.isInitialized, e.bufferSize)) s := by
    have hn : ∀ ev (st : Engine K) (j : Nat),
        (fun e : Engine K => (e.isInitialized, e.bufferSize)) (noteOnStep ev st j)
          = (fun e : Engine K => (e.isInitialized, e.bufferSize)) st := by
      intro ev st j; unfold noteOnStep; split <;> rfl
    have hc : ∀ ev (st : Engine K) (j : Nat),
        (fun e : Engine K => (e.isInitialized, e.bufferSize)) (controlChangeStep ev st j)
          = (fun e : Engine K => (e.isInitialized, e.bufferSize)) st := by
      intro ev st j; unfold controlChangeStep; split <;> rfl
    have hm : ∀ (st : Engine K) ev,
        (fun e : Engine K => (e.isInitialized, e.bufferSize)) (midiStep st ev)
          = (fun e : Engine K => (e.isInitialized, e.bufferSize)) st := by
      intro st ev
      unfold midiStep
      simp only
      split
      · split
        · exact foldl_proj (fun e : Engine K => (e.isInitialized, e.bufferSize)) _ _
            (fun b a _ => hn ev b a) st
        · split
          · exact foldl_proj (fun e : Engine K => (e.isInitialized, e.bufferSize)) _ _
              (fun b a _ => hc ev b a) st
          · rfl
      · rfl
    have ht : ∀ (st : Engine K) t,
        (fun e : Engine K => (e.isInitialized, e.bufferSize)) (triggerStep st t)
          = (fun e : Engine K => (e.isInitialized, e.bufferSize)) st := by
      intro st t
      unfold triggerStep
      split
      · split <;> rfl
      · rfl
    have hp : ∀ ts stepIdx (st : Engine K) p,
        (fun e : Engine K => (e.isInitialized, e.bufferSize)) (transportStepPad ts stepIdx st p)
          = (fun e : Engine K => (e.isInitialized, e.bufferSize)) st := by
      intro ts stepIdx st p
      rw [transportStepPad_record]
      cases stepRecord ts stepIdx st.bufferSize p <;> rfl
    have hs : ∀ (st : Engine K) ts,
        (fun e : Engine K => (e.isInitialized, e.bufferSize)) (transportPhase st ts)
          = (fun e : Engine K => (e.isInitialized, e.bufferSize)) st := by
      intro st ts
      unfold transportPhase
      simp only
      split
      · exact foldl_proj (fun e : Engine K => (e.isInitialized, e.bufferSize)) _ _
          (fun b a _ => hp ts (stepIndex ts) b a) st
      · split <;> rfl
    have h0 : (fun e : Engine K => (e.isInitialized, e.bufferSize)) (swapConfig s)
        = (fun e : Engine K => (e.isInitialized, e.bufferSize)) s := by
      unfold swapConfig; split <;> rfl
    exact (hs _ inp.ts).trans
      ((foldl_proj (fun e : Engine K => (e.isInitialized, e.bufferSize)) triggerStep
          inp.triggers (fun b a _ => ht b a) _).trans
        ((foldl_proj (fun e : Engine K => (e.isInitialized, e.bufferSize)) midiStep
          inp.midi (fun b a _ => hm b a) _).trans h0))
  simp only [Prod.mk.injEq] at key
  exact key

/-- A period without MIDI event and UI trigger, the transport not running, stores
no voice. -/
theorem collectPhase_quiet (s : Engine K) (inp : PeriodInput K) (hm : inp.midi = [])
    (ht : inp.triggers = []) (hts : inp.ts.state ≠ TState.TS_RUNNING) :
    (collectPhase s inp).voices = s.voices := by
  unfold collectPhase
  rw [hm, ht, (transportPhase_idle _ inp.ts hts).1]
  unfold swapConfig
  split <;> rfl

theorem commitSamples_idem {F : Type} (l : List (SampleSlot F)) :
    commitSamples (commitSamples l) = commitSamples l := by
  unfold commitSamples
  rw [List.map_map]
  apply List.map_congr_left
  intro smp _
  simp only [Function.comp]
  by_cases h : smp.update = true
  · simp [h]
  · simp [h]

/-- What one period of an initialised engine returns. -/
theorem processAudioMidi_eq (sqrt : K → K) (s : Engine K) (inp : PeriodInput K)
    (hinit : s.isInitialized = true) :
    (ProcessAudioMidi sqrt s inp).1.isInitialized = true
    ∧ (ProcessAudioMidi sqrt s inp).1.bufferSize = s.bufferSize
    ∧ (ProcessAudioMidi sqrt s inp).1.samples = commitSamples s.samples
    ∧ (ProcessAudioMidi sqrt s inp).1.voices
        = (mixVoices sqrt (commitSamples s.samples) s.bufferSize (collectPhase s inp).voices
            (zeroFrames inp.nframes inp.out_l, zeroFrames inp.nframes inp.out_r)).1
    ∧ (ProcessAudioMidi sqrt s inp).2
        = (mixVoices sqrt (commitSamples s.samples) s.bufferSize (collectPhase s inp).voices
            (zeroFrames inp.nframes inp.out_l, zeroFrames inp.nframes inp.out_r)).2 := by
  obtain ⟨h1, h2⟩ := collectPhase_static s inp
  have hs := collectPhase_samples s inp
  unfold ProcessAudioMidi
  rw [if_neg (by rw [hinit]; decide)]
  simp only [hs, h2]
  exact ⟨by rw [h1, hinit], trivial, trivial, trivial, trivial⟩

/-- Along a run of periods the engine stays initialised, keeps its buffer size,
and every period mixes on the sample store the first period committed. -/
theorem runPeriods_static (sqrt : K → K) (inps : Nat → PeriodInput K) (s : Engine K)
    (hinit : s.isInitialized = true) :
    ∀ p, (runPeriods sqrt inps s p).isInitialized = true
      ∧ (runPeriods sqrt inps s p).bufferSize = s.bufferSize
      ∧ commitSamples (runPeriods sqrt inps s p).samples = commitSamples s.samples := by
  intro p
  induction p with
  | zero => exact ⟨hinit, rfl, rfl⟩
  | succ p ih =>
    obtain ⟨i1, i2, i3⟩ := ih
    obtain ⟨a1, a2, a3, -, -⟩ := processAudioMidi_eq sqrt (runPeriods sqrt inps s p) (inps p) i1
    refine ⟨a1, by rw [← i2]; exact a2, ?_⟩
    show commitSamples (ProcessAudioMidi sqrt (runPeriods sqrt inps s p) (inps p)).1.samples = _
    rw [a3, commitSamples_idem, i3]

end RunLemmas

section MonoPlayback
variable {K : Type} [LinearOrderedField K]

theorem ceil_lt_iff (p L B : Nat) (hB : 0 < B) : p < (L + B - 1) / B ↔ p * B < L := by
  rw [Nat.lt_iff_add_one_le, Nat.le_div_iff_mul_le hB, Nat.add_mul]
  omega

/-- One period of a run in which slot `k` holds, when the mixer starts, a playing
voice of a valid mono sample at source offset `p * B`. -/
theorem run_period_mono (sqrt : K → K) (s : Engine K) (inps : Nat → PeriodInput K)
    (k B L p : Nat) (v : Voice K)
    (hinit : s.isInitialized = true) (hbs : s.bufferSize = B) (hB32 : B < U32)
    (hplay : v.playSample = true) (hstart : v.startIdx = 0)
    (hlen : v.bufferLen = L) (hL : L < U32)
    (hvalid : (liveInfo (commitSamples s.samples) v.padIdx).valid = true)
    (hmono : (liveInfo (commitSamples s.samples) v.padIdx).numChans = 1)
    (hp : p * B < L)
    (hcur : (collectPhase (runPeriods sqrt inps s p) (inps p)).voices[k]?
      = some { v with bufferIdx := p * B }) :
    (∀ q : Nat,
      (ProcessAudioMidi sqrt (runPeriods sqrt inps s p) (inps p)).2.1[q]?
        = (mixWithout sqrt inps s k p).1[q]?.map (fun y =>
            if q < B ∧ p * B + q < L then
              y + frame (liveBuffer (commitSamples s.samples) v.padIdx) 0 (p * B + q) * v.gainL
            else y)
      ∧ (ProcessAudioMidi sqrt (runPeriods sqrt inps s p) (inps p)).2.2[q]?
        = (mixWithout sqrt inps s k p).2[q]?.map (fun y =>
            if q < B ∧ p * B + q < L then
              y + frame (liveBuffer (commitSamples s.samples) v.padIdx) 0 (p * B + q) * v.gainR
            else y))
    ∧ (runPeriods sqrt inps s (p + 1)).voices[k]?
        = some { v with
            bufferIdx := p * B + min B (L - p * B)
            startIdx := 0
            playSample := decide (p * B + min B (L - p * B) < L) } := by
  obtain ⟨r1, r2, r3⟩ := runPeriods_static sqrt inps s hinit p
  obtain ⟨-, -, -, a4, a5⟩ := processAudioMidi_eq sqrt (runPeriods sqrt inps s p) (inps p) r1
  rw [r3, r2, hbs] at a4 a5
  have hmono' : ¬ 1 < (liveInfo (commitSamples s.samples) v.padIdx).numChans := by omega
  obtain ⟨m1, m2, m3⟩ := mixVoice_mono sqrt (commitSamples s.samples) B
    { v with bufferIdx := p * B }
    (mixWithout sqrt inps s k p) hplay hstart (by show p * B < v.bufferLen; omega)
    (by show v.bufferLen < U32; omega) hB32 hvalid hmono'
  obtain ⟨m1', -, -⟩ := mixVoice_mono sqrt (commitSamples s.samples) B
    { v with bufferIdx := p * B }
    ([], []) hplay hstart (by show p * B < v.bufferLen; omega)
    (by show v.bufferLen < U32; omega) hB32 hvalid hmono'
  obtain ⟨g1, g2⟩ := mixVoices_reorder sqrt (commitSamples s.samples) B _ k _ hcur
    (zeroFrames (inps p).nframes (inps p).out_l, zeroFrames (inps p).nframes (inps p).out_r)
  have hwo : mixWithout sqrt inps s k p
      = (mixVoices sqrt (commitSamples s.samples) B
          ((collectPhase (runPeriods sqrt inps s p) (inps p)).voices.set k Voice.blank)
          (zeroFrames (inps p).nframes (inps p).out_l,
            zeroFrames (inps p).nframes (inps p).out_r)).2 := by
    unfold mixWithout
    simp only [collectPhase_samples, (collectPhase_static _ _).2, r2, r3, hbs]
  have hcond : ∀ q, (q < min B (v.bufferLen - p * B)) ↔ (q < B ∧ p * B + q < L) := by
    intro q
    rw [Nat.lt_min, hlen]
    constructor <;> rintro ⟨a, b⟩ <;> exact ⟨a, by omega⟩
  constructor
  · intro q
    rw [a5, (g2 q).1, (g2 q).2, ← hwo, m2 q, m3 q]
    simp only [hcond]
    exact ⟨trivial, trivial⟩
  · show (ProcessAudioMidi sqrt (runPeriods sqrt inps s p) (inps p)).1.voices[k]? = _
    rw [a4, g1, m1']
    simp only [hlen]

/-- C4: in a run of consecutive periods of an initialised engine, let slot `k`
hold, when the mixer starts in the first period, a voice allocated with
`startIdx = 0`, `bufferIdx = 0` and `bufferLen = L` (not more than the frames of
the live PCM) for a pad whose live sample is valid and mono, and let
no later period of the `N = ⌈L / B⌉` store into this slot. Then in period
`p < N` the voice is still playing at source offset `p * B`, and the output of
`ProcessAudioMidi` is the output the period would have with slot `k` idle plus
frame `p * B + q` times `gainL` (`gainR` on the right) at position `q`, exactly
for `q < B` with `p * B + q < L`: every frame `i < L` is added once, at position
`i mod B` of period `i / B`. After `p + 1` periods the voice plays if and only
if `p + 1 < N`. Each frame read is an element of the PCM. With gain 0 dB, pan 0
and UI strength 1 both gains are `1 / √2`. -/
theorem mono_voice_playback (sqrt : K → K) (s : Engine K) (inps : Nat → PeriodInput K)
    (k B L : Nat) (v : Voice K)
    (hinit : s.isInitialized = true) (hbs : s.bufferSize = B) (hB : 0 < B) (hB32 : B < U32)
    (hslot : (collectPhase s (inps 0)).voices[k]? = some v)
    (hplay : v.playSample = true) (hstart : v.startIdx = 0) (hidx : v.bufferIdx = 0)
    (hlen : v.bufferLen = L) (hL : L < U32)
    (hvalid : (liveInfo (commitSamples s.samples) v.padIdx).valid = true)
    (hmono : (liveInfo (commitSamples s.samples) v.padIdx).numChans = 1)
    (hframes : L ≤ ((liveBuffer (commitSamples s.samples) v.padIdx).getD 0 []).length)
    (hkeep : ∀ p, 0 < p → p < (L + B - 1) / B →
      (collectPhase (runPeriods sqrt inps s p) (inps p)).voices[k]?
        = (runPeriods sqrt inps s p).voices[k]?) :
    (∀ p, p < (L + B - 1) / B →
        (collectPhase (runPeriods sqrt inps s p) (inps p)).voices[k]?
          = some { v with bufferIdx := p * B }
        ∧ (∀ q : Nat,
            (ProcessAudioMidi sqrt (runPeriods sqrt inps s p) (inps p)).2.1[q]?
              = (mixWithout sqrt inps s k p).1[q]?.map (fun y =>
                  if q < B ∧ p * B + q < L then
                    y + frame (liveBuffer (commitSamples s.samples) v.padIdx) 0 (p * B + q)
                      * v.gainL
                  else y)
            ∧ (ProcessAudioMidi sqrt (runPeriods sqrt inps s p) (inps p)).2.2[q]?
              = (mixWithout sqrt inps s k p).2[q]?.map (fun y =>
                  if q < B ∧ p * B + q < L then
                    y + frame (liveBuffer (commitSamples s.samples) v.padIdx) 0 (p * B + q)
                      * v.gainR
                  else y))
        ∧ ((runPeriods sqrt inps s (p + 1)).voices[k]?).map (fun w => w.playSample)
            = some (decide (p + 1 < (L + B - 1) / B)))
    ∧ (∀ i, i < L →
        ((liveBuffer (commitSamples s.samples) v.padIdx).getD 0 [])[i]?
          = some (frame (liveBuffer (commitSamples s.samples) v.padIdx) 0 i))
    ∧ (∀ (x : Ext ℝ) (sampleRate idx : Nat) (pad : Pad ℝ),
        x.sqrt = Real.sqrt → x.DbToLin = (fun d => (10 : ℝ) ^ (d / 20)) →
        pad.gain = 0 → pad.pan = 0 →
        (triggerVoice idx 1 (derivePad x sampleRate pad)).gainL = 1 / Real.sqrt 2
        ∧ (triggerVoice idx 1 (derivePad x sampleRate pad)).gainR = 1 / Real.sqrt 2) := by
  have hstep := fun p hp hcur => run_period_mono sqrt s inps k B L p v hinit hbs hB32 hplay
    hstart hlen hL hvalid hmono hp hcur
  have hvoice : ∀ p, p < (L + B - 1) / B →
      (collectPhase (runPeriods sqrt inps s p) (inps p)).voices[k]?
        = some { v with bufferIdx := p * B } := by
    intro p
    induction p with
    | zero =>
      intro _
      show (collectPhase s (inps 0)).voices[k]? = _
      rw [hslot]
      cases v
      simp only at hidx
      simp [hidx]
    | succ p ih =>
      intro hp
      have hp' : p < (L + B - 1) / B := by omega
      have hpL : (p + 1) * B < L := (ceil_lt_iff _ L B hB).1 hp
      have hsucc : (p + 1) * B = p * B + B := Nat.succ_mul p B
      obtain ⟨-, h2⟩ := hstep p ((ceil_lt_iff _ L B hB).1 hp') (ih hp')
      rw [hkeep (p + 1) (by omega) hp, h2]
      have hmin : min B (L - p * B) = B := Nat.min_eq_left (by omega)
      have hd : decide (p * B + B < L) = true := by
        rw [decide_eq_true_eq]; omega
      cases v
      simp only at hstart hplay
      simp only [hmin, hsucc, hstart, hplay, hd]
  refine ⟨?_, ?_, ?_⟩
  · intro p hp
    have hpL : p * B < L := (ceil_lt_iff _ L B hB).1 hp
    obtain ⟨h1, h2⟩ := hstep p hpL (hvoice p hp)
    refine ⟨hvoice p hp, h1, ?_⟩
    rw [h2]
    simp only [Option.map_some']
    congr 1
    rw [decide_eq_decide, ceil_lt_iff _ L B hB, Nat.succ_mul]
    by_cases hc : B ≤ L - p * B
    · rw [Nat.min_eq_left hc]
    · rw [Nat.min_eq_right (by omega)]
      omega
  · intro i hi
    have hi' : i < ((liveBuffer (commitSamples s.samples) v.padIdx).getD 0 []).length := by omega
    rw [frame, List.getD_eq_getElem _ _ hi', List.getElem?_eq_getElem hi']
  · intro x sampleRate idx pad hs hd hg hp
    have h2 : Real.sqrt ((100 - 0) / 200) = 1 / Real.sqrt 2 := by
      rw [show ((100 : ℝ) - 0) / 200 = 2⁻¹ by norm_num, Real.sqrt_inv, one_div]
    have h3 : Real.sqrt ((100 + 0) / 200) = 1 / Real.sqrt 2 := by
      rw [show ((100 : ℝ) + 0) / 200 = 2⁻¹ by norm_num, Real.sqrt_inv, one_div]
    have hgain : min (6 : ℝ) (max (-200) 0) = 0 := by norm_num
    have hpan : min (100 : ℝ) (max (-100) 0) = 0 := by norm_num
    simp only [triggerVoice, derivePad, hs, hd, hg, hp, hgain, hpan, h2, h3]
    norm_num

end MonoPlayback

/-! ## Evaluations on the concrete engine -/

section Evaluation

theorem ring_index_advance_witness :
    (exEngine ℚ).isInitialized = true ∧ 0 < (exEngine ℚ).numVoices
    ∧ (exEngine ℚ).voiceIdx < (exEngine ℚ).numVoices
    ∧ ∃ new : List (Nat × Voice ℚ),
        (ProcessAudioMidi (fun y => y) (exEngine ℚ) (exInput ℚ [] [(0, 1)])).1.allocLog
          = (exEngine ℚ).allocLog ++ new ∧
        (ProcessAudioMidi (fun y => y) (exEngine ℚ) (exInput ℚ [] [(0, 1)])).1.voiceIdx
          = ((exEngine ℚ).voiceIdx + new.length) % (exEngine ℚ).numVoices ∧
        (∀ j (h : j < new.length),
          (new.get ⟨j, h⟩).1 = ((exEngine ℚ).voiceIdx + j) % (exEngine ℚ).numVoices) ∧
        (collectPhase (exEngine ℚ) (exInput ℚ [] [(0, 1)])).voices
          = new.foldl (fun vs e => vs.set e.1 e.2) (exEngine ℚ).voices ∧
        (ProcessAudioMidi (fun y => y) (exEngine ℚ) (exInput ℚ [] [(0, 1)])).1.voiceIdx
          < (exEngine ℚ).numVoices ∧
        (ProcessAudioMidi (fun y => y) (exEngine ℚ) (exInput ℚ [] [(0, 1)])).1.numVoices
          = (exEngine ℚ).numVoices :=
  ⟨rfl, by decide, by decide,
    ring_index_advance (fun y => y) (exEngine ℚ) (exInput ℚ [] [(0, 1)]) rfl (by decide)
      (by decide)⟩

theorem note_on_allocations_witness :
    (0x93 &&& 0xf0 = 0x90) ∧ (0x93 &&& 0x0f = (exEngine ℚ).cur.midiChan)
    ∧ (exEngine ℚ).voiceIdx < (exEngine ℚ).numVoices
    ∧ (midiStep (exEngine ℚ) ⟨5, 0x93, 60, 127⟩).voiceIdx = 1
    ∧ (midiStep (exEngine ℚ) ⟨5, 0x93, 60, 127⟩).voices[0]?
        = some (noteOnVoice ⟨5, 0x93, 60, 127⟩ 0 (exPad ℚ))
    ∧ (midiStep (exEngine ℚ) ⟨5, 0x93, 60, 127⟩).voices.map
          (fun v => (v.playSample, v.padIdx, v.startIdx, v.bufferLen))
        = (true, 0, 5, 100) :: List.replicate 7 (false, 0, 0, 0) := by
  obtain ⟨recs, hrecs, -, hidx, -, hget⟩ :=
    note_on_allocations (exEngine ℚ) ⟨5, 0x93, 60, 127⟩ (by decide) (by decide) (by decide)
  have hr : recs = [noteOnVoice ⟨5, 0x93, 60, 127⟩ 0 (exPad ℚ)] := by
    rw [hrecs]
    rfl
  subst hr
  exact ⟨by decide, by decide, by decide, hidx, hget rfl (by decide) 0 (by decide), by decide⟩

theorem rejected_event_frame_witness :
    ((0x94 &&& 0xf0 = 0xf0) ∨ (0x94 &&& 0x0f ≠ (exEngine ℚ).cur.midiChan))
    ∧ (midiStep (exEngine ℚ) ⟨0, 0x94, 60, 127⟩).allocLog = []
    ∧ (midiStep (exEngine ℚ) ⟨0, 0x94, 60, 127⟩).voices = (exEngine ℚ).voices
    ∧ (midiStep (exEngine ℚ) ⟨0, 0x93, 60, 127⟩).allocLog.map (fun e => e.2.padIdx) = [0] := by
  have h := (rejected_event_frame (exEngine ℚ) ⟨0, 0x94, 60, 127⟩ (Or.inr (by decide))).1
  refine ⟨Or.inr (by decide), ?_, ?_, by decide⟩
  · rw [h]; rfl
  · rw [h]

theorem mono_voice_playback_witness :
    (exEngine ℚ).isInitialized = true ∧ (exEngine ℚ).bufferSize = 16
    ∧ (collectPhase (exEngine ℚ) (exRun 0)).voices[0]? = some (triggerVoice 0 1 (exPad ℚ))
    ∧ (liveInfo (commitSamples (exEngine ℚ).samples) (triggerVoice 0 1 (exPad ℚ)).padIdx).valid
        = true
    ∧ (liveInfo (commitSamples (exEngine ℚ).samples) (triggerVoice 0 1 (exPad ℚ)).padIdx).numChans
        = 1
    ∧ ((runPeriods (fun y => y) exRun (exEngine ℚ) 3).voices[0]?).map (fun w => w.playSample)
        = some true
    ∧ ((runPeriods (fun y => y) exRun (exEngine ℚ) 7).voices[0]?).map (fun w => w.playSample)
        = some false
    ∧ (ProcessAudioMidi (fun y => y) (exEngine ℚ) (exRun 0)).2.1[3]? = some 1
    ∧ (runPeriods (fun y => y) exRun (exEngine ℚ) 1).voices.map
          (fun v => (v.playSample, v.bufferIdx))
        = (true, 16) :: List.replicate 7 (false, 0)
    ∧ (runPeriods (fun y => y) exRun (exEngine ℚ) 7).voices.map
          (fun v => (v.playSample, v.bufferIdx))
        = (false, 100) :: List.replicate 7 (false, 0)
    ∧ (ProcessAudioMidi (fun y => y) (exEngine ℚ) (exRun 0)).2.2[3]? = some (0 + 1 * (1 * 1)) := by
  have hkeep : ∀ p, 0 < p → p < (100 + 16 - 1) / 16 →
      (collectPhase (runPeriods (fun y => y) exRun (exEngine ℚ) p) (exRun p)).voices[0]?
        = (runPeriods (fun y => y) exRun (exEngine ℚ) p).voices[0]? := by
    intro p hp _
    have hrun : exRun p = exInput ℚ [] [] := by
      unfold exRun
      rw [if_neg (by omega)]
    rw [hrun, collectPhase_quiet _ _ rfl rfl (by decide)]
  have h := mono_voice_playback (fun y => y) (exEngine ℚ) exRun 0 16 100
    (triggerVoice 0 1 (exPad ℚ)) rfl rfl (by decide) (by decide) rfl rfl rfl rfl rfl (by decide)
    (by decide) (by decide) (by decide) hkeep
  have hout := ((h.1 0 (by decide)).2.1 3).1
  have hw : (mixWithout (fun y => y) exRun (exEngine ℚ) 0 0).1[3]? = some 0 := rfl
  have hf : frame (liveBuffer (commitSamples (exEngine ℚ).samples)
      (triggerVoice 0 1 (exPad ℚ)).padIdx) 0 (0 * 16 + 3) = 1 := rfl
  have hg : (triggerVoice 0 1 (exPad ℚ)).gainL = 1 * 1 := rfl
  rw [hw, hf, hg] at hout
  refine ⟨rfl, rfl, rfl, by decide, by decide, (h.1 2 (by decide)).2.2,
    (h.1 6 (by decide)).2.2, ?_, by decide, by decide, rfl⟩
  rw [show (ProcessAudioMidi (fun y => y) (exEngine ℚ) (exRun 0)).2.1[3]?
      = (ProcessAudioMidi (fun y => y) (runPeriods (fun y => y) exRun (exEngine ℚ) 0)
          (exRun 0)).2.1[3]? from rfl, hout]
  norm_num

theorem sequencer_allocations_witness :
    (exTransport 0 0).state = TState.TS_RUNNING ∧ 0 ≤ (exTransport 0 0).beat
    ∧ 0 ≤ (exTransport 0 0).pulse ∧ 0 < (exTransport 0 0).nPulses
    ∧ 4 * (exTransport 0 0).beat
        + ⌊(4 * (exTransport 0 0).pulse : ℚ) / ((exTransport 0 0).nPulses : ℚ)⌋ < 2 ^ 31
    ∧ (exEngine ℚ).voiceIdx < (exEngine ℚ).numVoices ∧ 0 < (exEngine ℚ).bufferSize
    ∧ (∀ p ∈ (exEngine ℚ).cur.pads, p.available = true →
        p.nPatterns ≠ 0 → (curStep (stepIndex (exTransport 0 0)) p).isSome = true)
    ∧ (transportPhase (exEngine ℚ) (exTransport 0 0)).voiceIdx = 1
    ∧ (transportPhase (exEngine ℚ) (exTransport 0 0)).voices[0]?
        = some (stepVoice 0 0 (exPad ℚ) { active := true, velocity := 127 })
    ∧ (transportPhase (exEngine ℚ) (exTransport 0 0)).transportStep
        = stepIndex (exTransport 0 0)
    ∧ (transportPhase (transportPhase (exEngine ℚ) (exTransport 0 0)) (exTransport 0 5)).voices
        = (transportPhase (exEngine ℚ) (exTransport 0 0)).voices
    ∧ (transportPhase (exEngine ℚ) (exTransport 0 0)).voices.map
          (fun v => (v.playSample, v.padIdx, v.startIdx, v.bufferLen))
        = (true, 0, 0, 100) :: List.replicate 7 (false, 0, 0, 0) := by
  have hfit : 4 * (exTransport 0 0).beat
      + ⌊(4 * (exTransport 0 0).pulse : ℚ) / ((exTransport 0 0).nPulses : ℚ)⌋ < 2 ^ 31 := by
    have hfl : ⌊(4 * (exTransport 0 0).pulse : ℚ) / ((exTransport 0 0).nPulses : ℚ)⌋ = 0 := by
      simp [exTransport]
    rw [hfl]
    decide
  have hdef : ∀ p ∈ (exEngine ℚ).cur.pads,
      p.available = true → p.nPatterns ≠ 0 →
      (curStep (stepIndex (exTransport 0 0)) p).isSome = true := by
    intro p hp _ _
    have hp' : p = exPad ℚ ∨ p = exPad2 ℚ := by
      simpa [exEngine, Engine.cur, Slot2.get, exConfig] using hp
    rcases hp' with h | h <;> subst h <;> decide
  obtain ⟨-, -, recs, hrecs, -, hidx, -, hget, -, hstep, hsame, -⟩ :=
    sequencer_allocations (exEngine ℚ) (exTransport 0 0) rfl (by decide) (by decide) (by decide)
      hfit (by decide) (by decide) hdef
  have hr : recs = [stepVoice 0 0 (exPad ℚ) { active := true, velocity := 127 }] := by
    rw [hrecs]
    rfl
  subst hr
  exact ⟨rfl, by decide, by decide, by decide, hfit, by decide, by decide, hdef, hidx,
    hget rfl (by decide) 0 (by decide), hstep, (hsame (exTransport 0 5) (by decide)).1,
    by decide⟩

/-- C9, the claim as stated fails: at beat `2 ^ 29 + 1` the transport is running
and the step index the source computes, -12, differs from the recorded -1; pad 0
is available, has one pattern, and every step of it is active. Yet the period
stores no voice and leaves the recorded step at -1: the sequencer is evaluated
only for a step index that is not negative -/
theorem negative_step_not_evaluated :
    exFarBeat.state = TState.TS_RUNNING
    ∧ stepIndex exFarBeat = -12
    ∧ stepIndex exFarBeat ≠ exAllActive.transportStep
    ∧ (exAllActive.pad 0).available = true
    ∧ 0 < (exAllActive.pad 0).nPatterns
    ∧ (exAllActive.pad 0).patterns.map (fun q => (q.nSteps, q.steps.all (fun st => st.active)))
        = [(16, true)]
    ∧ (transportPhase exAllActive exFarBeat).allocLog = []
    ∧ (transportPhase exAllActive exFarBeat).voiceIdx = exAllActive.voiceIdx
    ∧ (transportPhase exAllActive exFarBeat).voices.map (fun v => v.playSample)
        = List.replicate 8 false
    ∧ (transportPhase exAllActive exFarBeat).transportStep = -1
    ∧ (transportPhase exAllActive exFarBeat).transportStep ≠ stepIndex exFarBeat := by
  decide

/-- C10, the claim as stated fails: with the pattern of the claim, the period
that brings the step index from 3 to 4 (beat 1, pulse 0) stores no voice -/
theorem no_trigger_on_step_four :
    stepIndex (exTransport 1 0) = 4
    ∧ ((exEngine ℚ).pad 0).available = true
    ∧ ((exEngine ℚ).pad 0).patterns = [exPattern]
    ∧ (transportPhase { (exEngine ℚ) with transportStep := 3 } (exTransport 1 0)).transportStep = 4
    ∧ (transportPhase { (exEngine ℚ) with transportStep := 3 } (exTransport 1 0)).allocLog = []
    ∧ (transportPhase { (exEngine ℚ) with transportStep := 3 } (exTransport 1 0)).voiceIdx = 0
    ∧ (transportPhase { (exEngine ℚ) with transportStep := 3 } (exTransport 1 0)).voices.map
        (fun v => v.playSample) = List.replicate 8 false := by
  decide

theorem first_step_pattern_triggers_witness :
    (exEngine ℚ).voiceIdx < (exEngine ℚ).numVoices
    ∧ (exTransport 4 3).state = TState.TS_RUNNING ∧ (exTransport 4 3).nPulses = 24
    ∧ 0 ≤ (exTransport 4 3).beat ∧ (exTransport 4 3).beat < 2 ^ 29
    ∧ 0 ≤ (exTransport 4 3).pulse ∧ (exTransport 4 3).pulse < 24
    ∧ (stepIndex (exTransport 4 3) = 0 ↔ (exTransport 4 3).beat % 4 = 0 ∧ (exTransport 4 3).pulse < 6)
    ∧ (stepIndex (exTransport 4 3) = (exTransport 4 3).beat % 4 * 4 + (exTransport 4 3).pulse / 6)
    ∧ (∃ recs : List (Voice ℚ),
        (transportPhase (exEngine ℚ) (exTransport 4 3)).voices
          = storeAll (exEngine ℚ).voices (ringWrites (exEngine ℚ) recs)
        ∧ recs.filter (fun v => decide (v.padIdx = 0))
          = [stepVoice 0 0 (exPad ℚ) { active := true, velocity := 127 }])
    ∧ (transportPhase (exEngine ℚ) (exTransport 4 3)).voices.map
          (fun v => (v.playSample, v.padIdx, v.startIdx, v.bufferLen))
        = (true, 0, 0, 100) :: List.replicate 7 (false, 0, 0, 0) := by
  have hrest : ∀ p ∈ [exPad2 ℚ], p.available = true → p.nPatterns ≠ 0 →
      (curStep (stepIndex (exTransport 4 3)) p).isSome = true := by
    intro p hp _ _
    have hp' : p = exPad2 ℚ := by simpa using hp
    subst hp'
    decide
  obtain ⟨⟨recs, -, h1, -, -, h4⟩, h5, h6, -⟩ :=
    first_step_pattern_triggers (exEngine ℚ) (exTransport 4 3) (exPad ℚ) [exPad2 ℚ]
      { active := true, velocity := 127 } (List.replicate 15 Step.blank) (by decide) rfl rfl rfl
      rfl rfl rfl (by decide) hrest rfl rfl (by decide) (by decide) (by decide) (by decide)
  rw [if_pos (by decide)] at h4
  exact ⟨by decide, rfl, rfl, by decide, by decide, by decide, by decide, h5, h6, ⟨recs, h1, h4⟩,
    by decide⟩

/-- C6, the claim as stated fails: a control change for controller 7 arriving in
the period that observes the swap overwrites the gain of pad 0, so the active
configuration after the period is not the published one -/
theorem control_change_alters_published :
    (ProcessAudioMidi (fun y => y)
        (SetConfiguration (exExt ℚ (fun y => y) (fun y => y) true (exSample ℚ).info.s0)
          (exEngine ℚ) (exConfig ℚ))
        (exInput ℚ [⟨0, 0xb3, 7, 127⟩] [])).1.cur
      ≠ published (exExt ℚ (fun y => y) (fun y => y) true (exSample ℚ).info.s0) (exEngine ℚ)
          (exConfig ℚ) := by
  intro h
  have h2 := congrArg (fun c : Config ℚ => (c.pads.getD 0 Pad.blank).gain) h
  have hl : (fun c : Config ℚ => (c.pads.getD 0 Pad.blank).gain)
      (ProcessAudioMidi (fun y => y)
        (SetConfiguration (exExt ℚ (fun y => y) (fun y => y) true (exSample ℚ).info.s0)
          (exEngine ℚ) (exConfig ℚ))
        (exInput ℚ [⟨0, 0xb3, 7, 127⟩] [])).1.cur = ((127 &&& 0x7f : ℕ) : ℚ) / 127 := rfl
  have hr : (fun c : Config ℚ => (c.pads.getD 0 Pad.blank).gain)
      (published (exExt ℚ (fun y => y) (fun y => y) true (exSample ℚ).info.s0) (exEngine ℚ)
          (exConfig ℚ)) = min 6 (max (-200) 0) := rfl
  rw [hl, hr] at h2
  have h127 : (127 &&& 0x7f : ℕ) = 127 := by decide
  rw [h127] at h2
  norm_num at h2

theorem config_swap_observed_witness :
    (exEngine ℚ).isInitialized = true ∧ (exEngine ℚ).curConfig ≤ 1
    ∧ (ProcessAudioMidi (fun y => y)
        (SetConfiguration (exExt ℚ (fun y => y) (fun y => y) true (exSample ℚ).info.s0)
          (exEngine ℚ) (exConfig ℚ))
        (exInput ℚ [⟨0, 0xb3, 7, 127⟩] [])).1.curConfig = 1
    ∧ (ProcessAudioMidi (fun y => y)
        (SetConfiguration (exExt ℚ (fun y => y) (fun y => y) true (exSample ℚ).info.s0)
          (exEngine ℚ) (exConfig ℚ))
        (exInput ℚ [⟨0, 0xb3, 7, 127⟩] [])).1.updateConfig = false
    ∧ (ProcessAudioMidi (fun y => y)
        (SetConfiguration (exExt ℚ (fun y => y) (fun y => y) true (exSample ℚ).info.s0)
          (exEngine ℚ) (exConfig ℚ))
        (exInput ℚ [⟨0, 0xb3, 7, 127⟩] [])).1.cur.pads.map (fun p => p.gain) = [1, 0]
    ∧ (ProcessAudioMidi (fun y => y)
        (SetConfiguration (exExt ℚ (fun y => y) (fun y => y) true (exSample ℚ).info.s0)
          (exEngine ℚ) (exConfig ℚ))
        (exInput ℚ [⟨0, 0xb3, 7, 127⟩] [])).1.cur.pads.map (fun p => (p.ctrl, p.gain))
      = [(7, ((127 &&& 0x7f : ℕ) : ℚ) / 127), (8, min 6 (max (-200) 0))] := by
  have h := config_swap_observed (exExt ℚ (fun y => y) (fun y => y) true (exSample ℚ).info.s0)
    (exEngine ℚ) (exConfig ℚ) (exInput ℚ [⟨0, 0xb3, 7, 127⟩] []) rfl (by decide)
  refine ⟨rfl, by decide, h.1, h.2.2.1, ?_, rfl⟩
  have e := congrArg (fun c : Config ℚ => c.pads.map (fun p => p.gain)) h.2.2.2.1
  have hr : (fun c : Config ℚ => c.pads.map (fun p => p.gain))
      (ProcessAudioMidi (fun y => y)
        (SetConfiguration (exExt ℚ (fun y => y) (fun y => y) true (exSample ℚ).info.s0)
          (exEngine ℚ) (exConfig ℚ))
        (exInput ℚ [⟨0, 0xb3, 7, 127⟩] [])).1.cur
      = [((127 &&& 0x7f : ℕ) : ℚ) / 127, min 6 (max (-200) 0)] := e.trans rfl
  have h127 : (127 &&& 0x7f : ℕ) = 127 := by decide
  rw [h127] at hr
  simp only at hr
  rw [hr]
  norm_num

/-- C7, the claim as stated fails: a pad whose sample file is missing is
published with the gain it came in with, here 100 -/
theorem missing_sample_gain_unclamped :
    ¬ ((published (exExt ℚ (fun y => y) (fun y => y) false WaveInfo.blank) (exEngine ℚ)
          { (exConfig ℚ) with pads := [{ (exPad ℚ) with gain := 100 }, exPad2 ℚ] }).pads.getD 0
        Pad.blank).gain ≤ 6 := by
  have h : ((published (exExt ℚ (fun y => y) (fun y => y) false WaveInfo.blank) (exEngine ℚ)
          { (exConfig ℚ) with pads := [{ (exPad ℚ) with gain := 100 }, exPad2 ℚ] }).pads.getD 0
        Pad.blank).gain = 100 := rfl
  rw [h]
  norm_num

theorem published_pads_derived_witness :
    (exExt ℝ Real.sqrt (fun d => (10 : ℝ) ^ (d / 20)) true (exSample ℝ).info.s0).sqrt = Real.sqrt
    ∧ (exExt ℝ Real.sqrt (fun d => (10 : ℝ) ^ (d / 20)) true (exSample ℝ).info.s0).DbToLin
        = (fun d => (10 : ℝ) ^ (d / 20))
    ∧ 0 < (exExt ℝ Real.sqrt (fun d => (10 : ℝ) ^ (d / 20)) true
        (exSample ℝ).info.s0).SAMPLER_NUM_PADS
    ∧ (published (exExt ℝ Real.sqrt (fun d => (10 : ℝ) ^ (d / 20)) true (exSample ℝ).info.s0)
        (exEngine ℝ) (exConfig ℝ)).pads.length = 2
    ∧ ((published (exExt ℝ Real.sqrt (fun d => (10 : ℝ) ^ (d / 20)) true (exSample ℝ).info.s0)
        (exEngine ℝ) (exConfig ℝ)).pads.getD 0 Pad.blank).gain ≤ 6
    ∧ ((published (exExt ℝ Real.sqrt (fun d => (10 : ℝ) ^ (d / 20)) true (exSample ℝ).info.s0)
        (exEngine ℝ) (exConfig ℝ)).pads.getD 0 Pad.blank).lengthSamps
        = ⌊((published (exExt ℝ Real.sqrt (fun d => (10 : ℝ) ^ (d / 20)) true
              (exSample ℝ).info.s0) (exEngine ℝ) (exConfig ℝ)).pads.getD 0 Pad.blank).lengthMs
            * ((exEngine ℝ).sampleRate : ℝ) / 1000⌋₊
    ∧ ((published (exExt ℝ Real.sqrt (fun d => (10 : ℝ) ^ (d / 20)) true (exSample ℝ).info.s0)
        (exEngine ℝ) (exConfig ℝ)).pads.getD 0 Pad.blank).lengthSamps = 48000 := by
  have h := published_pads_derived
    (exExt ℝ Real.sqrt (fun d => (10 : ℝ) ^ (d / 20)) true (exSample ℝ).info.s0)
    (exEngine ℝ) (exConfig ℝ) rfl rfl 0 (by decide)
  have h3 := h.2.2.1 rfl
  have hl : ((published (exExt ℝ Real.sqrt (fun d => (10 : ℝ) ^ (d / 20)) true
      (exSample ℝ).info.s0) (exEngine ℝ) (exConfig ℝ)).pads.getD 0 Pad.blank).lengthMs
      = 1000 := (rfl : _ = min (1000 : ℝ) 1000).trans (min_self _)
  have hr : ((exEngine ℝ).sampleRate : ℝ) = 48000 := by
    have : (exEngine ℝ).sampleRate = 48000 := rfl
    rw [this]
    norm_num
  have hd : ((published (exExt ℝ Real.sqrt (fun d => (10 : ℝ) ^ (d / 20)) true
      (exSample ℝ).info.s0) (exEngine ℝ) (exConfig ℝ)).pads.getD 0 Pad.blank).lengthSamps
      = floorToU32 ⌊min (1000 : ℝ) 1000 * ((48000 : ℕ) : ℝ) / 1000⌋ := rfl
  have hfl : ⌊min (1000 : ℝ) 1000 * ((48000 : ℕ) : ℝ) / 1000⌋ = 48000 := by
    rw [min_self, Int.floor_eq_iff]
    norm_num
  exact ⟨rfl, rfl, by decide, h.1, h3.2.1,
    h3.2.2.2.2.2.2 (by rw [hl, hr]; norm_num) (by rw [hl, hr]; norm_num),
    by rw [hd, hfl]; rfl⟩

/-- C8, the claim as stated fails: with four voices per pad and two pads, six
triggers of pad 0 in one period leave six voices playing; the two assigned first
(slots 0 and 1) are among them -/
theorem six_triggers_six_playing :
    (exEngine ℚ).numVoices = 4 * 2
    ∧ (exEngine ℚ).voices.countP (fun v => v.playSample) = 0
    ∧ (ProcessAudioMidi (fun y => y) (exEngine ℚ)
        (exInput ℚ [] [(0, 1), (0, 1), (0, 1), (0, 1), (0, 1), (0, 1)])).1.voices.countP
          (fun v => v.playSample) = 6
    ∧ (ProcessAudioMidi (fun y => y) (exEngine ℚ)
        (exInput ℚ [] [(0, 1), (0, 1), (0, 1), (0, 1), (0, 1), (0, 1)])).1.voices.map
          (fun v => v.playSample) = [true, true, true, true, true, true, false, false] := by
  decide

theorem playing_after_triggers_witness :
    (exEngine ℚ).isInitialized = true ∧ (exEngine ℚ).updateConfig = false
    ∧ (exEngine ℚ).voiceIdx < (exEngine ℚ).numVoices
    ∧ (exEngine ℚ).bufferSize < ((exEngine ℚ).pad 0).lengthSamps
    ∧ (ProcessAudioMidi (exExt ℚ (fun y => y) (fun y => y) true WaveInfo.blank).sqrt (exEngine ℚ)
        (exInput ℚ [] [(0, 1), (0, 1), (0, 1), (0, 1), (0, 1), (0, 1), (0, 1), (0, 1), (0, 1)]
          )).1.voices.countP (fun v => v.playSample)
        = min (exInput ℚ [] [(0, 1), (0, 1), (0, 1), (0, 1), (0, 1), (0, 1), (0, 1), (0, 1),
            (0, 1)]).triggers.length (exEngine ℚ).numVoices := by
  have h := playing_after_triggers (exExt ℚ (fun y => y) (fun y => y) true WaveInfo.blank)
    (exEngine ℚ)
    (exInput ℚ [] [(0, 1), (0, 1), (0, 1), (0, 1), (0, 1), (0, 1), (0, 1), (0, 1), (0, 1)]) 0
    rfl rfl rfl (by decide) (by decide) (by decide) rfl (by decide) (by decide) (by decide) rfl
    (by decide) (by decide)
  exact ⟨rfl, rfl, by decide, by decide, h.1⟩

/-- C5, evaluated: a sample file that exists but does not decode. After the
first publish and a period pad 0 is unavailable; after the same configuration
is published again and a period ran, pad 0 is available while its live sample
slot is not valid -/
theorem available_pad_without_valid_sample :
    (exFirst.pad 0).available = false
    ∧ (exSecond.pad 0).available = true
    ∧ (liveInfo exSecond.samples 0).valid = false := by
  decide

end Evaluation

section LaterEvaluation

theorem step_index_selects_first_pattern_witness :
    (exTransport 5 13).state = TState.TS_RUNNING ∧ 0 ≤ (exTransport 5 13).beat
    ∧ 0 ≤ (exTransport 5 13).pulse ∧ 0 < (exTransport 5 13).nPulses
    ∧ 4 * (exTransport 5 13).beat
        + ⌊(4 * (exTransport 5 13).pulse : ℚ) / ((exTransport 5 13).nPulses : ℚ)⌋ < 2 ^ 31
    ∧ stepIndex (exTransport 5 13) = 6
    ∧ 0 ≤ stepIndex (exTransport 5 13) ∧ stepIndex (exTransport 5 13) ≤ 15
    ∧ floorToU32 (Int.fdiv (stepIndex (exTransport 5 13)) 16) % 3 = 0 := by
  have hfit : 4 * (exTransport 5 13).beat
      + ⌊(4 * (exTransport 5 13).pulse : ℚ) / ((exTransport 5 13).nPulses : ℚ)⌋ < 2 ^ 31 := by
    have hfl : ⌊(4 * (exTransport 5 13).pulse : ℚ) / ((exTransport 5 13).nPulses : ℚ)⌋ < 100 := by
      rw [Int.floor_lt]
      norm_num [exTransport]
    have hb : (exTransport 5 13).beat = 5 := rfl
    rw [hb]
    omega
  have h := step_index_selects_first_pattern (K := ℚ) (exTransport 5 13) rfl (by decide)
    (by decide) (by decide) hfit
  exact ⟨rfl, by decide, by decide, by decide, hfit, by decide, h.2.1, h.2.2.1, h.2.2.2.1 3⟩

/-- C11, the claim as stated fails: at beat `2 ^ 29 + 1`, pulse 0, with 24 pulses
per beat, the transport is running and beat and pulse are not negative, yet the
step index the source computes is -12: four times the beat does not fit the
32-bit `int`. It is neither in `[0, 15]` nor the 4 of the formula -/
theorem step_index_wraps :
    exFarBeat.state = TState.TS_RUNNING ∧ 0 ≤ exFarBeat.beat ∧ 0 ≤ exFarBeat.pulse
    ∧ 0 < exFarBeat.nPulses
    ∧ stepIndex exFarBeat = -12
    ∧ ¬ 0 ≤ stepIndex exFarBeat
    ∧ (4 * exFarBeat.beat + ⌊(4 * exFarBeat.pulse : ℚ) / (exFarBeat.nPulses : ℚ)⌋) % 16 = 4 := by
  refine ⟨rfl, by decide, by decide, by decide, by decide, by decide, ?_⟩
  have h : ⌊(4 * exFarBeat.pulse : ℚ) / (exFarBeat.nPulses : ℚ)⌋ = 0 := by
    simp [exFarBeat, exTransport]
  rw [h]
  decide

theorem ui_trigger_allocation_witness :
    (0 < (exEngine ℚ).cur.numPads ∧ ((exEngine ℚ).pad 0).available = true)
    ∧ (triggerStep (exEngine ℚ) (0, 1)).voiceIdx
        = ((exEngine ℚ).voiceIdx + 1) % (exEngine ℚ).numVoices
    ∧ (¬ (7 < (exEngine ℚ).cur.numPads ∧ ((exEngine ℚ).pad 7).available = true))
    ∧ triggerStep (exEngine ℚ) (7, 1) = exEngine ℚ := by
  have h0 := ui_trigger_allocation (exEngine ℚ) 0 1
  have h7 := ui_trigger_allocation (exEngine ℚ) 7 1
  exact ⟨by decide, (h0.1 (by decide)).2.2, by decide, h7.2 (by decide)⟩

theorem sample_commit_witness :
    (exEngine ℚ).isInitialized = true
    ∧ (ProcessAudioMidi (fun y => y) (exEngine ℚ) (exInput ℚ [] [])).1.samples
        = commitSamples (exEngine ℚ).samples :=
  ⟨rfl, ((sample_commit (fun y => y) (exEngine ℚ) (exInput ℚ [] [])).2.2.2 rfl).1⟩

theorem stereo_gain_clamped_witness :
    (triggerVoice 0 1 (exPad ℚ)).playSample = true
    ∧ (liveInfo [exStereo ℚ] (triggerVoice 0 1 (exPad ℚ)).padIdx).valid = true
    ∧ 1 < (liveInfo [exStereo ℚ] (triggerVoice 0 1 (exPad ℚ)).padIdx).numChans
    ∧ (triggerVoice 0 1 (exPad ℚ)).startIdx
        ≤ min 16 ((triggerVoice 0 1 (exPad ℚ)).bufferLen - (triggerVoice 0 1 (exPad ℚ)).bufferIdx)
    ∧ min 1 ((triggerVoice 0 1 (exPad ℚ)).gainL * (fun y : ℚ => y) 2) ≤ 1 := by
  have h := stereo_gain_clamped (fun y : ℚ => y) [exStereo ℚ] 16 (triggerVoice 0 1 (exPad ℚ))
    ([], []) rfl (by decide) (by decide) (by decide) (by decide) (by decide) (by decide)
  exact ⟨rfl, by decide, by decide, by decide, h.2.2.1⟩

/-- C17, evaluated: a note-on at frame 200 of a 256-frame period for a pad whose
sample has 48 frames. The voice meets the conditions of the claim, yet
`len = min(256, 48) - 200` wraps to `2^32 - 152`: the loop reaches output index
256 at `i = 56` and source index 48 at `i = 48`, and the period leaves
`bufferIdx = 2^32 - 152`, beyond `bufferLen = 48`. -/
theorem late_trigger_underflow :
    ((collectPhase exShort exLate).voices.getD 0 Voice.blank).playSample = true
    ∧ ((collectPhase exShort exLate).voices.getD 0 Voice.blank).startIdx = 200
    ∧ ((collectPhase exShort exLate).voices.getD 0 Voice.blank).bufferIdx = 0
    ∧ ((collectPhase exShort exLate).voices.getD 0 Voice.blank).bufferLen = 48
    ∧ (collectPhase exShort exLate).bufferSize = 256
    ∧ 48 ≤ ((liveBuffer (commitSamples (collectPhase exShort exLate).samples) 0).getD 0 []).length
    ∧ mixLen 256 ((collectPhase exShort exLate).voices.getD 0 Voice.blank) = 4294967144
    ∧ 256 ≤ uadd ((collectPhase exShort exLate).voices.getD 0 Voice.blank).startIdx 56
    ∧ 48 ≤ uadd ((collectPhase exShort exLate).voices.getD 0 Voice.blank).bufferIdx 48
    ∧ ((ProcessAudioMidi (fun y => y) exShort exLate).1.voices.getD 0 Voice.blank).bufferIdx
        = 4294967144
    ∧ ((ProcessAudioMidi (fun y => y) exShort exLate).1.voices.getD 0 Voice.blank).bufferLen
        = 48 := by
  decide


theorem step_round_trip_witness :
    (200 : Nat) < U32
    ∧ Step.from_json (Step.to_json { active := true, velocity := 200 } : Json ℚ) Step.blank
        = .ok { active := true, velocity := min 127 200 } :=
  ⟨by decide,
    (step_round_trip (K := ℚ) { active := true, velocity := 200 } Step.blank (by decide)).1⟩

/-- C15, the claim as stated fails: a configuration with `numPads = 2` and a
single pad comes back from its JSON with `numPads = 2` and a single pad,
whatever a default-constructed pad and pattern are: the deserialiser does not
resize the pads, and what it returns does not have `numPads` pads -/
theorem pad_count_not_resized :
    ¬ ∃ (d : Defaults ℚ) (r : sampler.Config ℚ),
        sampler.Config.from_json d (sampler.Config.to_json (exFileConfig [exFilePad]))
            (exFileConfig [exFilePad]) = .ok r
        ∧ r.pads.length = r.numPads := by
  rintro ⟨d, r, h1, h2⟩
  have hsize : (match sampler.Config.from_json d
        (sampler.Config.to_json (exFileConfig [exFilePad])) (exFileConfig [exFilePad]) with
      | .ok c => (c.pads.length, c.numPads)
      | .error _ => (0, 0)) = (1, 2) := rfl
  rw [h1] at hsize
  simp only [Prod.mk.injEq] at hsize
  omega

theorem config_round_trip_witness :
    (exFileConfig [exFilePad, exFilePad]).Fits
    ∧ (sampler.Config.from_json exDefaults
          (sampler.Config.to_json (exFileConfig [exFilePad, exFilePad])) (exFileConfig [])
        = .ok { (exFileConfig [exFilePad, exFilePad]) with
            pads := (exFileConfig [exFilePad, exFilePad]).pads.map (fun p => { exDefaults.pad with
              available := p.available, tone := p.tone, ctrl := p.ctrl
              sample := p.sample, sampleIdx := p.sampleIdx, gain := p.gain
              pitch := p.pitch, nPatterns := p.nPatterns
              patterns := p.patterns.map (fun q => { q with
                steps := q.steps.map (fun s => { s with velocity := min 127 s.velocity }) }) }) })
    ∧ (match sampler.Config.from_json exDefaults
          (sampler.Config.to_json (exFileConfig [exFilePad, exFilePad])) (exFileConfig []) with
        | .ok c => c.pads.map (fun p => (p.available, p.tone, p.ctrl, p.sample, p.nPatterns))
        | .error _ => [])
      = [(true, 60, 7, "kick.wav", 1), (true, 60, 7, "kick.wav", 1)] :=
  ⟨by decide,
    (config_round_trip exDefaults (exFileConfig [exFilePad, exFilePad]) (exFileConfig [])
      (by decide)).1, rfl⟩

end LaterEvaluation

end mck
